import Mathlib

/-!
Verification of the sip_event_processor repository against its
natural-language specification.

The C++ sources are shallowly embedded: `std::string` becomes `List Char`
(ASCII; `std::tolower` in the C locale is modelled on the ASCII range),
machine integers become `Nat` / `Int` (none of the verified paths can
overflow their 32/64-bit C++ counterparts on the inputs considered),
`Clock::now()` becomes an explicit `Nat` parameter, and the side effects of
the dialog worker (SIP responses, NOTIFYs, store writes, index and registry
mutations) become an explicit list of `Effect` values.
-/

namespace SipProc

/-- A C++ `std::string` is modelled as a list of ASCII characters. -/
abbrev Str := List Char

/-! ### Generic string helpers mirroring `std::string` operations -/

/-- `std::tolower` restricted to ASCII (the repository only ever feeds it
SIP URIs and header names). Maps A-Z to a-z and leaves everything else
unchanged. -/
def asciiLower (c : Char) : Char :=
  if 'A' ≤ c ∧ c ≤ 'Z' then Char.ofNat (c.toNat + 32) else c

/-- `std::string::find(pat)` : index of the first occurrence of `pat`,
`none` for `npos`. -/
def findSub (pat : Str) : Str → Option Nat
  | [] => if pat.isPrefixOf ([] : Str) then some 0 else none
  | c :: s => if pat.isPrefixOf (c :: s) then some 0
              else (findSub pat s).map Nat.succ

/-- `std::string::find(pat, pos)` : first occurrence starting at or after
`pos`. -/
def findFrom (pat : Str) (s : Str) (pos : Nat) : Option Nat :=
  (findSub pat (s.drop pos)).map (· + pos)

/-! ### Specification lemmas for `findSub` / `findFrom` -/

theorem findSub_eq_some_occ {pat s : Str} {i : Nat}
    (h : findSub pat s = some i) : pat <+: s.drop i := by
  induction s generalizing i with
  | nil =>
    unfold findSub at h
    split at h
    · obtain rfl : i = 0 := by simpa using h.symm
      exact List.isPrefixOf_iff_prefix.mp (by assumption)
    · exact absurd h (by simp)
  | cons c s ih =>
    unfold findSub at h
    split at h
    · obtain rfl : i = 0 := by simpa using h.symm
      exact List.isPrefixOf_iff_prefix.mp (by assumption)
    · obtain ⟨j, hj, rfl⟩ := Option.map_eq_some'.mp h
      simpa using ih hj

theorem findSub_eq_some_least {pat s : Str} {i : Nat}
    (h : findSub pat s = some i) : ∀ j, j < i → ¬ pat <+: s.drop j := by
  induction s generalizing i with
  | nil =>
    unfold findSub at h
    split at h
    · obtain rfl : i = 0 := by simpa using h.symm
      omega
    · exact absurd h (by simp)
  | cons c s ih =>
    unfold findSub at h
    split at h
    · obtain rfl : i = 0 := by simpa using h.symm
      omega
    · obtain ⟨k, hk, rfl⟩ := Option.map_eq_some'.mp h
      intro j hj hpre
      match j with
      | 0 =>
        exact (by assumption : ¬ pat.isPrefixOf (c :: s))
          (List.isPrefixOf_iff_prefix.mpr (by simpa using hpre))
      | j + 1 =>
        exact ih hk j (by omega) (by simpa using hpre)

theorem findSub_eq_none {pat s : Str}
    (h : findSub pat s = none) : ∀ j, ¬ pat <+: s.drop j := by
  induction s with
  | nil =>
    unfold findSub at h
    split at h
    · exact absurd h (by simp)
    · intro j hpre
      rw [List.drop_nil] at hpre
      exact (by assumption : ¬ pat.isPrefixOf ([] : Str))
        (List.isPrefixOf_iff_prefix.mpr hpre)
  | cons c s ih =>
    unfold findSub at h
    split at h
    · exact absurd h (by simp)
    · intro j hpre
      match j with
      | 0 =>
        exact (by assumption : ¬ pat.isPrefixOf (c :: s))
          (List.isPrefixOf_iff_prefix.mpr (by simpa using hpre))
      | j + 1 =>
        exact ih (by simpa using h) j (by simpa using hpre)

theorem findSub_isSome_of_occ {pat s : Str} {i : Nat}
    (h : pat <+: s.drop i) : ∃ j, j ≤ i ∧ findSub pat s = some j := by
  cases hf : findSub pat s with
  | none => exact absurd h (findSub_eq_none hf i)
  | some j =>
    refine ⟨j, ?_, rfl⟩
    by_contra hij
    exact findSub_eq_some_least hf i (by omega) h

theorem findSub_of_pref {pat s : Str} (h : pat <+: s) :
    findSub pat s = some 0 := by
  cases s with
  | nil =>
    unfold findSub
    rw [if_pos (List.isPrefixOf_iff_prefix.mpr h)]
  | cons c s =>
    unfold findSub
    rw [if_pos (List.isPrefixOf_iff_prefix.mpr h)]

/-- "No occurrence of `pat` begins inside `x`, whatever follows `x`." -/
def NoStart (pat x : Str) : Prop :=
  ∀ i, i < x.length → ∀ rest : Str, ¬ pat <+: (x.drop i ++ rest)

theorem noStart_nil (pat : Str) : NoStart pat [] := by
  intro i hi
  simp at hi

theorem noStart_append {pat a b : Str}
    (ha : NoStart pat a) (hb : NoStart pat b) : NoStart pat (a ++ b) := by
  intro i hi rest hpre
  rcases Nat.lt_or_ge i a.length with h | h
  · rw [List.drop_append_of_le_length (by omega), List.append_assoc] at hpre
    exact ha i h (b ++ rest) hpre
  · rw [List.drop_append_eq_append_drop] at hpre
    rw [show a.drop i = [] from List.drop_eq_nil_of_le h] at hpre
    rw [List.length_append] at hi
    exact hb (i - a.length) (by omega) rest (by simpa using hpre)

theorem noStart_cons {pat : Str} {c : Char} {x : Str}
    (hc : ∀ rest : Str, ¬ pat <+: (c :: rest))
    (hx : NoStart pat x) : NoStart pat (c :: x) := by
  intro i hi rest hpre
  match i with
  | 0 => exact hc (x ++ rest) (by simpa using hpre)
  | i + 1 => exact hx i (by simpa using hi) rest (by simpa using hpre)

theorem head_mismatch {pat : Str} {c c0 : Char} (hpat : pat.head? = some c0)
    (hne : c ≠ c0) : ∀ rest : Str, ¬ pat <+: (c :: rest) := by
  intro rest hpre
  obtain ⟨t, ht⟩ := hpre
  cases pat with
  | nil => simp at hpat
  | cons p ps =>
    obtain rfl : p = c0 := by simpa using hpat
    exact hne (by simpa using congrArg List.head? ht.symm)

/-- If `pat` disagrees with `fixed` at some index inside both, then no list
that starts with `fixed` has `pat` as a prefix. -/
theorem fixed_mismatch {pat fixed : Str} {j : Nat}
    (hj : j < fixed.length) (hjp : j < pat.length)
    (hne : pat[j]? ≠ fixed[j]?) : ∀ rest : Str, ¬ pat <+: (fixed ++ rest) := by
  intro rest hpre
  obtain ⟨t, ht⟩ := hpre
  apply hne
  have h1 : (fixed ++ rest)[j]? = pat[j]? := by
    rw [← ht, List.getElem?_append_left hjp]
  rw [← h1, List.getElem?_append_left hj]

/-- A pattern that starts with '<' cannot begin anywhere inside a
'<'-free string. -/
theorem noStart_of_no_lt {pat x : Str} (hpat : pat.head? = some '<')
    (hx : '<' ∉ x) : NoStart pat x := by
  induction x with
  | nil => exact noStart_nil pat
  | cons c x ih =>
    refine noStart_cons (head_mismatch hpat ?_) (ih (by simp at hx; exact hx.2))
    intro hc
    exact hx (by simp [hc])

theorem findSub_cons (pat : Str) (c : Char) (s : Str) :
    findSub pat (c :: s) =
      if pat.isPrefixOf (c :: s) then some 0 else (findSub pat s).map Nat.succ := rfl

theorem findSub_append_shift {pat a b : Str} (ha : NoStart pat a) :
    findSub pat (a ++ b) = (findSub pat b).map (· + a.length) := by
  induction a with
  | nil => simp
  | cons c a ih =>
    have hnotpre : ¬ pat.isPrefixOf (c :: (a ++ b)) := by
      intro h
      exact ha 0 (by simp) b
        (by simpa using List.isPrefixOf_iff_prefix.mp h)
    have htail : NoStart pat a := by
      intro i hi rest hpre
      exact ha (i + 1) (by simpa using hi) rest (by simpa using hpre)
    show findSub pat (c :: (a ++ b)) = _
    rw [findSub_cons, if_neg hnotpre, ih htail]
    cases findSub pat b with
    | none => simp
    | some k =>
      simp only [Option.map_some', List.length_cons]
      congr 1
      try omega

theorem findFrom_eq {pat s : Str} {pos : Nat} :
    findFrom pat s pos = (findSub pat (s.drop pos)).map (· + pos) := rfl

end SipProc

namespace SipProc

/-! ### `BlfSubscriptionIndex::normalize_uri`
    (src/subscription/blf_subscription_index.cpp, lines 17-60)

The C++ body is a sequence of in-place edits; each is translated as a
small function, applied in the same order.  `at_pos` is computed once on
the string as it stands after parameter stripping and reused for the
host-lowercase step, exactly as in the source. -/

/-- `if (normalized.front() == '<') normalized.erase(0, 1);` (line 23). -/
def stripAngleL (s : Str) : Str :=
  if s.head? = some '<' then s.tail else s

/-- `if (!normalized.empty() && normalized.back() == '>') pop_back;` (line 24). -/
def stripAngleR (s : Str) : Str :=
  if s ≠ [] ∧ s.getLast? = some '>' then s.dropLast else s

/-- Strip one leading '<' and then one trailing '>' (lines 22-24). -/
def stripAngles (s : Str) : Str := stripAngleR (stripAngleL s)

/-- Erase everything from the first ';' on (lines 26-28). -/
def stripParams (s : Str) : Str :=
  match findSub [';'] s with
  | some i => s.take i
  | none => s

/-- Drop a port suffix equal to `5060` after the first ':' that follows the
first '@' (lines 30-39). -/
def dropPort5060 (s : Str) : Str :=
  match findSub ['@'] s with
  | some a =>
    match findFrom [':'] s a with
    | some colon => if s.drop (colon + 1) = "5060".data then s.take colon else s
    | none => s
  | none => s

/-- Lowercase characters `0 .. scheme_end` inclusive, where `scheme_end` is
the first ':' anywhere in the string (lines 41-47). -/
def lowerScheme (s : Str) : Str :=
  match findSub [':'] s with
  | some k => (s.take (k + 1)).map asciiLower ++ s.drop (k + 1)
  | none => s

/-- Lowercase everything after position `atPos` (the first '@' recorded
earlier), when that position is still inside the string (lines 49-52). -/
def lowerHost (atPos : Option Nat) (s : Str) : Str :=
  match atPos with
  | some a => if a < s.length then s.take (a + 1) ++ (s.drop (a + 1)).map asciiLower else s
  | none => s

/-- Prepend `sip:` when neither `sip:` nor `sips:` occurs at position 0
(lines 54-57; `find(...) != 0` means "not a prefix"). -/
def addSipScheme (s : Str) : Str :=
  if findSub "sip:".data s = some 0 ∨ findSub "sips:".data s = some 0 then s
  else "sip:".data ++ s

/-- `BlfSubscriptionIndex::normalize_uri`. -/
def normalize_uri (uri : Str) : Str :=
  if uri = [] then []
  else
    let n2 := stripAngles uri
    let n3 := stripParams n2
    let atPos := findSub ['@'] n3
    let n4 := dropPort5060 n3
    let n5 := lowerScheme n4
    let n6 := lowerHost atPos n5
    addSipScheme n6

theorem normalize_uri_eq {u : Str} (h : u ≠ []) :
    normalize_uri u =
      addSipScheme (lowerHost (findSub ['@'] (stripParams (stripAngles u)))
        (lowerScheme (dropPort5060 (stripParams (stripAngles u))))) := by
  unfold normalize_uri
  rw [if_neg h]

/-! ### Further occurrence helpers -/

theorem noStart_of_head_not_mem {pat x : Str} {c0 : Char}
    (hpat : pat.head? = some c0) (hx : c0 ∉ x) : NoStart pat x := by
  induction x with
  | nil => exact noStart_nil pat
  | cons c x ih =>
    refine noStart_cons (head_mismatch hpat ?_) (ih ?_)
    · intro hc
      exact hx (by simp [hc])
    · intro hmem
      exact hx (by simp [hmem])

theorem findSub_singleton_of_not_mem {c : Char} {s : Str} (h : c ∉ s) :
    findSub [c] s = none := by
  induction s with
  | nil => simp [findSub]
  | cons d s ih =>
    rw [findSub_cons]
    have hcd : ¬ [c].isPrefixOf (d :: s) := by
      simp only [List.isPrefixOf, List.isPrefixOf_nil_left, Bool.and_true]
      intro heq
      exact h (by simp [show c = d from by simpa using heq])
    rw [if_neg hcd, ih (fun hm => h (by simp [hm]))]
    rfl

theorem findSub_append_singleton {c : Char} {a b : Str} (h : c ∉ a) :
    findSub [c] (a ++ c :: b) = some a.length := by
  rw [findSub_append_shift (noStart_of_head_not_mem (by simp) h)]
  rw [findSub_of_pref (show [c] <+: c :: b from ⟨b, rfl⟩)]
  simp

/-! ### C6 : concrete normalization facts and the host-side port drop -/

theorem getLast?_append_of_ne_nil {a b : Str} (h : b ≠ []) :
    (a ++ b).getLast? = b.getLast? := by
  rw [List.getLast?_append]
  cases hb : b.getLast? with
  | none => exact absurd (List.getLast?_eq_none_iff.mp hb) h
  | some c => rfl

theorem mem_of_getLast? {l : Str} {c : Char} (h : l.getLast? = some c) : c ∈ l := by
  induction l with
  | nil => simp at h
  | cons d l ih =>
    cases l with
    | nil =>
      simp at h
      simp [h]
    | cons e l =>
      rw [List.getLast?_cons_cons] at h
      simp [ih h]

/-- What the `5060` port-stripping step does to the portion after '@',
stated on the host string alone. -/
def hostPortDrop (host : Str) : Str :=
  match findSub [':'] host with
  | some c => if host.drop (c + 1) = "5060".data then host.take c else host
  | none => host

/-! ### Character-level facts about `asciiLower` -/

theorem toNat_ofNat_valid {n : Nat} (h : n.isValidChar) :
    (Char.ofNat n).toNat = n := by
  unfold Char.ofNat
  rw [dif_pos h]
  rfl

theorem char_le_iff (a b : Char) : a ≤ b ↔ a.toNat ≤ b.toNat := Iff.rfl

theorem char_eq_iff (a b : Char) : a = b ↔ a.toNat = b.toNat := by
  constructor
  · intro h
    rw [h]
  · intro h
    exact Char.eq_of_val_eq (UInt32.eq_of_toBitVec_eq (BitVec.toNat_injective h))

theorem asciiLower_toNat (c : Char) :
    (asciiLower c).toNat =
      if 65 ≤ c.toNat ∧ c.toNat ≤ 90 then c.toNat + 32 else c.toNat := by
  unfold asciiLower
  by_cases h : 'A' ≤ c ∧ c ≤ 'Z'
  · have h1 := (char_le_iff 'A' c).mp h.1
    have h2 := (char_le_iff c 'Z').mp h.2
    have hA : ('A' : Char).toNat = 65 := rfl
    have hZ : ('Z' : Char).toNat = 90 := rfl
    rw [hA] at h1
    rw [hZ] at h2
    rw [if_pos h, if_pos ⟨h1, h2⟩]
    exact toNat_ofNat_valid (Or.inl (by omega))
  · have h' : ¬ (65 ≤ c.toNat ∧ c.toNat ≤ 90) := by
      intro hc
      exact h ⟨(char_le_iff 'A' c).mpr hc.1, (char_le_iff c 'Z').mpr hc.2⟩
    rw [if_neg h, if_neg h']

/-- `asciiLower` is idempotent. -/
theorem asciiLower_idem (c : Char) : asciiLower (asciiLower c) = asciiLower c := by
  rw [char_eq_iff]
  rw [asciiLower_toNat, asciiLower_toNat]
  split_ifs <;> omega

/-- A character that is neither an upper- nor a lower-case ASCII letter is
both fixed by `asciiLower` and reached only from itself. -/
def LowerFaithful (c : Char) : Prop :=
  ¬ (65 ≤ c.toNat ∧ c.toNat ≤ 90) ∧ ¬ (97 ≤ c.toNat ∧ c.toNat ≤ 122)

instance (c : Char) : Decidable (LowerFaithful c) :=
  inferInstanceAs (Decidable (_ ∧ _))

theorem asciiLower_fix {c : Char} (h : LowerFaithful c) : asciiLower c = c := by
  rw [char_eq_iff, asciiLower_toNat, if_neg h.1]

theorem asciiLower_reflect {d c : Char} (hc : LowerFaithful c)
    (h : asciiLower d = c) : d = c := by
  rw [char_eq_iff] at h ⊢
  rw [asciiLower_toNat] at h
  split_ifs at h with hd
  · exact absurd ⟨by omega, by omega⟩ hc.2
  · exact h

/-! ### Single-character occurrences and lowercase-compatible strings -/

theorem singleton_prefix_iff {c : Char} {t : Str} : [c] <+: t ↔ t.head? = some c := by
  constructor
  · rintro ⟨r, rfl⟩
    rfl
  · intro h
    cases t with
    | nil => simp at h
    | cons d t =>
      obtain rfl : d = c := by simpa using h
      exact ⟨t, rfl⟩

theorem singleton_occ_iff {c : Char} {s : Str} {i : Nat} :
    [c] <+: s.drop i ↔ s[i]? = some c := by
  rw [singleton_prefix_iff, ← List.head?_drop]

theorem findSub_eq_of_occ_iff {pat : Str} {s s' : Str}
    (h : ∀ i, (pat <+: s.drop i) ↔ (pat <+: s'.drop i)) :
    findSub pat s = findSub pat s' := by
  cases h1 : findSub pat s with
  | none =>
    cases h2 : findSub pat s' with
    | none => rfl
    | some j =>
      exact absurd ((h j).mpr (findSub_eq_some_occ h2)) (findSub_eq_none h1 j)
  | some i =>
    cases h2 : findSub pat s' with
    | none =>
      exact absurd ((h i).mp (findSub_eq_some_occ h1)) (findSub_eq_none h2 i)
    | some j =>
      rcases Nat.lt_trichotomy i j with hij | hij | hij
      · exact absurd ((h i).mp (findSub_eq_some_occ h1))
          (findSub_eq_some_least h2 i hij)
      · rw [hij]
      · exact absurd ((h j).mpr (findSub_eq_some_occ h2))
          (findSub_eq_some_least h1 j hij)

/-- `s'` differs from `s` only in that some positions are lowercased. -/
def LowerWise (s s' : Str) : Prop :=
  s'.length = s.length ∧
  ∀ i : Nat, s'[i]? = s[i]? ∨ s'[i]? = (s[i]?).map asciiLower

theorem lowerWise_refl (s : Str) : LowerWise s s :=
  ⟨rfl, fun _ => Or.inl rfl⟩

theorem lowerWise_map (s : Str) : LowerWise s (s.map asciiLower) :=
  ⟨by simp, fun i => Or.inr (by simp [List.getElem?_map])⟩

theorem lowerWise_append {a b a' b' : Str} (ha : LowerWise a a')
    (hb : LowerWise b b') : LowerWise (a ++ b) (a' ++ b') := by
  refine ⟨by simp [ha.1, hb.1], fun i => ?_⟩
  rcases Nat.lt_or_ge i a'.length with h | h
  · rw [List.getElem?_append_left h, List.getElem?_append_left (ha.1 ▸ h)]
    exact ha.2 i
  · rw [List.getElem?_append_right h, List.getElem?_append_right (ha.1 ▸ h), ha.1]
    exact hb.2 (i - a.length)

theorem lowerWise_drop {s s' : Str} (h : LowerWise s s') (n : Nat) :
    LowerWise (s.drop n) (s'.drop n) := by
  refine ⟨by simp [h.1], fun i => ?_⟩
  rw [List.getElem?_drop, List.getElem?_drop]
  exact h.2 (n + i)

theorem lowerWise_getElem_faithful {s s' : Str} (h : LowerWise s s')
    {c : Char} (hc : LowerFaithful c) (i : Nat) :
    s'[i]? = some c ↔ s[i]? = some c := by
  rcases h.2 i with heq | heq
  · rw [heq]
  · rw [heq]
    constructor
    · intro hm
      cases hs : s[i]? with
      | none => rw [hs] at hm; simp at hm
      | some d =>
        rw [hs] at hm
        simp only [Option.map_some'] at hm
        exact congrArg some (asciiLower_reflect hc (by simpa using hm))
    · intro hm
      rw [hm]
      simp [asciiLower_fix hc]

theorem findSub_singleton_lowerWise {s s' : Str} (h : LowerWise s s')
    {c : Char} (hc : LowerFaithful c) :
    findSub [c] s' = findSub [c] s := by
  refine findSub_eq_of_occ_iff fun i => ?_
  rw [singleton_occ_iff, singleton_occ_iff]
  exact lowerWise_getElem_faithful h hc i

theorem lowerWise_eq_faithful_iff {s s' x : Str} (h : LowerWise s s')
    (hx : ∀ c ∈ x, LowerFaithful c) : s' = x ↔ s = x := by
  constructor
  · intro he
    refine List.ext_getElem? fun i => ?_
    cases hxi : x[i]? with
    | none =>
      rw [List.getElem?_eq_none_iff] at hxi ⊢
      have := h.1
      have hlen : s'.length = x.length := by rw [he]
      omega
    | some c =>
      exact (lowerWise_getElem_faithful h
        (hx c (List.getElem?_mem hxi)) i).mp (by rw [he, hxi])
  · intro he
    refine List.ext_getElem? fun i => ?_
    cases hxi : x[i]? with
    | none =>
      rw [List.getElem?_eq_none_iff] at hxi ⊢
      have := h.1
      have hlen : s.length = x.length := by rw [he]
      omega
    | some c =>
      exact (lowerWise_getElem_faithful h
        (hx c (List.getElem?_mem hxi)) i).mpr (by rw [he, hxi])

theorem lowerWise_mem_faithful {s s' : Str} (h : LowerWise s s')
    {c : Char} (hc : LowerFaithful c) : c ∈ s' ↔ c ∈ s := by
  rw [List.mem_iff_getElem?, List.mem_iff_getElem?]
  constructor
  · rintro ⟨i, hi⟩
    exact ⟨i, (lowerWise_getElem_faithful h hc i).mp hi⟩
  · rintro ⟨i, hi⟩
    exact ⟨i, (lowerWise_getElem_faithful h hc i).mpr hi⟩

/-! ### Image properties of the normalizer pipeline (towards C7) -/

theorem lowerWise_trans {s s' s'' : Str} (h1 : LowerWise s s')
    (h2 : LowerWise s' s'') : LowerWise s s'' := by
  refine ⟨h2.1.trans h1.1, fun i => ?_⟩
  rcases h2.2 i with ha | ha <;> rcases h1.2 i with hb | hb
  · exact Or.inl (ha.trans hb)
  · exact Or.inr (ha.trans hb)
  · exact Or.inr (by rw [ha, hb])
  · refine Or.inr ?_
    rw [ha, hb]
    cases s[i]? <;> simp [asciiLower_idem]

theorem map_asciiLower_idem (x : Str) :
    (x.map asciiLower).map asciiLower = x.map asciiLower := by
  rw [List.map_map]
  exact List.map_congr_left fun c _ => asciiLower_idem c

theorem findSub_singleton_lt_length {c : Char} {s : Str} {a : Nat}
    (h : findSub [c] s = some a) : a < s.length := by
  have := singleton_occ_iff.mp (findSub_eq_some_occ h)
  exact (List.getElem?_eq_some_iff.mp this).1

theorem lowerScheme_lowerWise (s : Str) : LowerWise s (lowerScheme s) := by
  unfold lowerScheme
  cases h : findSub [':'] s with
  | none => exact lowerWise_refl s
  | some k =>
    nth_rewrite 1 [← List.take_append_drop (k + 1) s]
    exact lowerWise_append (lowerWise_map _) (lowerWise_refl _)

theorem lowerHost_lowerWise (atPos : Option Nat) (s : Str) :
    LowerWise s (lowerHost atPos s) := by
  unfold lowerHost
  cases atPos with
  | none => exact lowerWise_refl s
  | some a =>
    show LowerWise s (if a < s.length then
      s.take (a + 1) ++ (s.drop (a + 1)).map asciiLower else s)
    by_cases ha : a < s.length
    · rw [if_pos ha]
      nth_rewrite 1 [← List.take_append_drop (a + 1) s]
      exact lowerWise_append (lowerWise_refl _) (lowerWise_map _)
    · rw [if_neg ha]
      exact lowerWise_refl s

theorem mem_take_getElem? {c : Char} {s : Str} {n : Nat} (h : c ∈ s.take n) :
    ∃ i, i < n ∧ s[i]? = some c := by
  rw [List.mem_iff_getElem?] at h
  obtain ⟨i, hi⟩ := h
  by_cases hin : i < n
  · refine ⟨i, hin, ?_⟩
    rw [← hi, List.getElem?_take, if_pos hin]
  · exfalso
    rw [List.getElem?_eq_none_iff.mpr (by simp; omega)] at hi
    exact Option.noConfusion hi

theorem semi_not_mem_stripParams (s : Str) : ';' ∉ stripParams s := by
  unfold stripParams
  cases h : findSub [';'] s with
  | none =>
    intro hm
    obtain ⟨i, hi⟩ := List.mem_iff_getElem?.mp hm
    exact findSub_eq_none h i (singleton_occ_iff.mpr hi)
  | some i =>
    intro hm
    obtain ⟨j, hj, hjc⟩ := mem_take_getElem? hm
    exact findSub_eq_some_least h j hj (singleton_occ_iff.mpr hjc)

theorem addSipScheme_prefix (s : Str) :
    "sip:".data <+: addSipScheme s ∨ "sips:".data <+: addSipScheme s := by
  unfold addSipScheme
  by_cases h : findSub "sip:".data s = some 0 ∨ findSub "sips:".data s = some 0
  · rw [if_pos h]
    rcases h with h | h
    · exact Or.inl (by simpa using findSub_eq_some_occ h)
    · exact Or.inr (by simpa using findSub_eq_some_occ h)
  · rw [if_neg h]
    exact Or.inl ⟨s, rfl⟩

/-- "No port `5060` left to drop after the first colon that follows the
first '@'": the property making the port-stripping step a no-op. -/
def P5060 (s : Str) : Prop :=
  ∀ a colon, findSub ['@'] s = some a → findFrom [':'] s a = some colon →
    s.drop (colon + 1) ≠ "5060".data

/-- "Everything after the first '@' is already lowercased". -/
def QLowered (s : Str) : Prop :=
  ∀ a, findSub ['@'] s = some a →
    (s.drop (a + 1)).map asciiLower = s.drop (a + 1)

theorem p5060_lowerWise {s s' : Str} (h : LowerWise s s') (hp : P5060 s) :
    P5060 s' := by
  intro a colon h1 h2 heq
  rw [findSub_singleton_lowerWise h (by decide)] at h1
  rw [findFrom_eq,
    findSub_singleton_lowerWise (lowerWise_drop h a) (by decide)] at h2
  exact hp a colon h1 (by rw [findFrom_eq]; exact h2)
    ((lowerWise_eq_faithful_iff (lowerWise_drop h (colon + 1)) (by decide)).mp heq)

theorem findSub_singleton_occ {c : Char} {s : Str} {a : Nat}
    (h : findSub [c] s = some a) :
    s[a]? = some c ∧ ∀ k, k < a → s[k]? ≠ some c := by
  refine ⟨singleton_occ_iff.mp (findSub_eq_some_occ h), fun k hk hkc => ?_⟩
  exact findSub_eq_some_least h k hk (singleton_occ_iff.mpr hkc)

theorem findSub_singleton_intro {c : Char} {s : Str} {a : Nat}
    (h1 : s[a]? = some c) (h2 : ∀ k, k < a → s[k]? ≠ some c) :
    findSub [c] s = some a := by
  cases hf : findSub [c] s with
  | none => exact absurd (singleton_occ_iff.mpr h1) (findSub_eq_none hf a)
  | some b =>
    obtain ⟨hb1, hb2⟩ := findSub_singleton_occ hf
    rcases Nat.lt_trichotomy b a with hba | hba | hba
    · exact absurd hb1 (h2 b hba)
    · rw [hba]
    · exact absurd h1 (hb2 a hba)

theorem findFrom_singleton_occ {c : Char} {s : Str} {pos j : Nat}
    (h : findFrom [c] s pos = some j) :
    pos ≤ j ∧ s[j]? = some c ∧ ∀ k, pos ≤ k → k < j → s[k]? ≠ some c := by
  rw [findFrom_eq] at h
  obtain ⟨x, hx, rfl⟩ := Option.map_eq_some'.mp h
  obtain ⟨h1, h2⟩ := findSub_singleton_occ hx
  rw [List.getElem?_drop] at h1
  refine ⟨by omega, by rw [Nat.add_comm x pos]; exact h1, fun k hk1 hk2 hkc => ?_⟩
  refine h2 (k - pos) (by omega) ?_
  rw [List.getElem?_drop]
  rw [show pos + (k - pos) = k by omega]
  exact hkc

theorem findFrom_singleton_intro {c : Char} {s : Str} {pos j : Nat}
    (hj : pos ≤ j) (h1 : s[j]? = some c)
    (h2 : ∀ k, pos ≤ k → k < j → s[k]? ≠ some c) :
    findFrom [c] s pos = some j := by
  rw [findFrom_eq]
  rw [findSub_singleton_intro (c := c) (a := j - pos)
    (by rw [List.getElem?_drop, show pos + (j - pos) = j by omega]; exact h1)
    (fun k hk hkc => by
      rw [List.getElem?_drop] at hkc
      exact h2 (pos + k) (by omega) (by omega) hkc)]
  simp
  omega

/-- The port-stripping step establishes `P5060`. -/
theorem p5060_dropPort (s : Str) : P5060 (dropPort5060 s) := by
  unfold dropPort5060
  cases ha : findSub ['@'] s with
  | none =>
    show P5060 s
    intro a' colon' h1 h2 h5'
    rw [ha] at h1
    exact Option.noConfusion h1
  | some a =>
    cases hc : findFrom [':'] s a with
    | none =>
      simp only [hc]
      intro a' colon' h1 h2 h5'
      rw [ha] at h1
      obtain rfl : a = a' := Option.some.inj h1
      rw [hc] at h2
      exact Option.noConfusion h2
    | some colon =>
      simp only [hc]
      obtain ⟨hac, hcc, hcmin⟩ := findFrom_singleton_occ hc
      obtain ⟨hao, hamin⟩ := findSub_singleton_occ ha
      have haclt : a < colon := by
        rcases Nat.lt_or_ge a colon with h | h
        · exact h
        · exfalso
          obtain rfl : a = colon := by omega
          rw [hcc] at hao
          exact absurd hao (by decide)
      by_cases h5 : s.drop (colon + 1) = "5060".data
      · rw [if_pos h5]
        intro a' colon' h1 h2 h5'
        have htake_at : findSub ['@'] (s.take colon) = some a :=
          findSub_singleton_intro
            (by rw [List.getElem?_take, if_pos haclt]; exact hao)
            (fun k hk hkc => hamin k hk (by
              rw [List.getElem?_take, if_pos (by omega)] at hkc
              exact hkc))
        rw [htake_at] at h1
        obtain rfl : a = a' := Option.some.inj h1
        obtain ⟨hle, hocc, _⟩ := findFrom_singleton_occ h2
        rw [List.getElem?_take] at hocc
        by_cases hcl : colon' < colon
        · rw [if_pos hcl] at hocc
          exact hcmin colon' hle hcl hocc
        · rw [if_neg hcl] at hocc
          exact Option.noConfusion hocc
      · rw [if_neg h5]
        intro a' colon' h1 h2 h5'
        rw [ha] at h1
        obtain rfl : a = a' := Option.some.inj h1
        rw [hc] at h2
        obtain rfl : colon = colon' := Option.some.inj h2
        exact h5 h5'

theorem drop_append_len {x : Str} (s : Str) (m : Nat) :
    (x ++ s).drop (x.length + m) = s.drop m := by
  rw [← List.drop_drop, List.drop_left]

/-- The '@'-search is unchanged by the port-stripping step. -/
theorem findSub_at_dropPort (s : Str) :
    findSub ['@'] (dropPort5060 s) = findSub ['@'] s := by
  unfold dropPort5060
  cases ha : findSub ['@'] s with
  | none =>
    show findSub ['@'] s = none
    exact ha
  | some a =>
    cases hc : findFrom [':'] s a with
    | none =>
      simp only [hc]
      exact ha
    | some colon =>
      simp only [hc]
      obtain ⟨hac, hcc, hcmin⟩ := findFrom_singleton_occ hc
      obtain ⟨hao, hamin⟩ := findSub_singleton_occ ha
      have haclt : a < colon := by
        rcases Nat.lt_or_ge a colon with h | h
        · exact h
        · exfalso
          obtain rfl : a = colon := by omega
          rw [hcc] at hao
          exact absurd hao (by decide)
      by_cases h5 : s.drop (colon + 1) = "5060".data
      · rw [if_pos h5]
        exact findSub_singleton_intro
          (by rw [List.getElem?_take, if_pos haclt]; exact hao)
          (fun k hk hkc => hamin k hk (by
            rw [List.getElem?_take, if_pos (by omega)] at hkc
            exact hkc))
      · rw [if_neg h5]
        exact ha

/-- The port-stripping step either keeps the string or truncates it. -/
theorem dropPort_cases (s : Str) :
    dropPort5060 s = s ∨ ∃ n, dropPort5060 s = s.take n := by
  unfold dropPort5060
  cases ha : findSub ['@'] s with
  | none => exact Or.inl rfl
  | some a =>
    cases hc : findFrom [':'] s a with
    | none =>
      simp only [hc]
      exact Or.inl trivial
    | some colon =>
      simp only [hc]
      by_cases h5 : s.drop (colon + 1) = "5060".data
      · rw [if_pos h5]
        exact Or.inr ⟨colon, rfl⟩
      · rw [if_neg h5]
        exact Or.inl rfl

theorem p5060_addSip {s : Str} (hp : P5060 s) : P5060 (addSipScheme s) := by
  unfold addSipScheme
  split_ifs with h
  · exact hp
  · intro a colon h1 h2 h5
    rw [findSub_append_shift (noStart_of_head_not_mem
      (show (['@'] : Str).head? = some '@' from rfl)
      (show '@' ∉ "sip:".data by decide))] at h1
    obtain ⟨a', ha', rfl⟩ := Option.map_eq_some'.mp h1
    rw [findFrom_eq] at h2
    rw [show a' + "sip:".data.length = "sip:".data.length + a' by omega,
      drop_append_len] at h2
    obtain ⟨y, hy, hcolon⟩ := Option.map_eq_some'.mp h2
    refine hp a' (y + a') ha' (by rw [findFrom_eq, hy]; rfl) ?_
    rw [show y + a' + 1 = (y + a' + "sip:".data.length + 1) - "sip:".data.length
      by simp]
    rw [← drop_append_len (x := "sip:".data) s]
    rw [show "sip:".data.length + (y + a' + "sip:".data.length + 1 -
      "sip:".data.length) = colon + 1 by omega]
    exact h5

theorem qLowered_addSip {s : Str} (hq : QLowered s) :
    QLowered (addSipScheme s) := by
  unfold addSipScheme
  split_ifs with h
  · exact hq
  · intro a h1
    rw [findSub_append_shift (noStart_of_head_not_mem
      (show (['@'] : Str).head? = some '@' from rfl)
      (show '@' ∉ "sip:".data by decide))] at h1
    obtain ⟨a', ha', rfl⟩ := Option.map_eq_some'.mp h1
    rw [show a' + "sip:".data.length + 1 = "sip:".data.length + (a' + 1) by omega,
      drop_append_len]
    exact hq a' ha'

/-- The output of `normalize_uri` carries no ';', has no droppable `5060`
port left, and is fully lowercased after its first '@'. -/
theorem normalize_uri_props (u : Str) (hu : u ≠ []) :
    ';' ∉ normalize_uri u ∧ P5060 (normalize_uri u) ∧
      QLowered (normalize_uri u) := by
  rw [normalize_uri_eq hu]
  set n3 : Str := stripParams (stripAngles u) with hn3
  set atP : Option Nat := findSub ['@'] n3 with hatP
  set n4 : Str := dropPort5060 n3 with hn4
  set n5 : Str := lowerScheme n4 with hn5
  set n6 : Str := lowerHost atP n5 with hn6
  have hlw5 : LowerWise n4 n5 := by
    rw [hn5]
    exact lowerScheme_lowerWise n4
  have hlw6 : LowerWise n5 n6 := by
    rw [hn6]
    exact lowerHost_lowerWise atP n5
  have hlw : LowerWise n4 n6 := lowerWise_trans hlw5 hlw6
  -- no ';' anywhere
  have hsemi3 : ';' ∉ n3 := by
    rw [hn3]
    exact semi_not_mem_stripParams _
  have hsemi4 : ';' ∉ n4 := by
    rw [hn4]
    rcases dropPort_cases n3 with h | ⟨n, h⟩
    · rw [h]
      exact hsemi3
    · rw [h]
      intro hm
      obtain ⟨i, _, hi⟩ := mem_take_getElem? hm
      exact hsemi3 (List.getElem?_mem hi)
  have hsemi6 : ';' ∉ n6 := by
    rw [lowerWise_mem_faithful hlw (by decide)]
    exact hsemi4
  have hsemiR : ';' ∉ addSipScheme n6 := by
    unfold addSipScheme
    split_ifs
    · exact hsemi6
    · intro hm
      rcases List.mem_append.mp hm with hm | hm
      · exact absurd hm (by decide)
      · exact hsemi6 hm
  -- P5060
  have hp4 : P5060 n4 := by
    rw [hn4]
    exact p5060_dropPort n3
  have hp6 : P5060 n6 := p5060_lowerWise hlw hp4
  -- the '@' position survives the whole pipeline
  have hat4 : findSub ['@'] n4 = atP := by
    rw [hn4, hatP]
    exact findSub_at_dropPort n3
  have hat5 : findSub ['@'] n5 = atP := by
    rw [findSub_singleton_lowerWise hlw5 (by decide)]
    exact hat4
  have hat6 : findSub ['@'] n6 = atP := by
    rw [findSub_singleton_lowerWise hlw6 (by decide)]
    exact hat5
  -- everything after the '@' of n6 is lowercased
  have hq6 : QLowered n6 := by
    intro a hfa
    rw [hat6] at hfa
    have hat5a : findSub ['@'] n5 = some a := by rw [hat5, hfa]
    have halt : a < n5.length := findSub_singleton_lt_length hat5a
    have hform : n6 = n5.take (a + 1) ++ (n5.drop (a + 1)).map asciiLower := by
      rw [hn6, hfa]
      unfold lowerHost
      show (if a < n5.length then
        n5.take (a + 1) ++ (n5.drop (a + 1)).map asciiLower else n5) = _
      rw [if_pos halt]
    have hlen : (n5.take (a + 1)).length = a + 1 := by
      rw [List.length_take]
      omega
    rw [hform, List.drop_left' hlen]
    exact map_asciiLower_idem _
  exact ⟨hsemiR, p5060_addSip hp6, qLowered_addSip hq6⟩

theorem lowerScheme_sip (t : Str) :
    lowerScheme ("sip:".data ++ t) = "sip:".data ++ t := by
  have h3 : findSub [':'] ("sip:".data ++ t) = some 3 := by
    rw [show "sip:".data ++ t = ['s', 'i', 'p'] ++ ':' :: t from rfl]
    exact findSub_append_singleton (by decide)
  unfold lowerScheme
  rw [h3]
  show (List.take (3 + 1) ("sip:".data ++ t)).map asciiLower ++
      List.drop (3 + 1) ("sip:".data ++ t) = "sip:".data ++ t
  rw [List.take_left' (by decide : ("sip:".data : Str).length = 3 + 1),
    List.drop_left' (by decide : ("sip:".data : Str).length = 3 + 1)]
  rw [show ("sip:".data : Str).map asciiLower = "sip:".data by decide]

theorem lowerScheme_sips (t : Str) :
    lowerScheme ("sips:".data ++ t) = "sips:".data ++ t := by
  have h4 : findSub [':'] ("sips:".data ++ t) = some 4 := by
    rw [show "sips:".data ++ t = ['s', 'i', 'p', 's'] ++ ':' :: t from rfl]
    exact findSub_append_singleton (by decide)
  unfold lowerScheme
  rw [h4]
  show (List.take (4 + 1) ("sips:".data ++ t)).map asciiLower ++
      List.drop (4 + 1) ("sips:".data ++ t) = "sips:".data ++ t
  rw [List.take_left' (by decide : ("sips:".data : Str).length = 4 + 1),
    List.drop_left' (by decide : ("sips:".data : Str).length = 4 + 1)]
  rw [show ("sips:".data : Str).map asciiLower = "sips:".data by decide]

theorem addSipScheme_of_scheme {s : Str}
    (h : "sip:".data <+: s ∨ "sips:".data <+: s) : addSipScheme s = s := by
  unfold addSipScheme
  rcases h with h | h
  · rw [if_pos (Or.inl (findSub_of_pref h))]
  · rw [if_pos (Or.inr (findSub_of_pref h))]

theorem dropPort_of_p5060 {s : Str} (hp : P5060 s) : dropPort5060 s = s := by
  unfold dropPort5060
  cases ha : findSub ['@'] s with
  | none => rfl
  | some a =>
    cases hc : findFrom [':'] s a with
    | none => simp only [hc]
    | some colon =>
      simp only [hc]
      rw [if_neg (hp a colon ha hc)]

/-- The amended C7: normalisation is idempotent on every input whose
normalised form does not end in '>'.  (The bracket-stripping step pops a
single trailing '>', so a second pass strips again when one is left.) -/
theorem normalize_uri_idem_of_no_gt (u : Str)
    (hgt : (normalize_uri u).getLast? ≠ some '>') :
    normalize_uri (normalize_uri u) = normalize_uri u := by
  by_cases hu : u = []
  · rw [hu]
    rfl
  · set r : Str := normalize_uri u with hr
    obtain ⟨hsemi, hp, hq⟩ := normalize_uri_props u hu
    have hscheme : "sip:".data <+: r ∨ "sips:".data <+: r := by
      rw [hr, normalize_uri_eq hu]
      exact addSipScheme_prefix _
    have hrne : r ≠ [] := by
      rcases hscheme with h | h <;>
        (obtain ⟨t, ht⟩ := h; rw [← ht]; simp)
    rw [normalize_uri_eq hrne]
    have hsal : stripAngleL r = r := by
      unfold stripAngleL
      have hhead : r.head? = some 's' := by
        rcases hscheme with h | h <;> (obtain ⟨t, ht⟩ := h; rw [← ht]; rfl)
      rw [hhead, if_neg (by decide)]
    have hsar : stripAngleR r = r := by
      unfold stripAngleR
      rw [if_neg]
      intro hcon
      exact hgt hcon.2
    have hsa : stripAngles r = r := by
      unfold stripAngles
      rw [hsal, hsar]
    have hsp : stripParams r = r := by
      unfold stripParams
      rw [findSub_singleton_of_not_mem hsemi]
    have hls : lowerScheme r = r := by
      rcases hscheme with h | h
      · obtain ⟨t, ht⟩ := h
        rw [← ht]
        exact lowerScheme_sip t
      · obtain ⟨t, ht⟩ := h
        rw [← ht]
        exact lowerScheme_sips t
    have hlh : lowerHost (findSub ['@'] r) r = r := by
      cases hat : findSub ['@'] r with
      | none => rfl
      | some a =>
        have halt : a < r.length := findSub_singleton_lt_length hat
        unfold lowerHost
        show (if a < r.length then
          r.take (a + 1) ++ (r.drop (a + 1)).map asciiLower else r) = r
        rw [if_pos halt, hq a hat, List.take_append_drop]
    rw [hsa, hsp, dropPort_of_p5060 hp, hls, hlh, addSipScheme_of_scheme hscheme]

/-- Core of the amended C6: on an input that already carries the `sip:`
scheme, with a user part free of '@' and ';' and a non-empty host free of
'@', ';' and '>', normalisation keeps the user part verbatim: only the
port-drop and host-lowercasing steps act, and they act after the '@'. -/
theorem normalize_uri_sip_user_host (user host : Str)
    (hu1 : '@' ∉ user) (hu2 : ';' ∉ user)
    (hh1 : '@' ∉ host) (hh2 : ';' ∉ host) (hh3 : '>' ∉ host)
    (hne : host ≠ []) :
    normalize_uri (("sip:".data ++ user) ++ '@' :: host) =
      ("sip:".data ++ user) ++ '@' :: (hostPortDrop host).map asciiLower := by
  have hsd : "sip:".data = ['s', 'i', 'p', ':'] := rfl
  set pre : Str := "sip:".data ++ user with hpre
  have hpre_at : '@' ∉ pre := by
    rw [hpre, hsd]
    intro h
    rcases List.mem_append.mp h with h | h
    · simp at h
    · exact hu1 h
  have hune : pre ++ '@' :: host ≠ [] := by simp
  rw [normalize_uri_eq hune]
  -- angle-bracket stripping is the identity here
  have h_sal : stripAngleL (pre ++ '@' :: host) = pre ++ '@' :: host := by
    unfold stripAngleL
    rw [hpre, hsd]
    rfl
  have h_sar : stripAngleR (pre ++ '@' :: host) = pre ++ '@' :: host := by
    unfold stripAngleR
    rw [if_neg]
    intro hcontra
    have hlast : (pre ++ '@' :: host).getLast? = host.getLast? := by
      rw [show pre ++ '@' :: host = (pre ++ ['@']) ++ host by simp]
      exact getLast?_append_of_ne_nil hne
    rw [hlast] at hcontra
    exact hh3 (mem_of_getLast? hcontra.2)
  have h_sa : stripAngles (pre ++ '@' :: host) = pre ++ '@' :: host := by
    unfold stripAngles
    rw [h_sal, h_sar]
  -- no parameters to strip
  have h_sp : stripParams (pre ++ '@' :: host) = pre ++ '@' :: host := by
    unfold stripParams
    have hnosemi : ';' ∉ pre ++ '@' :: host := by
      intro h
      rcases List.mem_append.mp h with h | h
      · rw [hpre, hsd] at h
        rcases List.mem_append.mp h with h | h
        · simp at h
        · exact hu2 h
      · rcases List.mem_cons.mp h with h | h
        · simp at h
        · exact hh2 h
    rw [findSub_singleton_of_not_mem hnosemi]
  -- the first '@' is right after the user part
  have h_at : findSub ['@'] (pre ++ '@' :: host) = some pre.length :=
    findSub_append_singleton hpre_at
  -- port stripping only rewrites the host
  have h_dp : dropPort5060 (pre ++ '@' :: host) =
      pre ++ '@' :: hostPortDrop host := by
    unfold dropPort5060
    rw [h_at]
    simp only [findFrom_eq, List.drop_left]
    rw [show findSub [':'] ('@' :: host) = (findSub [':'] host).map Nat.succ by
      rw [findSub_cons, if_neg (by simp [List.isPrefixOf])]]
    unfold hostPortDrop
    cases hch : findSub [':'] host with
    | none => simp
    | some ch =>
      simp only [Option.map_some']
      have hdrop2 : (pre ++ '@' :: host).drop (Nat.succ ch + pre.length + 1) =
          host.drop (ch + 1) := by
        rw [show Nat.succ ch + pre.length + 1 = pre.length + (ch + 2) by omega]
        rw [← List.drop_drop, List.drop_left]
        rfl
      rw [hdrop2]
      by_cases h5 : host.drop (ch + 1) = "5060".data
      · rw [if_pos h5, if_pos h5]
        rw [show Nat.succ ch + pre.length = pre.length + (ch + 1) by omega]
        rw [List.take_append]
        rfl
      · rw [if_neg h5, if_neg h5]
  -- the scheme-lowercasing step is the identity: the first ':' closes `sip`
  have h_ls : lowerScheme (pre ++ '@' :: hostPortDrop host) =
      pre ++ '@' :: hostPortDrop host := by
    have hshape : pre ++ '@' :: hostPortDrop host =
        ['s', 'i', 'p'] ++ ':' :: (user ++ '@' :: hostPortDrop host) := by
      rw [hpre, hsd]
      simp
    have h_colon : findSub [':'] (pre ++ '@' :: hostPortDrop host) = some 3 := by
      rw [hshape]
      exact findSub_append_singleton (by decide)
    unfold lowerScheme
    rw [h_colon]
    show (List.take (3 + 1) (pre ++ '@' :: hostPortDrop host)).map asciiLower ++
        List.drop (3 + 1) (pre ++ '@' :: hostPortDrop host) =
      pre ++ '@' :: hostPortDrop host
    rw [hshape, show (3 : Nat) + 1 = (['s', 'i', 'p', ':'] : Str).length from rfl]
    rw [show (['s', 'i', 'p'] : Str) ++ ':' :: (user ++ '@' :: hostPortDrop host) =
        ['s', 'i', 'p', ':'] ++ (user ++ '@' :: hostPortDrop host) by simp]
    rw [List.take_left, List.drop_left]
    rw [show (['s', 'i', 'p', ':'] : Str).map asciiLower = ['s', 'i', 'p', ':'] by decide]
  -- the host-lowercasing step acts after the recorded '@'
  have h_lh : lowerHost (some pre.length) (pre ++ '@' :: hostPortDrop host) =
      pre ++ '@' :: (hostPortDrop host).map asciiLower := by
    unfold lowerHost
    show (if pre.length < (pre ++ '@' :: hostPortDrop host).length then
        List.take (pre.length + 1) (pre ++ '@' :: hostPortDrop host) ++
          (List.drop (pre.length + 1) (pre ++ '@' :: hostPortDrop host)).map asciiLower
      else pre ++ '@' :: hostPortDrop host) =
      pre ++ '@' :: (hostPortDrop host).map asciiLower
    rw [if_pos (by simp)]
    rw [List.take_append, List.drop_append]
    simp
  -- the scheme is already present
  have h_as : addSipScheme (pre ++ '@' :: (hostPortDrop host).map asciiLower) =
      pre ++ '@' :: (hostPortDrop host).map asciiLower := by
    unfold addSipScheme
    rw [if_pos]
    left
    refine findSub_of_pref ⟨user ++ '@' :: (hostPortDrop host).map asciiLower, ?_⟩
    rw [hpre]
    simp
  rw [h_sa, h_sp, h_at, h_dp, h_ls, h_lh, h_as]

end SipProc

namespace SipProc

/-! ### Data model (include/subscription/subscription_state.h,
include/subscription/subscription_type.h) -/

/-- `enum class SubscriptionType { kUnknown, kBLF, kMWI }`. -/
inductive SubscriptionType
  | kUnknown
  | kBLF
  | kMWI
deriving DecidableEq, Repr

/-- `enum class SubLifecycle { kPending, kActive, kTerminating, kTerminated }`. -/
inductive SubLifecycle
  | kPending
  | kActive
  | kTerminating
  | kTerminated
deriving DecidableEq, Repr

/-- `SubscriptionRecord` (include/subscription/subscription_state.h).
`TimePoint` values are modelled as `Nat` instants, with `0` standing for the
default-constructed `TimePoint{}` used as "unset" by `is_expired`.
`notify_cseq` is the outgoing NOTIFY CSeq bumped by `send_sip_notify`. -/
structure SubscriptionRecord where
  dialog_id : Str := []
  tenant_id : Str := []
  type : SubscriptionType := .kUnknown
  lifecycle : SubLifecycle := .kPending
  created_at : Nat := 0
  last_activity : Nat := 0
  expires_at : Nat := 0
  cseq : Nat := 0
  events_processed : Nat := 0
  is_processing : Bool := false
  processing_started_at : Nat := 0
  dirty : Bool := false
  blf_monitored_uri : Str := []
  blf_last_state : Str := []
  blf_last_direction : Str := []
  blf_presence_call_id : Str := []
  blf_last_notify_body : Str := []
  blf_notify_version : Nat := 0
  mwi_new_messages : Int := 0
  mwi_old_messages : Int := 0
  mwi_account_uri : Str := []
  mwi_last_notify_body : Str := []
  from_uri : Str := []
  from_tag : Str := []
  to_uri : Str := []
  to_tag : Str := []
  call_id : Str := []
  contact_uri : Str := []
  notify_cseq : Nat := 0
deriving DecidableEq, Repr

/-- `SubscriptionRecord::touch()` (subscription_state.h line 72). -/
def SubscriptionRecord.touch (r : SubscriptionRecord) (now : Nat) :
    SubscriptionRecord :=
  { r with last_activity := now, dirty := true }

/-- `SubscriptionRecord::is_expired()` (subscription_state.h lines 73-76). -/
def SubscriptionRecord.is_expired (r : SubscriptionRecord) (now : Nat) : Bool :=
  if r.expires_at = 0 then false else decide (now > r.expires_at)

/-! ### Subscription registry (src/subscription/subscription_state.cpp) -/

/-- `SubscriptionRegistry::SubscriptionInfo`. -/
structure SubscriptionInfo where
  dialog_id : Str := []
  tenant_id : Str := []
  type : SubscriptionType := .kUnknown
  lifecycle : SubLifecycle := .kPending
  last_activity : Nat := 0
  worker_index : Nat := 0
deriving DecidableEq, Repr

/-- First-match association-list lookup (std::unordered_map::find). -/
def alookup {A : Type} (k : Str) : List (Str × A) → Option A
  | [] => none
  | (k1, v) :: rest => if k1 = k then some v else alookup k rest

/-- Replace the value stored under `k` (no-op when `k` is absent). -/
def aset {A : Type} (k : Str) (v : A) : List (Str × A) → List (Str × A)
  | [] => []
  | (k1, v1) :: rest =>
    if k1 = k then (k1, v) :: rest else (k1, v1) :: aset k v rest

/-- Erase the first entry stored under `k`. -/
def aerase {A : Type} (k : Str) : List (Str × A) → List (Str × A)
  | [] => []
  | (k1, v1) :: rest => if k1 = k then rest else (k1, v1) :: aerase k rest

/-- The two private maps of `SubscriptionRegistry`. -/
structure RegistryState where
  subscriptions : List (Str × SubscriptionInfo) := []
  tenant_counts : List (Str × Nat) := []
deriving DecidableEq, Repr

def registryEmpty : RegistryState := {}

/-- `tenant_counts_[info.tenant_id]++` : `operator[]` default-constructs a
zero entry before the increment. -/
def bumpTenant (t : Str) (m : List (Str × Nat)) : List (Str × Nat) :=
  match alookup t m with
  | some n => aset t (n + 1) m
  | none => (t, 1) :: m

/-- The guarded decrement-and-erase of `unregister_subscription`
(subscription_state.cpp lines 27-31). -/
def decTenant (t : Str) (m : List (Str × Nat)) : List (Str × Nat) :=
  match alookup t m with
  | none => m
  | some n =>
    let n1 := if n > 0 then n - 1 else n
    if n1 = 0 then aerase t m else aset t n1 m

/-- `SubscriptionRegistry::register_subscription` (lines 15-21): `emplace`
inserts only when the key is new (and only then bumps the tenant counter);
otherwise the stored info is overwritten in place. -/
def register_subscription (st : RegistryState) (did : Str)
    (info : SubscriptionInfo) : RegistryState :=
  match alookup did st.subscriptions with
  | none =>
    { subscriptions := (did, info) :: st.subscriptions
      tenant_counts := bumpTenant info.tenant_id st.tenant_counts }
  | some _ => { st with subscriptions := aset did info st.subscriptions }

/-- `SubscriptionRegistry::unregister_subscription` (lines 23-34). -/
def unregister_subscription (st : RegistryState) (did : Str) : RegistryState :=
  match alookup did st.subscriptions with
  | none => st
  | some info =>
    { subscriptions := aerase did st.subscriptions
      tenant_counts := decTenant info.tenant_id st.tenant_counts }

/-- `SubscriptionRegistry::count_by_tenant` (lines 75-79). -/
def count_by_tenant (st : RegistryState) (t : Str) : Nat :=
  (alookup t st.tenant_counts).getD 0

inductive RegOp
  | register (did : Str) (info : SubscriptionInfo)
  | unregister (did : Str)
deriving DecidableEq, Repr

def applyRegOp (st : RegistryState) : RegOp → RegistryState
  | .register did info => register_subscription st did info
  | .unregister did => unregister_subscription st did

def runRegOps (st : RegistryState) : List RegOp → RegistryState
  | [] => st
  | op :: rest => runRegOps (applyRegOp st op) rest

/-- An operation is tenant-stable when a re-registration of a live dialog
does not change its tenant. -/
def goodOp (st : RegistryState) : RegOp → Prop
  | .register did info =>
    match alookup did st.subscriptions with
    | some i => i.tenant_id = info.tenant_id
    | none => True
  | .unregister _ => True

def goodRun (st : RegistryState) : List RegOp → Prop
  | [] => True
  | op :: rest => goodOp st op ∧ goodRun (applyRegOp st op) rest

instance instDecGoodOp (st : RegistryState) (op : RegOp) :
    Decidable (goodOp st op) := by
  cases op with
  | register did info =>
    show Decidable (match alookup did st.subscriptions with
      | some i => i.tenant_id = info.tenant_id
      | none => True)
    cases alookup did st.subscriptions with
    | none => exact isTrue trivial
    | some i => exact inferInstanceAs (Decidable (_ = _))
  | unregister did => exact isTrue trivial

def decGoodRun (st : RegistryState) :
    (ops : List RegOp) → Decidable (goodRun st ops)
  | [] => isTrue trivial
  | op :: rest =>
    have h2 : Decidable (goodRun (applyRegOp st op) rest) :=
      decGoodRun (applyRegOp st op) rest
    inferInstanceAs (Decidable (_ ∧ _))

instance (st : RegistryState) (ops : List RegOp) :
    Decidable (goodRun st ops) := decGoodRun st ops

/-- The registry invariant: the cached tenant counter equals the number of
registered dialogs of that tenant. -/
def tenantCountOk (st : RegistryState) : Prop :=
  ∀ t : Str, count_by_tenant st t =
    (st.subscriptions.filter (fun p => p.2.tenant_id = t)).length

end SipProc

namespace SipProc

/-! ### Association-list lemmas and the tenant-counter invariant (C5) -/

theorem alookup_aset_self {A : Type} {k : Str} {v w : A} {m : List (Str × A)}
    (h : alookup k m = some w) : alookup k (aset k v m) = some v := by
  induction m with
  | nil => simp [alookup] at h
  | cons p m ih =>
    obtain ⟨k1, v1⟩ := p
    simp only [alookup] at h
    simp only [aset]
    by_cases hk : k1 = k
    · rw [if_pos hk]
      simp only [alookup, if_pos hk]
    · rw [if_neg hk] at h
      rw [if_neg hk]
      simp only [alookup, if_neg hk]
      exact ih h

theorem alookup_aset_ne {A : Type} {k k1 : Str} {v : A} {m : List (Str × A)}
    (h : k1 ≠ k) : alookup k1 (aset k v m) = alookup k1 m := by
  induction m with
  | nil => rfl
  | cons p m ih =>
    obtain ⟨k2, v2⟩ := p
    simp only [aset]
    by_cases hk : k2 = k
    · rw [if_pos hk]
      simp only [alookup]
      rw [if_neg (fun hc : k2 = k1 => h (hc.symm.trans hk)),
        if_neg (fun hc : k2 = k1 => h (hc.symm.trans hk))]
    · rw [if_neg hk]
      simp only [alookup]
      by_cases hk1 : k2 = k1
      · rw [if_pos hk1, if_pos hk1]
      · rw [if_neg hk1, if_neg hk1]
        exact ih

theorem alookup_aerase_ne {A : Type} {k k1 : Str} {m : List (Str × A)}
    (h : k1 ≠ k) : alookup k1 (aerase k m) = alookup k1 m := by
  induction m with
  | nil => rfl
  | cons p m ih =>
    obtain ⟨k2, v2⟩ := p
    simp only [aerase]
    by_cases hk : k2 = k
    · rw [if_pos hk]
      simp only [alookup]
      rw [if_neg (fun hc : k2 = k1 => h (hc.symm.trans hk))]
    · rw [if_neg hk]
      simp only [alookup]
      by_cases hk1 : k2 = k1
      · rw [if_pos hk1, if_pos hk1]
      · rw [if_neg hk1, if_neg hk1]
        exact ih

theorem aerase_sublist {A : Type} (k : Str) (m : List (Str × A)) :
    List.Sublist (aerase k m) m := by
  induction m with
  | nil => exact List.Sublist.refl []
  | cons p m ih =>
    obtain ⟨k1, v1⟩ := p
    simp only [aerase]
    by_cases hk : k1 = k
    · rw [if_pos hk]
      exact List.sublist_cons_self _ _
    · rw [if_neg hk]
      exact List.Sublist.cons₂ _ ih

theorem alookup_eq_some_mem {A : Type} {k : Str} {v : A} {m : List (Str × A)}
    (h : alookup k m = some v) : k ∈ m.map Prod.fst := by
  induction m with
  | nil => simp [alookup] at h
  | cons p m ih =>
    obtain ⟨k1, v1⟩ := p
    simp only [alookup] at h
    by_cases hk : k1 = k
    · simp only [List.map_cons, List.mem_cons]
      exact Or.inl hk.symm
    · rw [if_neg hk] at h
      simp only [List.map_cons, List.mem_cons]
      exact Or.inr (ih h)

theorem alookup_none_not_mem {A : Type} {k : Str} {m : List (Str × A)}
    (h : alookup k m = none) : k ∉ m.map Prod.fst := by
  intro hmem
  induction m with
  | nil => simp at hmem
  | cons p m ih =>
    obtain ⟨k1, v1⟩ := p
    simp only [alookup] at h
    by_cases hk : k1 = k
    · rw [if_pos hk] at h
      exact Option.noConfusion h
    · rw [if_neg hk] at h
      simp only [List.map_cons, List.mem_cons] at hmem
      rcases hmem with hc | hc
      · exact hk hc.symm
      · exact ih h hc

theorem alookup_aerase_self {A : Type} {k : Str} {m : List (Str × A)}
    (hnd : (m.map Prod.fst).Nodup) : alookup k (aerase k m) = none := by
  induction m with
  | nil => rfl
  | cons p m ih =>
    obtain ⟨k1, v1⟩ := p
    simp only [List.map_cons, List.nodup_cons] at hnd
    simp only [aerase]
    by_cases hk : k1 = k
    · rw [if_pos hk]
      subst hk
      cases hl : alookup k1 m with
      | none => rfl
      | some v => exact absurd (alookup_eq_some_mem hl) hnd.1
    · rw [if_neg hk]
      simp only [alookup]
      rw [if_neg hk]
      exact ih hnd.2

theorem aset_keys {A : Type} (k : Str) (v : A) (m : List (Str × A)) :
    (aset k v m).map Prod.fst = m.map Prod.fst := by
  induction m with
  | nil => rfl
  | cons p m ih =>
    obtain ⟨k1, v1⟩ := p
    simp only [aset]
    by_cases hk : k1 = k
    · rw [if_pos hk]
      simp
    · rw [if_neg hk]
      simp [ih]

theorem count_bumpTenant (t t1 : Str) (m : List (Str × Nat)) :
    (alookup t (bumpTenant t1 m)).getD 0 =
      if t1 = t then (alookup t m).getD 0 + 1 else (alookup t m).getD 0 := by
  unfold bumpTenant
  cases hb : alookup t1 m with
  | none =>
    by_cases ht : t1 = t
    · subst ht
      rw [if_pos rfl]
      simp [alookup, hb]
    · rw [if_neg ht]
      simp [alookup, ht]
  | some n =>
    by_cases ht : t1 = t
    · subst ht
      rw [if_pos rfl, alookup_aset_self hb, hb]
      rfl
    · rw [if_neg ht, alookup_aset_ne (fun hc : t = t1 => ht hc.symm)]

theorem count_decTenant (t t1 : Str) (m : List (Str × Nat))
    (hnd : (m.map Prod.fst).Nodup) :
    (alookup t (decTenant t1 m)).getD 0 =
      if t1 = t then (alookup t m).getD 0 - 1 else (alookup t m).getD 0 := by
  unfold decTenant
  cases hb : alookup t1 m with
  | none =>
    by_cases ht : t1 = t
    · subst ht
      rw [if_pos rfl, hb]
      rfl
    · rw [if_neg ht]
  | some n =>
    show (alookup t (if (if n > 0 then n - 1 else n) = 0 then aerase t1 m
      else aset t1 (if n > 0 then n - 1 else n) m)).getD 0 = _
    by_cases hn : (if n > 0 then n - 1 else n) = 0
    · rw [if_pos hn]
      by_cases ht : t1 = t
      · subst ht
        rw [if_pos rfl, alookup_aerase_self hnd, hb]
        simp only [Option.getD_none, Option.getD_some]
        by_cases hpos : n > 0
        · rw [if_pos hpos] at hn
          omega
        · rw [if_neg hpos] at hn
          omega
      · rw [if_neg ht, alookup_aerase_ne (fun hc : t = t1 => ht hc.symm)]
    · rw [if_neg hn]
      by_cases ht : t1 = t
      · subst ht
        rw [if_pos rfl, alookup_aset_self hb, hb]
        simp only [Option.getD_some]
        by_cases hpos : n > 0
        · rw [if_pos hpos]
        · rw [if_neg hpos] at hn
          omega
      · rw [if_neg ht, alookup_aset_ne (fun hc : t = t1 => ht hc.symm)]

theorem decTenant_keys_nodup {t1 : Str} {m : List (Str × Nat)}
    (hnd : (m.map Prod.fst).Nodup) :
    ((decTenant t1 m).map Prod.fst).Nodup := by
  unfold decTenant
  cases hb : alookup t1 m with
  | none => exact hnd
  | some n =>
    show (((if (if n > 0 then n - 1 else n) = 0 then aerase t1 m
      else aset t1 (if n > 0 then n - 1 else n) m)).map Prod.fst).Nodup
    by_cases hn : (if n > 0 then n - 1 else n) = 0
    · rw [if_pos hn]
      exact ((aerase_sublist t1 m).map Prod.fst).nodup hnd
    · rw [if_neg hn, aset_keys]
      exact hnd

theorem bumpTenant_keys_nodup {t1 : Str} {m : List (Str × Nat)}
    (hnd : (m.map Prod.fst).Nodup) :
    ((bumpTenant t1 m).map Prod.fst).Nodup := by
  unfold bumpTenant
  cases hb : alookup t1 m with
  | none =>
    simp only [List.map_cons, List.nodup_cons]
    exact ⟨alookup_none_not_mem hb, hnd⟩
  | some n =>
    rw [aset_keys]
    exact hnd

/-- Decompose an association list at the first match of a key. -/
theorem alookup_some_split {A : Type} {k : Str} {m : List (Str × A)} {v : A}
    (h : alookup k m = some v) :
    ∃ l1 l2, m = l1 ++ (k, v) :: l2 ∧ ∀ p ∈ l1, p.1 ≠ k := by
  induction m with
  | nil => simp [alookup] at h
  | cons p m ih =>
    obtain ⟨k1, v1⟩ := p
    simp only [alookup] at h
    by_cases hk : k1 = k
    · rw [if_pos hk] at h
      obtain rfl : v1 = v := Option.some.inj h
      subst hk
      exact ⟨[], m, rfl, by simp⟩
    · rw [if_neg hk] at h
      obtain ⟨l1, l2, rfl, hl1⟩ := ih h
      refine ⟨(k1, v1) :: l1, l2, rfl, ?_⟩
      intro p hp
      rcases List.mem_cons.mp hp with rfl | hp
      · exact hk
      · exact hl1 p hp

theorem aset_append_first {A : Type} {k : Str} {v w : A} {l1 l2 : List (Str × A)}
    (h : ∀ p ∈ l1, p.1 ≠ k) :
    aset k w (l1 ++ (k, v) :: l2) = l1 ++ (k, w) :: l2 := by
  induction l1 with
  | nil => simp [aset]
  | cons p l1 ih =>
    obtain ⟨k1, v1⟩ := p
    simp only [List.cons_append, aset]
    rw [if_neg (h (k1, v1) (by simp))]
    simp only [List.append_eq]
    rw [ih (fun p hp => h p (by simp [hp]))]

theorem aerase_append_first {A : Type} {k : Str} {v : A} {l1 l2 : List (Str × A)}
    (h : ∀ p ∈ l1, p.1 ≠ k) :
    aerase k (l1 ++ (k, v) :: l2) = l1 ++ l2 := by
  induction l1 with
  | nil => simp [aerase]
  | cons p l1 ih =>
    obtain ⟨k1, v1⟩ := p
    simp only [List.cons_append, aerase]
    rw [if_neg (h (k1, v1) (by simp))]
    simp only [List.append_eq]
    rw [ih (fun p hp => h p (by simp [hp]))]

/-- The registry invariant: unique tenant-counter keys, and every cached
counter equal to the number of registered dialogs of that tenant. -/
def RegInv (st : RegistryState) : Prop :=
  (st.tenant_counts.map Prod.fst).Nodup ∧ tenantCountOk st

theorem regInv_empty : RegInv registryEmpty :=
  ⟨List.nodup_nil, fun _ => rfl⟩

theorem regInv_step {st : RegistryState} {op : RegOp} (h : RegInv st)
    (hg : goodOp st op) : RegInv (applyRegOp st op) := by
  obtain ⟨hnd, hcnt⟩ := h
  cases op with
  | register did info =>
    show RegInv (register_subscription st did info)
    unfold register_subscription
    cases hl : alookup did st.subscriptions with
    | none =>
      refine ⟨bumpTenant_keys_nodup hnd, fun t => ?_⟩
      show (alookup t (bumpTenant info.tenant_id st.tenant_counts)).getD 0 = _
      rw [count_bumpTenant]
      have hc := hcnt t
      unfold count_by_tenant at hc
      show _ = (((did, info) :: st.subscriptions).filter
        (fun p => decide (p.2.tenant_id = t))).length
      rw [List.filter_cons]
      by_cases ht : info.tenant_id = t
      · rw [if_pos ht, if_pos (by simpa using ht), List.length_cons, hc]
      · rw [if_neg ht, if_neg (by simpa using ht), hc]
    | some i =>
      have hti : i.tenant_id = info.tenant_id := by
        unfold goodOp at hg
        simpa only [hl] using hg
      obtain ⟨l1, l2, hsplit, hl1⟩ := alookup_some_split hl
      refine ⟨hnd, fun t => ?_⟩
      show (alookup t st.tenant_counts).getD 0 =
        ((aset did info st.subscriptions).filter
          (fun p => decide (p.2.tenant_id = t))).length
      rw [hsplit, aset_append_first hl1]
      have hc := hcnt t
      unfold count_by_tenant at hc
      rw [hsplit] at hc
      rw [hc]
      simp only [List.filter_append, List.filter_cons, List.length_append]
      by_cases ht : info.tenant_id = t
      · rw [if_pos (by simp [hti, ht]), if_pos (by simpa using ht)]
        simp only [List.length_cons]
      · rw [if_neg (by simp only [decide_eq_true_eq]; rw [hti]; exact ht),
          if_neg (by simpa using ht)]
  | unregister did =>
    show RegInv (unregister_subscription st did)
    unfold unregister_subscription
    cases hl : alookup did st.subscriptions with
    | none => exact ⟨hnd, hcnt⟩
    | some info =>
      obtain ⟨l1, l2, hsplit, hl1⟩ := alookup_some_split hl
      refine ⟨decTenant_keys_nodup hnd, fun t => ?_⟩
      show (alookup t (decTenant info.tenant_id st.tenant_counts)).getD 0 =
        ((aerase did st.subscriptions).filter
          (fun p => decide (p.2.tenant_id = t))).length
      rw [count_decTenant _ _ _ hnd, hsplit, aerase_append_first hl1]
      have hc := hcnt t
      unfold count_by_tenant at hc
      rw [hsplit] at hc
      simp only [List.filter_append, List.filter_cons, List.length_append] at hc ⊢
      by_cases ht : info.tenant_id = t
      · rw [if_pos ht]
        rw [if_pos (by simpa using ht)] at hc
        simp only [List.length_cons] at hc
        omega
      · rw [if_neg ht]
        rw [if_neg (by simpa using ht)] at hc
        exact hc

theorem regInv_run {st : RegistryState} {ops : List RegOp} (h : RegInv st)
    (hg : goodRun st ops) : RegInv (runRegOps st ops) := by
  induction ops generalizing st with
  | nil => exact h
  | cons op rest ih =>
    obtain ⟨hg1, hg2⟩ := hg
    exact ih (regInv_step h hg1) hg2

end SipProc

namespace SipProc

/-- C5 counterexample: registering dialog "d" under tenant "a" and then
re-registering the same dialog under tenant "b" leaves `count_by_tenant "b"`
at 0 although exactly one registered dialog stores tenant "b". On the
re-registration path `emplace` does not insert, the stored info is overwritten
in place, and neither tenant counter is adjusted. -/
theorem register_retenant_breaks_count :
    count_by_tenant (runRegOps registryEmpty
      [RegOp.register ['d'] { tenant_id := ['a'] },
       RegOp.register ['d'] { tenant_id := ['b'] }]) ['b'] = 0 ∧
    ((runRegOps registryEmpty
      [RegOp.register ['d'] { tenant_id := ['a'] },
       RegOp.register ['d'] { tenant_id := ['b'] }]).subscriptions.filter
      (fun p => p.2.tenant_id = ['b'])).length = 1 := by
  decide

/-- C5 (amended): tenant counter correctness for tenant-stable call sequences.
After any sequence of `register_subscription` / `unregister_subscription`
calls starting from the empty registry in which no call re-registers a live
dialog_id under a different tenant_id, `count_by_tenant t` equals the number
of currently registered dialogs whose stored tenant_id is `t`, for every
tenant `t`. The unrestricted original claim is refuted by
`register_retenant_breaks_count`. -/
theorem tenant_count_correct (ops : List RegOp)
    (hg : goodRun registryEmpty ops) (t : Str) :
    count_by_tenant (runRegOps registryEmpty ops) t =
      ((runRegOps registryEmpty ops).subscriptions.filter
        (fun p => p.2.tenant_id = t)).length :=
  (regInv_run regInv_empty hg).2 t

/-- Witness for the amended C5 theorem at a concrete tenant-stable run. -/
theorem tenant_count_correct_witness :
    goodRun registryEmpty
      [RegOp.register ['d'] { tenant_id := ['a'] },
       RegOp.register ['e'] { tenant_id := ['a'] },
       RegOp.unregister ['d']] ∧
    count_by_tenant (runRegOps registryEmpty
      [RegOp.register ['d'] { tenant_id := ['a'] },
       RegOp.register ['e'] { tenant_id := ['a'] },
       RegOp.unregister ['d']]) ['a'] =
      ((runRegOps registryEmpty
        [RegOp.register ['d'] { tenant_id := ['a'] },
         RegOp.register ['e'] { tenant_id := ['a'] },
         RegOp.unregister ['d']]).subscriptions.filter
          (fun p => p.2.tenant_id = ['a'])).length :=
  ⟨by decide, tenant_count_correct _ (by decide) ['a']⟩

end SipProc

namespace SipProc

/-! ### BlfSubscriptionIndex and startup recovery (C3) -/

/-- `operator[]`-style set: overwrite when present, insert when absent. -/
def asetd {A : Type} (k : Str) (v : A) (m : List (Str × A)) : List (Str × A) :=
  match alookup k m with
  | some _ => aset k v m
  | none => m ++ [(k, v)]

/-- The two maps of `BlfSubscriptionIndex` (blf_subscription_index.h):
`uri_to_watchers_ : normalized uri → vector of (dialog_id, tenant_id)` and
`dialog_to_uri_ : dialog_id → normalized uri`. -/
structure IndexState where
  uri_to_watchers : List (Str × List (Str × Str)) := []
  dialog_to_uri : List (Str × Str) := []
deriving DecidableEq, Repr

def indexEmpty : IndexState := {}

/-- Drop `dialog_id`'s entry from the bucket of `uri`, erasing the bucket
when it becomes empty (the shared `remove_if` + `erase-if-empty` step of
`add`, `remove` and `remove_dialog`). `operator[]` on a missing key
default-constructs an empty bucket, which is erased again at once. -/
def eraseDialogFromUri (m : List (Str × List (Str × Str))) (uri did : Str) :
    List (Str × List (Str × Str)) :=
  let ws1 := ((alookup uri m).getD []).filter (fun w => ¬ (w.1 = did))
  if ws1 = [] then aerase uri m else asetd uri ws1 m

/-- `BlfSubscriptionIndex::add` (blf_subscription_index.cpp lines 62-96). -/
def indexAdd (st : IndexState) (monitored_uri did tid : Str) : IndexState :=
  if monitored_uri = [] ∨ did = [] then st
  else
    let norm := normalize_uri monitored_uri
    match alookup did st.dialog_to_uri with
    | some old =>
      if old ≠ norm then
        { uri_to_watchers :=
            asetd norm
              (((alookup norm (eraseDialogFromUri st.uri_to_watchers old did)).getD [])
                ++ [(did, tid)])
              (eraseDialogFromUri st.uri_to_watchers old did)
          dialog_to_uri := asetd did norm st.dialog_to_uri }
      else st
    | none =>
      { uri_to_watchers :=
          asetd norm (((alookup norm st.uri_to_watchers).getD []) ++ [(did, tid)])
            st.uri_to_watchers
        dialog_to_uri := asetd did norm st.dialog_to_uri }

/-- `BlfSubscriptionIndex::remove` (lines 98-117). -/
def indexRemove (st : IndexState) (monitored_uri did : Str) : IndexState :=
  { uri_to_watchers :=
      eraseDialogFromUri st.uri_to_watchers (normalize_uri monitored_uri) did
    dialog_to_uri := aerase did st.dialog_to_uri }

/-- `BlfSubscriptionIndex::remove_dialog` (lines 119-136). -/
def indexRemoveDialog (st : IndexState) (did : Str) : IndexState :=
  match alookup did st.dialog_to_uri with
  | none => st
  | some norm =>
    { uri_to_watchers := eraseDialogFromUri st.uri_to_watchers norm did
      dialog_to_uri := aerase did st.dialog_to_uri }

/-- `BlfSubscriptionIndex::lookup` (lines 138-150): normalizes its argument
and returns the bucket (empty when absent). -/
def indexLookup (st : IndexState) (monitored_uri : Str) : List (Str × Str) :=
  (alookup (normalize_uri monitored_uri) st.uri_to_watchers).getD []

/-- The indexing step of `DialogWorker::load_recovered_subscription`
(part_005 lines 65-89): a BLF record with a non-empty monitored URI is
indexed with NO lifecycle check (contrast `index_blf_subscription`, which
requires `kActive`). -/
def loadRecovered (st : IndexState) (rec : SubscriptionRecord) : IndexState :=
  if rec.type = SubscriptionType.kBLF ∧ rec.blf_monitored_uri ≠ [] then
    indexAdd st rec.blf_monitored_uri rec.dialog_id rec.tenant_id
  else st

def recoverAll (st : IndexState) : List SubscriptionRecord → IndexState
  | [] => st
  | r :: rs => recoverAll (loadRecovered st r) rs

theorem alookup_append_single {A : Type} (d k : Str) (v : A)
    (m : List (Str × A)) :
    alookup d (m ++ [(k, v)]) =
      match alookup d m with
      | some w => some w
      | none => if k = d then some v else none := by
  induction m with
  | nil => simp [alookup]
  | cons p m ih =>
    obtain ⟨k1, v1⟩ := p
    simp only [List.cons_append, alookup]
    by_cases hk : k1 = d
    · rw [if_pos hk, if_pos hk]
    · rw [if_neg hk, if_neg hk]
      exact ih

theorem alookup_asetd {A : Type} (k d : Str) (v : A) (m : List (Str × A)) :
    alookup d (asetd k v m) = if k = d then some v else alookup d m := by
  unfold asetd
  cases hk : alookup k m with
  | some w =>
    by_cases hd : k = d
    · subst hd
      rw [if_pos rfl]
      exact alookup_aset_self hk
    · rw [if_neg hd]
      exact alookup_aset_ne (fun hc : d = k => hd hc.symm)
  | none =>
    rw [alookup_append_single]
    by_cases hd : k = d
    · subst hd
      rw [if_pos rfl, hk, if_pos rfl]
    · rw [if_neg hd, if_neg hd]
      cases alookup d m with
      | none => rfl
      | some w => rfl

/-- The recovery invariant over the processed prefix: keys of
`dialog_to_uri` come from processed records, every processed BLF record with
a non-empty URI is in its bucket, and every bucket entry traces back to a
processed BLF record with that normalized URI. -/
def IdxInv (processed : List SubscriptionRecord) (st : IndexState) : Prop :=
  (∀ d : Str, (alookup d st.dialog_to_uri).isSome = true →
      d ∈ processed.map SubscriptionRecord.dialog_id) ∧
  (∀ r ∈ processed, r.type = SubscriptionType.kBLF → r.blf_monitored_uri ≠ [] →
      (r.dialog_id, r.tenant_id) ∈
        (alookup (normalize_uri r.blf_monitored_uri) st.uri_to_watchers).getD []) ∧
  (∀ u : Str, ∀ ws : List (Str × Str),
      alookup u st.uri_to_watchers = some ws → ∀ w ∈ ws,
      ∃ r ∈ processed, r.dialog_id = w.1 ∧ r.tenant_id = w.2 ∧
        r.type = SubscriptionType.kBLF ∧ r.blf_monitored_uri ≠ [] ∧
        normalize_uri r.blf_monitored_uri = u)

theorem idxInv_step {processed : List SubscriptionRecord} {st : IndexState}
    {r : SubscriptionRecord} (h : IdxInv processed st)
    (hfresh : r.dialog_id ∉ processed.map SubscriptionRecord.dialog_id)
    (hne : r.dialog_id ≠ []) :
    IdxInv (processed ++ [r]) (loadRecovered st r) := by
  obtain ⟨h1, h2, h3⟩ := h
  unfold loadRecovered
  by_cases hblf : r.type = SubscriptionType.kBLF ∧ r.blf_monitored_uri ≠ []
  · rw [if_pos hblf]
    unfold indexAdd
    rw [if_neg (by
      rintro (hc | hc)
      · exact hblf.2 hc
      · exact hne hc)]
    have hdto : alookup r.dialog_id st.dialog_to_uri = none := by
      cases hd : alookup r.dialog_id st.dialog_to_uri with
      | none => rfl
      | some u => exact absurd (h1 r.dialog_id (by rw [hd]; rfl)) hfresh
    simp only [hdto]
    refine ⟨?_, ?_, ?_⟩
    · intro d hd
      rw [alookup_asetd] at hd
      by_cases hdd : r.dialog_id = d
      · simp [hdd.symm]
      · rw [if_neg hdd] at hd
        simp only [List.map_append, List.map_cons, List.map_nil, List.mem_append]
        exact Or.inl (h1 d hd)
    · intro q hq hqt hqu
      rcases List.mem_append.mp hq with hq | hq
      · have hold := h2 q hq hqt hqu
        rw [alookup_asetd]
        by_cases hu : normalize_uri r.blf_monitored_uri =
            normalize_uri q.blf_monitored_uri
        · rw [if_pos hu, Option.getD_some, hu]
          exact List.mem_append_left _ hold
        · rw [if_neg hu]
          exact hold
      · obtain rfl : q = r := by
          rcases List.mem_cons.mp hq with h | h
          · exact h
          · exact absurd h (List.not_mem_nil q)
        show (q.dialog_id, q.tenant_id) ∈
          (alookup (normalize_uri q.blf_monitored_uri)
            (asetd (normalize_uri q.blf_monitored_uri)
              ((alookup (normalize_uri q.blf_monitored_uri)
                  st.uri_to_watchers).getD []
                ++ [(q.dialog_id, q.tenant_id)]) st.uri_to_watchers)).getD []
        rw [alookup_asetd, if_pos rfl, Option.getD_some]
        exact List.mem_append_right _ (List.mem_singleton.mpr rfl)
    · intro u ws hws w hw
      rw [alookup_asetd] at hws
      by_cases hu : normalize_uri r.blf_monitored_uri = u
      · rw [if_pos hu] at hws
        obtain rfl : ((alookup (normalize_uri r.blf_monitored_uri)
            st.uri_to_watchers).getD []) ++ [(r.dialog_id, r.tenant_id)] = ws :=
          Option.some.inj hws
        rcases List.mem_append.mp hw with hw | hw
        · cases hb : alookup (normalize_uri r.blf_monitored_uri)
              st.uri_to_watchers with
          | none => rw [hb] at hw; exact absurd hw (List.not_mem_nil w)
          | some ws0 =>
            rw [hb, Option.getD_some] at hw
            obtain ⟨q, hq, hh⟩ := h3 _ ws0 hb w hw
            exact ⟨q, List.mem_append_left _ hq, hh.1, hh.2.1, hh.2.2.1,
              hh.2.2.2.1, hu ▸ hh.2.2.2.2⟩
        · obtain rfl : w = (r.dialog_id, r.tenant_id) :=
            List.mem_singleton.mp hw
          exact ⟨r, List.mem_append_right _ (List.mem_singleton.mpr rfl),
            rfl, rfl, hblf.1, hblf.2, hu⟩
      · rw [if_neg hu] at hws
        obtain ⟨q, hq, hh⟩ := h3 u ws hws w hw
        exact ⟨q, List.mem_append_left _ hq, hh⟩
  · rw [if_neg hblf]
    refine ⟨?_, ?_, ?_⟩
    · intro d hd
      simp only [List.map_append, List.mem_append]
      exact Or.inl (h1 d hd)
    · intro q hq hqt hqu
      rcases List.mem_append.mp hq with hq | hq
      · exact h2 q hq hqt hqu
      · obtain rfl : q = r := by
          rcases List.mem_cons.mp hq with h | h
          · exact h
          · exact absurd h (List.not_mem_nil q)
        exact absurd ⟨hqt, hqu⟩ hblf
    · intro u ws hws w hw
      obtain ⟨q, hq, hh⟩ := h3 u ws hws w hw
      exact ⟨q, List.mem_append_left _ hq, hh⟩

theorem idxInv_run {processed : List SubscriptionRecord} {st : IndexState}
    {recs : List SubscriptionRecord} (h : IdxInv processed st)
    (hnd : ∀ r ∈ recs, r.dialog_id ∉ processed.map SubscriptionRecord.dialog_id)
    (hnd2 : (recs.map SubscriptionRecord.dialog_id).Nodup)
    (hne : ∀ r ∈ recs, r.dialog_id ≠ []) :
    IdxInv (processed ++ recs) (recoverAll st recs) := by
  induction recs generalizing processed st with
  | nil => simpa using h
  | cons r rs ih =>
    simp only [List.map_cons, List.nodup_cons] at hnd2
    have hstep := idxInv_step h (hnd r (by simp)) (hne r (by simp))
    have := ih hstep
      (fun q hq => by
        simp only [List.map_append, List.map_cons, List.map_nil,
          List.mem_append, List.mem_cons]
        rintro (hc | hc)
        · exact hnd q (by simp [hq]) hc
        · rcases hc with hc | hc
          · exact hnd2.1 (hc ▸ List.mem_map_of_mem SubscriptionRecord.dialog_id hq)
          · exact absurd hc (List.not_mem_nil _))
      hnd2.2
      (fun q hq => hne q (by simp [hq]))
    simpa using this

end SipProc

namespace SipProc

/-- C3 counterexample: startup recovery indexes a Pending BLF record.
`load_recovered_subscription` calls `BlfSubscriptionIndex::add` with no
lifecycle check (unlike `index_blf_subscription`, which requires `kActive`),
and `load_active_subscriptions` returns rows with lifecycle Active or
Pending; so after recovery the watcher index can hold an entry whose record
is not Active, refuting the converse direction of the claimed invariant. -/
theorem recovery_indexes_pending_record :
    (['d'], ['t']) ∈ indexLookup (recoverAll indexEmpty
      [{ dialog_id := ['d'], tenant_id := ['t'],
         type := SubscriptionType.kBLF,
         lifecycle := SubLifecycle.kPending,
         blf_monitored_uri := "sip:a@b".data }]) ("sip:a@b".data) ∧
    SubLifecycle.kPending ≠ SubLifecycle.kActive := by
  decide

/-- C3 (amended): watcher-index consistency after startup recovery, with the
lifecycle condition widened from Active to {Active, Pending}. For any
recovered row set with distinct, non-empty dialog ids (as
`load_active_subscriptions` returns: lifecycle IN {active, pending}, empty
dialog_id skipped, dialog_id primary key), after `load_recovered_subscription`
runs on every row: every BLF record with a non-empty monitored URI has its
`(dialog_id, tenant_id)` entry in `lookup(blf_monitored_uri)` (the index
stores and looks up under `normalize_uri`), and conversely every watcher
entry in the index traces back to a recovered BLF record — with lifecycle
Active or Pending, not necessarily Active as originally claimed — whose
normalized monitored URI is the entry's key. -/
theorem recovery_index_consistency (recs : List SubscriptionRecord)
    (hload : ∀ r ∈ recs, r.lifecycle = SubLifecycle.kActive ∨
      r.lifecycle = SubLifecycle.kPending)
    (hnd : (recs.map SubscriptionRecord.dialog_id).Nodup)
    (hne : ∀ r ∈ recs, r.dialog_id ≠ []) :
    (∀ r ∈ recs, r.type = SubscriptionType.kBLF → r.blf_monitored_uri ≠ [] →
      (r.dialog_id, r.tenant_id) ∈
        indexLookup (recoverAll indexEmpty recs) r.blf_monitored_uri) ∧
    (∀ u : Str, ∀ ws : List (Str × Str),
      alookup u (recoverAll indexEmpty recs).uri_to_watchers = some ws →
      ∀ w ∈ ws, ∃ r ∈ recs, r.dialog_id = w.1 ∧ r.tenant_id = w.2 ∧
        r.type = SubscriptionType.kBLF ∧ r.blf_monitored_uri ≠ [] ∧
        (r.lifecycle = SubLifecycle.kActive ∨
          r.lifecycle = SubLifecycle.kPending) ∧
        normalize_uri r.blf_monitored_uri = u) := by
  have base : IdxInv [] indexEmpty := by
    refine ⟨?_, ?_, ?_⟩
    · intro d hd
      simp [alookup, indexEmpty] at hd
    · intro r hr
      exact absurd hr (List.not_mem_nil r)
    · intro u ws hws
      simp [alookup, indexEmpty] at hws
  have h := idxInv_run base (fun r _ => by simp) hnd hne
  simp only [List.nil_append] at h
  obtain ⟨_, h2, h3⟩ := h
  refine ⟨fun r hr => h2 r hr, fun u ws hws w hw => ?_⟩
  obtain ⟨r, hr, ha, hb, hc, hd2, he⟩ := h3 u ws hws w hw
  exact ⟨r, hr, ha, hb, hc, hd2, hload r hr, he⟩

/-- The one recovered row of the C3 witness: an Active BLF subscription. -/
def recoveredRowW : SubscriptionRecord :=
  { dialog_id := ['d'], tenant_id := ['t'],
    type := SubscriptionType.kBLF, lifecycle := SubLifecycle.kActive,
    blf_monitored_uri := "sip:a@b".data }

/-- Witness: the amended C3 theorem at a one-record recovery list. -/
theorem recovery_index_consistency_witness :
    (∀ r ∈ [recoveredRowW],
       r.lifecycle = SubLifecycle.kActive ∨
         r.lifecycle = SubLifecycle.kPending) ∧
    (∀ r ∈ [recoveredRowW],
       r.type = SubscriptionType.kBLF → r.blf_monitored_uri ≠ [] →
       (r.dialog_id, r.tenant_id) ∈
         indexLookup (recoverAll indexEmpty [recoveredRowW])
           r.blf_monitored_uri) :=
  ⟨by decide,
   (recovery_index_consistency _ (by decide) (by decide) (by decide)).1⟩

end SipProc

namespace SipProc

/-- C6 counterexample: the user part is lowercased on a scheme-less input
with a non-5060 port. In "User@x.com:5070" the first ':' of the string is
the port colon, so the scheme-lowercasing loop (positions 0..scheme_end)
runs across the whole user part. The spec says the user part is never
lowercased for any input. -/
theorem normalize_lowercases_user :
    normalize_uri "User@x.com:5070".data = "sip:user@x.com:5070".data ∧
      normalize_uri "User@x.com:5070".data ≠ "sip:User@x.com:5070".data := by
  decide

/-- C6 (amended): on inputs already carrying the `sip:` scheme, with a user
part free of '@' and ';' and a non-empty host free of '@', ';' and '>',
`normalize_uri` applies the specified steps and preserves the case of the
user part: the result is the unchanged `sip:user@` prefix followed by the
host with a `:5060` port suffix dropped and every character lowercased. The
unrestricted claim ("the user part is never lowercased for any input,
including scheme-less inputs that contain a non-5060 port") is refuted by
`normalize_lowercases_user`. -/
theorem normalize_user_preserved (user host : Str)
    (hu1 : '@' ∉ user) (hu2 : ';' ∉ user)
    (hh1 : '@' ∉ host) (hh2 : ';' ∉ host) (hh3 : '>' ∉ host)
    (hne : host ≠ []) :
    normalize_uri (("sip:".data ++ user) ++ '@' :: host) =
      ("sip:".data ++ user) ++ '@' :: (hostPortDrop host).map asciiLower :=
  normalize_uri_sip_user_host user host hu1 hu2 hh1 hh2 hh3 hne

/-- Witness: the amended C6 theorem at the spec's own example
`normalize("sip:User@HOST.COM") = "sip:User@host.com"`. -/
theorem normalize_user_preserved_witness :
    ('@' ∉ "User".data ∧ ';' ∉ "User".data ∧ '@' ∉ "HOST.COM".data ∧
      ';' ∉ "HOST.COM".data ∧ '>' ∉ "HOST.COM".data ∧
      "HOST.COM".data ≠ ([] : Str)) ∧
    normalize_uri (("sip:".data ++ "User".data) ++ '@' :: "HOST.COM".data) =
      ("sip:".data ++ "User".data) ++
        '@' :: (hostPortDrop "HOST.COM".data).map asciiLower :=
  ⟨⟨by decide, by decide, by decide, by decide, by decide, by decide⟩,
   normalize_user_preserved "User".data "HOST.COM".data (by decide) (by decide)
     (by decide) (by decide) (by decide) (by decide)⟩

/-- C7 counterexample: normalisation is not idempotent. One pass over ">>"
strips the single leading '<'-free front and pops one trailing '>', giving
"sip:>"; a second pass pops the remaining '>' and gives "sip:". -/
theorem normalize_not_idempotent :
    normalize_uri (normalize_uri ">>".data) ≠ normalize_uri ">>".data := by
  decide

/-- C7 (amended): normalisation is idempotent on every input whose
normalised form does not end in '>'. The bracket-stripping step pops a
single trailing '>' per pass, so the unrestricted claim fails exactly on
inputs normalising to a string that still ends in '>'
(see `normalize_not_idempotent`). -/
theorem normalize_idem_of_no_trailing_gt (u : Str)
    (hgt : (normalize_uri u).getLast? ≠ some '>') :
    normalize_uri (normalize_uri u) = normalize_uri u :=
  normalize_uri_idem_of_no_gt u hgt

/-- Witness: the amended C7 theorem at the input "<sip:200@TEST.COM;x=1>". -/
theorem normalize_idem_witness :
    (normalize_uri "<sip:200@TEST.COM;x=1>".data).getLast? ≠ some '>' ∧
      normalize_uri (normalize_uri "<sip:200@TEST.COM;x=1>".data) =
        normalize_uri "<sip:200@TEST.COM;x=1>".data :=
  ⟨by decide, normalize_idem_of_no_trailing_gt _ (by decide)⟩

end SipProc

namespace SipProc

/-! ### SipEvent, the BLF/MWI processors and the dialog worker
(C1, C2, C4, C9, C10) -/

/-- `enum class SipDirection` (sip_event.h line 16). -/
inductive SipDirection
  | kIncoming
  | kOutgoing
deriving DecidableEq, Repr

/-- `enum class SipEventCategory` (sip_event.h lines 18-20). -/
inductive SipEventCategory
  | kSubscribe
  | kNotify
  | kPublish
  | kPresenceTrigger
  | kUnknown
deriving DecidableEq, Repr

/-- `enum class SipEventSource` (sip_event.h line 33). -/
inductive SipEventSource
  | kSipStack
  | kPresenceFeed
deriving DecidableEq, Repr

/-- `struct SipEvent` (sip_event.h lines 35-78), with the Sofia handle
modelled as a Bool (null / non-null) and times as `Nat`. Note the `expires`
field defaults to 0 (line 58): an event that never sets it — every presence
trigger (`create_presence_trigger`, sip_dialog_id.cpp lines 184-215) and
every NOTIFY response — carries `expires == 0`. -/
structure SipEvent where
  dialog_id : Str := []
  tenant_id : Str := []
  direction : SipDirection := .kIncoming
  category : SipEventCategory := .kUnknown
  sub_type : SubscriptionType := .kUnknown
  source : SipEventSource := .kSipStack
  status : Int := 0
  call_id : Str := []
  from_uri : Str := []
  from_tag : Str := []
  to_uri : Str := []
  to_tag : Str := []
  event_header : Str := []
  content_type : Str := []
  body : Str := []
  cseq : Nat := 0
  expires : Nat := 0
  contact_uri : Str := []
  subscription_state : Str := []
  termination_reason : Str := []
  presence_call_id : Str := []
  presence_caller_uri : Str := []
  presence_callee_uri : Str := []
  presence_state : Str := []
  presence_direction : Str := []
  nuaHandle : Bool := false
deriving DecidableEq, Repr

/-- `SipEvent::create_presence_trigger` (sip_dialog_id.cpp lines 184-215):
category kPresenceTrigger, source kPresenceFeed, BLF, incoming; `expires`
and `subscription_state` keep their defaults (0 and empty). -/
def create_presence_trigger (dialog_id tenant_id presence_call_id caller_uri
    callee_uri blf_state direction body : Str) : SipEvent :=
  { dialog_id := dialog_id, tenant_id := tenant_id,
    category := SipEventCategory.kPresenceTrigger,
    source := SipEventSource.kPresenceFeed,
    sub_type := SubscriptionType.kBLF,
    direction := SipDirection.kIncoming,
    presence_call_id := presence_call_id,
    presence_caller_uri := caller_uri,
    presence_callee_uri := callee_uri,
    presence_state := blf_state,
    presence_direction := direction,
    content_type := "application/dialog-info+xml".data,
    body := body,
    nuaHandle := false }

/-- The observable side effects of the worker: SIP messages out, store
writes, index and registry calls, handle release. -/
inductive Effect
  | subscribeResponse (status : Int) (expires : Nat)
  | notify (content_type body sub_state : Str)
  | storeSave (rec : SubscriptionRecord)
  | storeUpsert (rec : SubscriptionRecord)
  | storeDelete (did : Str)
  | idxRemoveDialog (did : Str)
  | idxAdd (uri did tid : Str)
  | registryRegister (did tid : Str)
  | registryUnregister (did : Str)
  | releaseHandle (did : Str)
deriving DecidableEq, Repr

/-- `DialogWorker::DialogContext` (dialog_worker.h): the record, the
per-dialog event queue and the Sofia handle (modelled by a Bool). -/
structure DialogCtx where
  record : SubscriptionRecord := {}
  eventQueue : List SipEvent := []
  nuaHandle : Bool := false
deriving DecidableEq, Repr

/-- `std::to_string` on an unsigned value. -/
def natToStr (n : Nat) : Str := Nat.toDigits 10 n

/-- `std::to_string` on an `int`. -/
def intToStr (i : Int) : Str :=
  if i < 0 then '-' :: natToStr i.natAbs else natToStr i.natAbs

/-- Spec-modelled: `subscription_type_to_event_header` is declared in
subscription_type.h but its definition is not among the repository's files;
the spec names the Event headers "dialog" (BLF) and "message-summary"
(MWI), with no header for kUnknown. -/
def subscription_type_to_event_header : SubscriptionType → Option Str
  | SubscriptionType.kBLF => some "dialog".data
  | SubscriptionType.kMWI => some "message-summary".data
  | SubscriptionType.kUnknown => none

/-- `DialogWorker::persist_record` (part_005 lines 103-106): nothing without
an enabled store; `save_immediately` or `queue_upsert`. -/
def persist_record (storePresent storeEnabled : Bool) (rec : SubscriptionRecord)
    (immediate : Bool) : List Effect :=
  if ¬ (storePresent ∧ storeEnabled) then []
  else if immediate then [Effect.storeSave rec] else [Effect.storeUpsert rec]

/-- `DialogWorker::send_subscribe_response` (part_005 lines 119-135): needs
stack and handle; error responses carry Expires 0. -/
def send_subscribe_response (hasStack : Bool) (ctx : DialogCtx) (ev : SipEvent)
    (status : Int) : List Effect :=
  if ¬ (hasStack ∧ ctx.nuaHandle) then []
  else [Effect.subscribeResponse status (if status ≥ 400 then 0 else ev.expires)]

/-- `DialogWorker::send_sip_notify` (part_005 lines 137-162): needs stack,
handle and a known Event header; increments the outgoing NOTIFY CSeq on the
record, then emits the NOTIFY. -/
def send_sip_notify (hasStack : Bool) (ctx : DialogCtx) (ct body sub_state : Str) :
    DialogCtx × List Effect :=
  if ¬ (hasStack ∧ ctx.nuaHandle) then (ctx, [])
  else
    match subscription_type_to_event_header ctx.record.type with
    | none => (ctx, [])
    | some _ =>
      ({ ctx with record :=
          { ctx.record with notify_cseq := ctx.record.notify_cseq + 1 } },
       [Effect.notify ct body sub_state])

/-- `DialogWorker::send_initial_notify` (part_005 lines 164-199): BLF sends
the recovered body or an empty dialog-info with the HARDCODED version "0";
MWI sends a message summary. -/
def send_initial_notify (hasStack : Bool) (ctx : DialogCtx) :
    DialogCtx × List Effect :=
  if ¬ (hasStack ∧ ctx.nuaHandle) then (ctx, [])
  else
    let r := ctx.record
    let ctbody : Str × Str :=
      if r.type = SubscriptionType.kBLF then
        ("application/dialog-info+xml".data,
          if r.blf_last_notify_body ≠ [] then r.blf_last_notify_body
          else
            "<?xml version=\"1.0\" encoding=\"UTF-8\"?>\n".data ++
            "<dialog-info xmlns=\"urn:ietf:params:xml:ns:dialog-info\"\n".data ++
            "  version=\"0\"\n".data ++
            "  state=\"full\"\n".data ++
            "  entity=\"".data ++ r.blf_monitored_uri ++ "\">\n".data ++
            "</dialog-info>\n".data)
      else if r.type = SubscriptionType.kMWI then
        ("application/simple-message-summary".data,
          "Messages-Waiting: ".data ++
            (if r.mwi_new_messages > 0 then "yes".data else "no".data) ++
            "\r\n".data ++
          "Message-Account: ".data ++ r.mwi_account_uri ++ "\r\n".data ++
          "Voice-Message: ".data ++ intToStr r.mwi_new_messages ++ "/".data ++
            intToStr r.mwi_old_messages ++ "\r\n".data)
      else ([], [])
    if ctbody.2 = [] then (ctx, [])
    else send_sip_notify hasStack ctx ctbody.1 ctbody.2 "active".data

/-- `DialogWorker::deindex_blf_subscription` (part_005 lines 98-100). -/
def deindex_blf (did : Str) (rec : SubscriptionRecord) : List Effect :=
  if rec.type = SubscriptionType.kBLF then [Effect.idxRemoveDialog did] else []

/-- `DialogWorker::index_blf_subscription` (part_005 lines 91-96). -/
def index_blf (did : Str) (rec : SubscriptionRecord) : List Effect :=
  if rec.type ≠ SubscriptionType.kBLF ∨ rec.blf_monitored_uri = [] then []
  else if rec.lifecycle ≠ SubLifecycle.kActive then []
  else [Effect.idxAdd rec.blf_monitored_uri did rec.tenant_id]

/-- `DialogWorker::handle_notify_response` (part_005 lines 201-234): 2xx is
ignored; any status ≥ 400 deindexes, terminates, persists immediately,
queues a delete and bumps the error counter. -/
def handle_notify_response (storePresent storeEnabled : Bool) (did : Str)
    (ctx : DialogCtx) (ev : SipEvent) : DialogCtx × List Effect :=
  if 200 ≤ ev.status ∧ ev.status < 300 then (ctx, [])
  else if ev.status ≥ 400 then
    let effD := deindex_blf did ctx.record
    let rec1 := { ctx.record with lifecycle := SubLifecycle.kTerminated }
    ({ ctx with record := rec1 },
     effD ++ persist_record storePresent storeEnabled rec1 true ++
       (if storePresent then [Effect.storeDelete did] else []))
  else (ctx, [])

end SipProc

namespace SipProc

/-! ### BlfProcessor (part_007) -/

/-- `BlfProcessor::NotifyAction` (blf_processor.h). -/
structure NotifyAction where
  should_notify : Bool := false
  content_type : Str := []
  body : Str := []
  subscription_state_header : Str := []
deriving DecidableEq, Repr

/-- `BlfProcessor::build_dialog_info_xml` (part_007 lines 83-136). The
version attribute renders `notify_version_++`: the WORKER-WIDE processor
counter, returned incremented. -/
def build_dialog_info_xml (notify_version : Nat) (entity_uri _dialog_id
    call_id state direction caller_uri callee_uri : Str) : Str × Nat :=
  let xml :=
    "<?xml version=\"1.0\" encoding=\"UTF-8\"?>\n".data ++
    "<dialog-info xmlns=\"urn:ietf:params:xml:ns:dialog-info\"\n".data ++
    "  version=\"".data ++ natToStr notify_version ++ "\"\n".data ++
    "  state=\"full\"\n".data ++
    "  entity=\"".data ++ entity_uri ++ "\">\n".data
  let xml :=
    if state ≠ "terminated".data ∨ call_id ≠ [] then
      xml ++ "  <dialog id=\"".data ++ call_id ++ "\"".data ++
      (if call_id ≠ [] then " call-id=\"".data ++ call_id ++ "\"".data else []) ++
      (if direction ≠ [] then
        " direction=\"".data ++ direction ++ "\"".data else []) ++
      ">\n".data ++
      "    <state>".data ++ state ++ "</state>\n".data ++
      (if caller_uri ≠ [] ∧ callee_uri ≠ [] then
        (if direction = "inbound".data ∨ direction = "recipient".data then
          "    <remote>\n".data ++
          "      <identity>".data ++ caller_uri ++ "</identity>\n".data ++
          "    </remote>\n".data ++
          "    <local>\n".data ++
          "      <identity>".data ++ callee_uri ++ "</identity>\n".data ++
          "    </local>\n".data
        else
          "    <local>\n".data ++
          "      <identity>".data ++ caller_uri ++ "</identity>\n".data ++
          "    </local>\n".data ++
          "    <remote>\n".data ++
          "      <identity>".data ++ callee_uri ++ "</identity>\n".data ++
          "    </remote>\n".data)
      else []) ++
      "  </dialog>\n".data
    else xml
  (xml ++ "</dialog-info>\n".data, notify_version + 1)

/-- `BlfProcessor::process_presence_trigger` (part_007 lines 31-81): skips
non-Active records and unchanged (state, call-id) pairs with a known state;
otherwise updates the BLF fields, touches the record and builds the NOTIFY
body. -/
def blf_process_presence_trigger (procVer : Nat) (ev : SipEvent)
    (rec : SubscriptionRecord) (now : Nat) :
    NotifyAction × SubscriptionRecord × Nat :=
  if rec.lifecycle ≠ SubLifecycle.kActive then ({}, rec, procVer)
  else
    let state_changed := rec.blf_last_state ≠ ev.presence_state ∨
      rec.blf_presence_call_id ≠ ev.presence_call_id
    if ¬ state_changed ∧ rec.blf_last_state ≠ [] then ({}, rec, procVer)
    else
      let rec1 := { rec with
        blf_last_state := ev.presence_state,
        blf_last_direction := ev.presence_direction,
        blf_presence_call_id := ev.presence_call_id }
      let rec2 := rec1.touch now
      let bv := build_dialog_info_xml procVer rec.blf_monitored_uri
        rec.dialog_id ev.presence_call_id ev.presence_state
        ev.presence_direction ev.presence_caller_uri ev.presence_callee_uri
      ({ should_notify := true,
         content_type := "application/dialog-info+xml".data,
         body := bv.1,
         subscription_state_header := "active".data }, rec2, bv.2)

/-- `BlfProcessor::DialogState` (blf_processor.h). -/
structure DialogState where
  valid : Bool := false
  entity : Str := []
  state : Str := []
  id : Str := []
  direction : Str := []
deriving DecidableEq, Repr

def isXmlWs (c : Char) : Bool :=
  c = ' ' ∨ c = '\t' ∨ c = '\n' ∨ c = '\r'

def trimWs (s : Str) : Str :=
  ((s.dropWhile isXmlWs).reverse.dropWhile isXmlWs).reverse

/-- The `find_attr` lambda of `parse_dialog_info_xml` (part_007 lines
195-204). -/
def find_attr (body tag attr : Str) : Str :=
  match findSub ('<' :: tag) body with
  | none => []
  | some tag_pos =>
    match findFrom (attr ++ "=\"".data) body tag_pos with
    | none => []
    | some attr_pos =>
      let val_start := attr_pos + attr.length + 2
      match findFrom ['"'] body val_start with
      | none => []
      | some val_end => (body.drop val_start).take (val_end - val_start)

/-- `BlfProcessor::parse_dialog_info_xml` (part_007 lines 192-224). -/
def parse_dialog_info_xml (body : Str) : DialogState :=
  let st : Bool × Str :=
    match findSub "<state>".data body with
    | none => (false, [])
    | some ss0 =>
      match findFrom "</state>".data body (ss0 + 7) with
      | none => (false, [])
      | some se => (true, trimWs ((body.drop (ss0 + 7)).take (se - (ss0 + 7))))
  { valid := st.1,
    entity := find_attr body "dialog-info".data "entity".data,
    state := st.2,
    id := find_attr body "dialog".data "id".data,
    direction := find_attr body "dialog".data "direction".data }

/-- `BlfProcessor::update_blf_state` (part_007 lines 226-237). -/
def update_blf_state (rec : SubscriptionRecord) (st : DialogState) :
    SubscriptionRecord :=
  { rec with blf_last_state := st.state,
             blf_monitored_uri :=
               if st.entity ≠ [] then st.entity else rec.blf_monitored_uri }

/-- `BlfProcessor::handle_subscribe` (part_007 lines 138-155). -/
def blf_handle_subscribe (ev : SipEvent) (rec : SubscriptionRecord)
    (now : Nat) : SubscriptionRecord :=
  let rec0 := if ev.to_uri ≠ [] then
    { rec with blf_monitored_uri := ev.to_uri } else rec
  if ev.expires = 0 then { rec0 with lifecycle := SubLifecycle.kTerminating }
  else
    let rec1 := if ev.expires > 0 then
      { rec0 with expires_at := now + ev.expires } else rec0
    let rec2 := if ev.cseq > 0 then { rec1 with cseq := ev.cseq } else rec1
    if rec2.lifecycle = SubLifecycle.kPending then
      { rec2 with lifecycle := SubLifecycle.kActive } else rec2

/-- `BlfProcessor::handle_notify` (part_007 lines 157-170). -/
def blf_handle_notify (ev : SipEvent) (rec : SubscriptionRecord) :
    SubscriptionRecord :=
  let rec1 := if ev.body ≠ [] then
      (let st := parse_dialog_info_xml ev.body
       if st.valid then update_blf_state rec st else rec)
    else rec
  if ev.subscription_state = "terminated".data then
    { rec1 with lifecycle := SubLifecycle.kTerminated } else rec1

/-- `BlfProcessor::handle_subscribe_response` (part_007 lines 172-182). -/
def blf_handle_subscribe_response (ev : SipEvent) (rec : SubscriptionRecord)
    (now : Nat) : SubscriptionRecord :=
  if 200 ≤ ev.status ∧ ev.status < 300 then
    let rec1 := if rec.lifecycle = SubLifecycle.kPending then
      { rec with lifecycle := SubLifecycle.kActive } else rec
    if ev.expires > 0 then { rec1 with expires_at := now + ev.expires }
    else rec1
  else if ev.status = 481 ∨ ev.status = 489 then
    { rec with lifecycle := SubLifecycle.kTerminated }
  else rec

/-- `BlfProcessor::handle_publish` (part_007 lines 184-190). -/
def blf_handle_publish (ev : SipEvent) (rec : SubscriptionRecord) :
    SubscriptionRecord :=
  if ev.body ≠ [] then
    (let st := parse_dialog_info_xml ev.body
     if st.valid then update_blf_state rec st else rec)
  else rec

/-- `BlfProcessor::process` (part_007 lines 12-29); kPresenceTrigger and
kUnknown leave the record unchanged (kInvalidArgument). -/
def blf_process (ev : SipEvent) (rec : SubscriptionRecord) (now : Nat) :
    SubscriptionRecord :=
  match ev.category with
  | SipEventCategory.kSubscribe =>
    if ev.direction = SipDirection.kIncoming then blf_handle_subscribe ev rec now
    else blf_handle_subscribe_response ev rec now
  | SipEventCategory.kNotify => blf_handle_notify ev rec
  | SipEventCategory.kPublish => blf_handle_publish ev rec
  | SipEventCategory.kPresenceTrigger => rec
  | SipEventCategory.kUnknown => rec

end SipProc

namespace SipProc

/-! ### MwiProcessor (mwi_processor.cpp) -/

/-- `MwiProcessor::MessageSummary` (mwi_processor.h). -/
structure MessageSummary where
  valid : Bool := false
  messages_waiting : Bool := false
  new_messages : Int := 0
  old_messages : Int := 0
  new_urgent : Int := 0
  old_urgent : Int := 0
  account : Str := []
deriving DecidableEq, Repr

/-- Split at `c`; `splitOn c s` always returns at least one piece. -/
def splitOn (c : Char) : Str → List Str
  | [] => [[]]
  | x :: xs =>
    if x = c then [] :: splitOn c xs
    else
      match splitOn c xs with
      | [] => [[x]]
      | l :: ls => (x :: l) :: ls

/-- `std::getline` over an `istringstream`: lines split at LF, the trailing
piece after a final LF not returned, an empty stream giving no line. -/
def getAllLines (s : Str) : List Str :=
  if s = [] then []
  else if s.getLast? = some '\n' then (splitOn '\n' s).dropLast
  else splitOn '\n' s

def isLwsp (c : Char) : Bool := c = ' ' ∨ c = '\t'

/-- Trim LWSP on both sides (`find_first_not_of`/`find_last_not_of` of
" \t"). -/
def trimLwsp (s : Str) : Str :=
  ((s.dropWhile isLwsp).reverse.dropWhile isLwsp).reverse

/-- The whitespace `sscanf`'s "%d" and a literal blank skip. -/
def isScanWs (c : Char) : Bool :=
  c = ' ' ∨ c = '\t' ∨ c = '\n' ∨ c = '\r'

/-- One "%d" conversion: skip whitespace, optional sign, at least one
digit. -/
def readInt (s : Str) : Option (Int × Str) :=
  let s1 := s.dropWhile isScanWs
  let ns : Bool × Str :=
    match s1 with
    | '-' :: r => (true, r)
    | '+' :: r => (false, r)
    | _ => (false, s1)
  let digs := ns.2.takeWhile Char.isDigit
  if digs = [] then none
  else
    let n : Nat := digs.foldl (fun a c => a * 10 + (c.toNat - 48)) 0
    some (if ns.1 then -(n : Int) else (n : Int), ns.2.drop digs.length)

/-- `sscanf(val, " %d/%d (%d/%d)", ...)` keeping every value that was
assigned before the first mismatch, as sscanf does; `none` when fewer than
two conversions succeed. -/
def parseVoice (val : Str) : Option (Int × Int × Int × Int) :=
  match readInt val with
  | none => none
  | some (n, r1) =>
    match r1 with
    | '/' :: r2 =>
      match readInt r2 with
      | none => none
      | some (o, r3) =>
        match (r3.dropWhile isScanWs) with
        | '(' :: r5 =>
          match readInt r5 with
          | none => some (n, o, 0, 0)
          | some (nu, r6) =>
            match r6 with
            | '/' :: r7 =>
              match readInt r7 with
              | none => some (n, o, nu, 0)
              | some (ou, _) => some (n, o, nu, ou)
            | _ => some (n, o, nu, 0)
        | _ => some (n, o, 0, 0)
    | _ => none

/-- One loop iteration of `MwiProcessor::parse_message_summary`
(mwi_processor.cpp lines 80-123): strip one trailing CR, skip blank lines,
match the lowercased header name, extract and trim the value. -/
def mwiLine (sum : MessageSummary) (line0 : Str) : MessageSummary :=
  let line1 := if line0.getLast? = some '\r' then line0.dropLast else line0
  let line := line1.dropWhile isLwsp
  if line = [] then sum
  else
    let lower := line.map asciiLower
    if "messages-waiting:".data.isPrefixOf lower then
      match findSub [':'] line with
      | some vs =>
        let val := (trimLwsp (line.drop (vs + 1))).map asciiLower
        { sum with messages_waiting := val = "yes".data, valid := true }
      | none => sum
    else if "message-account:".data.isPrefixOf lower then
      match findSub [':'] line with
      | some vs => { sum with account := trimLwsp (line.drop (vs + 1)) }
      | none => sum
    else if "voice-message:".data.isPrefixOf lower then
      match findSub [':'] line with
      | some vs =>
        match parseVoice (line.drop (vs + 1)) with
        | some (n, o, nu, ou) =>
          { sum with new_messages := n, old_messages := o,
                     new_urgent := nu, old_urgent := ou, valid := true }
        | none => sum
      | none => sum
    else sum

/-- `MwiProcessor::parse_message_summary` (lines 76-125). -/
def parse_message_summary (body : Str) : MessageSummary :=
  (getAllLines body).foldl mwiLine {}

/-- `MwiProcessor::update_mwi_state` (lines 127-139): overwrites the
counters and possibly the account URI and logs — it never sets `dirty`. -/
def update_mwi_state (rec : SubscriptionRecord) (sum : MessageSummary) :
    SubscriptionRecord :=
  { rec with mwi_new_messages := sum.new_messages,
             mwi_old_messages := sum.old_messages,
             mwi_account_uri :=
               if sum.account ≠ [] then sum.account else rec.mwi_account_uri }

/-- `MwiProcessor::handle_subscribe` (lines 27-43). -/
def mwi_handle_subscribe (ev : SipEvent) (rec : SubscriptionRecord)
    (now : Nat) : SubscriptionRecord :=
  let rec0 := if ev.to_uri ≠ [] then
    { rec with mwi_account_uri := ev.to_uri } else rec
  if ev.expires = 0 then { rec0 with lifecycle := SubLifecycle.kTerminating }
  else
    let rec1 := if ev.expires > 0 then
      { rec0 with expires_at := now + ev.expires } else rec0
    let rec2 := if ev.cseq > 0 then { rec1 with cseq := ev.cseq } else rec1
    if rec2.lifecycle = SubLifecycle.kPending then
      { rec2 with lifecycle := SubLifecycle.kActive } else rec2

/-- `MwiProcessor::handle_notify` (lines 45-55). -/
def mwi_handle_notify (ev : SipEvent) (rec : SubscriptionRecord) :
    SubscriptionRecord :=
  if ev.body = [] then rec
  else
    let sum := parse_message_summary ev.body
    let rec1 := if sum.valid then update_mwi_state rec sum else rec
    if ev.subscription_state = "terminated".data then
      { rec1 with lifecycle := SubLifecycle.kTerminated } else rec1

/-- `MwiProcessor::handle_subscribe_response` (lines 57-66). -/
def mwi_handle_subscribe_response (ev : SipEvent) (rec : SubscriptionRecord)
    (now : Nat) : SubscriptionRecord :=
  if 200 ≤ ev.status ∧ ev.status < 300 then
    let rec1 := if rec.lifecycle = SubLifecycle.kPending then
      { rec with lifecycle := SubLifecycle.kActive } else rec
    if ev.expires > 0 then { rec1 with expires_at := now + ev.expires }
    else rec1
  else if ev.status = 481 ∨ ev.status = 489 ∨ ev.status = 403 then
    { rec with lifecycle := SubLifecycle.kTerminated }
  else rec

/-- `MwiProcessor::handle_publish` (lines 68-74). -/
def mwi_handle_publish (ev : SipEvent) (rec : SubscriptionRecord) :
    SubscriptionRecord :=
  if ev.body ≠ [] then
    (let sum := parse_message_summary ev.body
     if sum.valid then update_mwi_state rec sum else rec)
  else rec

/-- `MwiProcessor::process` (lines 12-25). -/
def mwi_process (ev : SipEvent) (rec : SubscriptionRecord) (now : Nat) :
    SubscriptionRecord :=
  match ev.category with
  | SipEventCategory.kSubscribe =>
    if ev.direction = SipDirection.kIncoming then mwi_handle_subscribe ev rec now
    else mwi_handle_subscribe_response ev rec now
  | SipEventCategory.kNotify => mwi_handle_notify ev rec
  | SipEventCategory.kPublish => mwi_handle_publish ev rec
  | _ => rec

end SipProc

namespace SipProc

/-! ### DialogWorker event processing (part_005) -/

/-- `DialogWorker::process_presence_trigger` (part_005 lines 494-513):
applies the processor action, stores the body, bumps the per-record notify
version, marks dirty and sends the NOTIFY. -/
def worker_process_presence_trigger (hasStack : Bool) (procVer : Nat)
    (ctx : DialogCtx) (ev : SipEvent) (now : Nat) :
    DialogCtx × Nat × List Effect :=
  let apr := blf_process_presence_trigger procVer ev ctx.record now
  let ctx1 := { ctx with record := apr.2.1 }
  if ¬ apr.1.should_notify then (ctx1, apr.2.2, [])
  else
    let rec2 := { ctx1.record with
      blf_last_notify_body := apr.1.body,
      blf_notify_version := ctx1.record.blf_notify_version + 1,
      dirty := true }
    let ce := send_sip_notify hasStack { ctx1 with record := rec2 }
      apr.1.content_type apr.1.body apr.1.subscription_state_header
    (ce.1, apr.2.2, ce.2)

/-- The final NOTIFY body of the unsubscribe path in `process_event`
(part_005 lines 441-448), rendering `rec.blf_notify_version++`. -/
def termBlfBody (version : Nat) (entity : Str) : Str :=
  "<?xml version=\"1.0\" encoding=\"UTF-8\"?>\n".data ++
  "<dialog-info xmlns=\"urn:ietf:params:xml:ns:dialog-info\"\n".data ++
  "  version=\"".data ++ natToStr version ++ "\"\n".data ++
  "  state=\"full\"\n".data ++
  "  entity=\"".data ++ entity ++ "\">\n".data ++
  "</dialog-info>\n".data

/-- `DialogWorker::process_event` (part_005 lines 385-492), with the wall
clock passed in as `now` and the shared `BlfProcessor::notify_version_`
counter threaded through as `procVer`. Returns the updated context, the
updated counter and the emitted effects in order. -/
def process_event (hasStack storePresent storeEnabled : Bool) (procVer : Nat)
    (did : Str) (ctx : DialogCtx) (ev : SipEvent) (now : Nat) :
    DialogCtx × Nat × List Effect :=
  let rec3 := { (ctx.record.touch now) with
    is_processing := true, processing_started_at := now,
    events_processed := ctx.record.events_processed + 1 }
  let ctx0 := { ctx with record := rec3 }
  let prev_lifecycle := rec3.lifecycle
  let step1 : DialogCtx × Nat × List Effect :=
    if ev.category = SipEventCategory.kNotify ∧
        ev.direction = SipDirection.kOutgoing then
      let ce := handle_notify_response storePresent storeEnabled did ctx0 ev
      (ce.1, procVer, ce.2)
    else if ev.source = SipEventSource.kPresenceFeed then
      worker_process_presence_trigger hasStack procVer ctx0 ev now
    else
      match rec3.type with
      | SubscriptionType.kBLF =>
        ({ ctx0 with record := blf_process ev rec3 now }, procVer, [])
      | SubscriptionType.kMWI =>
        ({ ctx0 with record := mwi_process ev rec3 now }, procVer, [])
      | SubscriptionType.kUnknown =>
        if ev.sub_type ≠ SubscriptionType.kUnknown then
          let recT := { rec3 with type := ev.sub_type }
          if recT.type = SubscriptionType.kBLF then
            ({ ctx0 with record := blf_process ev recT now }, procVer, [])
          else
            ({ ctx0 with record := mwi_process ev recT now }, procVer, [])
        else (ctx0, procVer, [])
  let ctx1 := step1.1
  let rec4 := ctx1.record
  let step2 : DialogCtx × List Effect :=
    if ev.subscription_state = "terminated".data ∨ ev.expires = 0 then
      let effD := if rec4.lifecycle ≠ SubLifecycle.kTerminated then
        deindex_blf did rec4 else []
      let rec5 := { rec4 with lifecycle := SubLifecycle.kTerminated }
      let ctxA := { ctx1 with record := rec5 }
      let stepN : DialogCtx × List Effect :=
        if ev.category = SipEventCategory.kSubscribe ∧
            ev.direction = SipDirection.kIncoming then
          let effR := send_subscribe_response hasStack ctxA ev 200
          if rec5.type = SubscriptionType.kBLF then
            let body := termBlfBody rec5.blf_notify_version rec5.blf_monitored_uri
            let rec6 := { rec5 with
              blf_notify_version := rec5.blf_notify_version + 1 }
            let ce := send_sip_notify hasStack { ctxA with record := rec6 }
              "application/dialog-info+xml".data body "terminated".data
            (ce.1, effR ++ ce.2)
          else if rec5.type = SubscriptionType.kMWI then
            let ce := send_sip_notify hasStack ctxA
              "application/simple-message-summary".data
              "Messages-Waiting: no\r\n".data "terminated".data
            (ce.1, effR ++ ce.2)
          else (ctxA, effR)
        else (ctxA, [])
      (stepN.1, effD ++ stepN.2 ++
        persist_record storePresent storeEnabled stepN.1.record true ++
        (if storePresent then [Effect.storeDelete did] else []))
    else if rec4.lifecycle = SubLifecycle.kActive ∧
        prev_lifecycle = SubLifecycle.kPending then
      let effI := index_blf did rec4
      let stepN : DialogCtx × List Effect :=
        if ev.category = SipEventCategory.kSubscribe ∧
            ev.direction = SipDirection.kIncoming then
          let effR := send_subscribe_response hasStack ctx1 ev 200
          let ce := send_initial_notify hasStack ctx1
          (ce.1, effR ++ ce.2)
        else (ctx1, [])
      (stepN.1, effI ++ stepN.2 ++
        persist_record storePresent storeEnabled stepN.1.record true)
    else if ev.category = SipEventCategory.kSubscribe ∧
        ev.direction = SipDirection.kIncoming ∧
        rec4.lifecycle = SubLifecycle.kActive then
      (ctx1, send_subscribe_response hasStack ctx1 ev 200 ++
        persist_record storePresent storeEnabled rec4 false)
    else if rec4.dirty then
      ({ ctx1 with record := { rec4 with dirty := false } },
       persist_record storePresent storeEnabled rec4 false)
    else (ctx1, [])
  let rec7 := step2.1.record
  let rec8 := if ev.expires > 0 ∧ ev.category = SipEventCategory.kSubscribe
    then { rec7 with expires_at := now + ev.expires } else rec7
  ({ step2.1 with record := { rec8 with is_processing := false } },
   step1.2.1, step1.2.2 ++ step2.2)

/-- `DialogWorker::handle_new_subscription` (part_005 lines 315-373), with
the registry reads (`count_by_tenant`, `dialogs_.size()`) passed in as
numbers and the configured limits as parameters. Returns the new context
when one is created. -/
def handle_new_subscription (hasStack storePresent storeEnabled : Bool)
    (tenantCount maxPerTenant numDialogs maxDialogs : Nat)
    (did : Str) (ev : SipEvent) (now : Nat) :
    Option DialogCtx × List Effect :=
  if tenantCount ≥ maxPerTenant then
    (none, if ev.nuaHandle ∧ hasStack then
      [Effect.subscribeResponse 403 0] else [])
  else if numDialogs ≥ maxDialogs then
    (none, if ev.nuaHandle ∧ hasStack then
      [Effect.subscribeResponse 503 0] else [])
  else if ev.sub_type = SubscriptionType.kUnknown then
    (none, if ev.nuaHandle ∧ hasStack then
      [Effect.subscribeResponse 489 0] else [])
  else
    let nr : SubscriptionRecord := {
      dialog_id := did,
      tenant_id := ev.tenant_id,
      type := ev.sub_type,
      lifecycle := SubLifecycle.kPending,
      expires_at := if ev.expires > 0 then now + ev.expires else 0,
      from_uri := ev.from_uri,
      from_tag := ev.from_tag,
      to_uri := ev.to_uri,
      to_tag := ev.to_tag,
      call_id := ev.call_id,
      contact_uri := ev.contact_uri,
      blf_monitored_uri :=
        if ev.sub_type = SubscriptionType.kBLF then ev.to_uri else [],
      mwi_account_uri :=
        if ev.sub_type = SubscriptionType.kMWI then ev.to_uri else [] }
    (some { record := nr, eventQueue := [], nuaHandle := ev.nuaHandle },
     [Effect.registryRegister did ev.tenant_id] ++
       persist_record storePresent storeEnabled nr true)

/-- `DialogWorker::cleanup_terminated_dialogs` (part_005 lines 515-530):
removes a dialog when it is Terminated with an empty queue OR expired with
an empty queue, deindexing, unregistering and releasing the handle. -/
def cleanup_terminated_dialogs (now : Nat) :
    List (Str × DialogCtx) → List (Str × DialogCtx) × List Effect
  | [] => ([], [])
  | p :: rest =>
    let tail := cleanup_terminated_dialogs now rest
    if (p.2.record.lifecycle = SubLifecycle.kTerminated ∧ p.2.eventQueue = []) ∨
        (p.2.record.is_expired now = true ∧ p.2.eventQueue = []) then
      (tail.1,
        (deindex_blf p.1 p.2.record ++ [Effect.registryUnregister p.1] ++
          (if p.2.nuaHandle then [Effect.releaseHandle p.1] else [])) ++ tail.2)
    else (p :: tail.1, tail.2)

/-- Process a list of timed events on one dialog in order, accumulating the
effects (the per-dialog serialisation the worker guarantees). -/
def runEvents (hasStack storePresent storeEnabled : Bool) :
    Nat → DialogCtx → List (SipEvent × Nat) → DialogCtx × Nat × List Effect
  | procVer, ctx, [] => (ctx, procVer, [])
  | procVer, ctx, (ev, now) :: rest =>
    let s := process_event hasStack storePresent storeEnabled procVer
      ctx.record.dialog_id ctx ev now
    let t := runEvents hasStack storePresent storeEnabled s.2.1 s.1 rest
    (t.1, t.2.1, s.2.2 ++ t.2.2)

/-- The NOTIFY bodies among a list of effects, in order. -/
def notifyBodies (effs : List Effect) : List Str :=
  effs.filterMap fun e =>
    match e with
    | Effect.notify _ b _ => some b
    | _ => none

end SipProc

namespace SipProc

/-! ### Concrete traces settling C1, C2, C4 and C9 -/

/-- An Active BLF dialog context with a live Sofia handle. -/
def blfActiveRecord : SubscriptionRecord :=
  { dialog_id := ['d']
    tenant_id := ['t']
    type := SubscriptionType.kBLF
    lifecycle := SubLifecycle.kActive
    blf_monitored_uri := "sip:a@b".data }

def blfActiveCtx : DialogCtx := { record := blfActiveRecord, nuaHandle := true }

/-- A presence-feed trigger for that dialog (state "confirmed"). -/
def presenceTriggerEv : SipEvent := create_presence_trigger ['d'] ['t']
  "c1".data "sip:x@y".data "sip:a@b".data "confirmed".data "inbound".data []

/-- C1: a presence-feed trigger on an Active BLF dialog does NOT leave the
lifecycle Active. `create_presence_trigger` never sets `expires`, which
defaults to 0, so after the NOTIFY is emitted the lifecycle block of
`process_event` (`subscription_state == "terminated" || expires == 0`)
deindexes the dialog, sets it Terminated, persists and queues a store
delete — contradicting the claimed frame "lifecycle remains Active and the
watcher-index entry is not removed". Exactly one NOTIFY (subscription-state
active) is emitted, as claimed. -/
theorem presence_trigger_terminates_dialog :
    (process_event true true true 0 ['d'] blfActiveCtx presenceTriggerEv
      5).1.record.lifecycle = SubLifecycle.kTerminated ∧
    Effect.idxRemoveDialog ['d'] ∈
      (process_event true true true 0 ['d'] blfActiveCtx presenceTriggerEv
        5).2.2 ∧
    Effect.storeDelete ['d'] ∈
      (process_event true true true 0 ['d'] blfActiveCtx presenceTriggerEv
        5).2.2 ∧
    (notifyBodies (process_event true true true 0 ['d'] blfActiveCtx
      presenceTriggerEv 5).2.2).length = 1 := by
  decide

/-- The initial BLF SUBSCRIBE (expires 3600) for dialog "d". -/
def subscribeEv : SipEvent :=
  { dialog_id := ['d']
    tenant_id := ['t']
    direction := SipDirection.kIncoming
    category := SipEventCategory.kSubscribe
    sub_type := SubscriptionType.kBLF
    to_uri := "sip:a@b".data
    expires := 3600
    cseq := 1
    nuaHandle := true }

/-- The dialog context `handle_new_subscription` creates for that
SUBSCRIBE on a fresh worker. -/
def newBlfCtx : DialogCtx :=
  (handle_new_subscription true true true 0 100 0 100 ['d'] subscribeEv
    10).1.getD {}

/-- C2: the NOTIFY version attributes on one dialog are NOT strictly
increasing. On a fresh worker, activating a BLF subscription and then
processing one presence trigger emits two NOTIFYs whose dialog-info bodies
both carry version "0": `send_initial_notify` hardcodes version "0" while
`build_dialog_info_xml` renders the shared `BlfProcessor::notify_version_`
counter, which starts at 0 and is unrelated to both the hardcoded initial
value and the per-record `blf_notify_version`. -/
theorem notify_versions_not_increasing :
    ((notifyBodies (runEvents true true true 0 newBlfCtx
        [(subscribeEv, 10), (presenceTriggerEv, 20)]).2.2).map
      (fun b => find_attr b "dialog-info".data "version".data))
      = ["0".data, "0".data] := by
  decide

/-- A 200 OK response to an outgoing NOTIFY on dialog "d". -/
def notifyRespEv : SipEvent :=
  { dialog_id := ['d']
    category := SipEventCategory.kNotify
    direction := SipDirection.kOutgoing
    status := 200 }

/-- C4: a 2xx NOTIFY response is ignored by `handle_notify_response`
itself (first conjunct), but processing the response event still terminates
the dialog: the response carries `expires == 0` (the SipEvent default), so
the lifecycle block of `process_event` deindexes the dialog, sets
Terminated, persists and queues a store delete — contradicting "if the
status is 2xx, no action is taken (the record, its lifecycle and its index
entry are unchanged)". -/
theorem notify_2xx_still_terminates :
    handle_notify_response true true ['d'] blfActiveCtx notifyRespEv
      = (blfActiveCtx, []) ∧
    (process_event true true true 0 ['d'] blfActiveCtx notifyRespEv
      5).1.record.lifecycle = SubLifecycle.kTerminated ∧
    Effect.idxRemoveDialog ['d'] ∈
      (process_event true true true 0 ['d'] blfActiveCtx notifyRespEv 5).2.2 ∧
    Effect.storeDelete ['d'] ∈
      (process_event true true true 0 ['d'] blfActiveCtx notifyRespEv 5).2.2 := by
  decide

/-- An Active MWI dialog context. -/
def mwiActiveRecord : SubscriptionRecord :=
  { dialog_id := ['d']
    tenant_id := ['t']
    type := SubscriptionType.kMWI
    lifecycle := SubLifecycle.kActive
    mwi_account_uri := "sip:old@test.com".data }

def mwiActiveCtx : DialogCtx := { record := mwiActiveRecord, nuaHandle := true }

/-- The spec's message-summary body: 3 new, 7 old, account
sip:user@test.com. -/
def msgSummaryBody : Str :=
  ("Messages-Waiting: yes\r\n" ++
   "Message-Account: sip:user@test.com\r\n" ++
   "Voice-Message: 3/7 (1/2)\r\n").data

/-- The message-summary NOTIFY carrying that body. -/
def mwiNotifyEv : SipEvent :=
  { dialog_id := ['d']
    category := SipEventCategory.kNotify
    direction := SipDirection.kIncoming
    body := msgSummaryBody }

/-- A message-summary NOTIFY whose counters equal the record's (0/0). -/
def mwiNoChangeEv : SipEvent :=
  { dialog_id := ['d']
    category := SipEventCategory.kNotify
    direction := SipDirection.kIncoming
    body := "Voice-Message: 0/0\r\n".data }

/-- C9 counterexample: the record is marked dirty even when the
voice-message counters do not change. Processing a NOTIFY whose body
carries the record's current counters (0/0) still leaves `dirty = true`:
`rec.touch()` at the top of `process_event` sets it unconditionally, and
`update_mwi_state` itself never touches the flag, so dirtiness never
depends on an actual counter change. -/
theorem mwi_dirty_without_change :
    (process_event true true true 0 ['d'] mwiActiveCtx mwiNoChangeEv
        5).1.record.mwi_new_messages = mwiActiveCtx.record.mwi_new_messages ∧
    (process_event true true true 0 ['d'] mwiActiveCtx mwiNoChangeEv
        5).1.record.mwi_old_messages = mwiActiveCtx.record.mwi_old_messages ∧
    (process_event true true true 0 ['d'] mwiActiveCtx mwiNoChangeEv
        5).1.record.dirty = true := by
  decide

/-- C9 (amended): parsing the spec's message-summary body sets
`mwi_new_messages = 3`, `mwi_old_messages = 7` and
`mwi_account_uri = "sip:user@test.com"` on the record and leaves the record
dirty — but the record is dirty because `rec.touch()` marks every processed
event's record dirty, not only on counter change (the "only when the
counters actually change" half of the original claim is refuted by
`mwi_dirty_without_change`). -/
theorem mwi_message_summary_applied :
    (process_event true true true 0 ['d'] mwiActiveCtx mwiNotifyEv
        5).1.record.mwi_new_messages = 3 ∧
    (process_event true true true 0 ['d'] mwiActiveCtx mwiNotifyEv
        5).1.record.mwi_old_messages = 7 ∧
    (process_event true true true 0 ['d'] mwiActiveCtx mwiNotifyEv
        5).1.record.mwi_account_uri = "sip:user@test.com".data ∧
    (process_event true true true 0 ['d'] mwiActiveCtx mwiNotifyEv
        5).1.record.dirty = true := by
  decide

end SipProc

namespace SipProc

/-- C10: the periodic cleanup reaps any dialog that is Terminated with an
empty queue OR whose `expires_at` has passed (per `is_expired`) with an
empty queue — the lifecycle may still be Pending or Active in the second
case. The survivors are exactly the non-matching dialogs in order; every
reaped dialog is unregistered from the registry, deindexed when of BLF
type, and its handle released when present; and cleanup emits no NOTIFY
and queues no store delete. -/
theorem cleanup_reaps_terminated_or_expired (now : Nat)
    (ds : List (Str × DialogCtx)) :
    (cleanup_terminated_dialogs now ds).1 =
      ds.filter (fun p =>
        ¬ ((p.2.record.lifecycle = SubLifecycle.kTerminated ∧
              p.2.eventQueue = []) ∨
           (p.2.record.is_expired now = true ∧ p.2.eventQueue = []))) ∧
    (∀ p ∈ ds,
      ((p.2.record.lifecycle = SubLifecycle.kTerminated ∧
          p.2.eventQueue = []) ∨
       (p.2.record.is_expired now = true ∧ p.2.eventQueue = [])) →
      Effect.registryUnregister p.1 ∈ (cleanup_terminated_dialogs now ds).2 ∧
      (p.2.record.type = SubscriptionType.kBLF →
        Effect.idxRemoveDialog p.1 ∈ (cleanup_terminated_dialogs now ds).2) ∧
      (p.2.nuaHandle = true →
        Effect.releaseHandle p.1 ∈ (cleanup_terminated_dialogs now ds).2)) ∧
    (∀ e ∈ (cleanup_terminated_dialogs now ds).2,
      (∀ ct b ss, e ≠ Effect.notify ct b ss) ∧
      (∀ d2, e ≠ Effect.storeDelete d2)) := by
  induction ds with
  | nil =>
    refine ⟨rfl, ?_, ?_⟩
    · intro p hp
      exact absurd hp (List.not_mem_nil p)
    · intro e he
      exact absurd he (List.not_mem_nil e)
  | cons p rest ih =>
    obtain ⟨ih1, ih2, ih3⟩ := ih
    by_cases hC : (p.2.record.lifecycle = SubLifecycle.kTerminated ∧
        p.2.eventQueue = []) ∨
      (p.2.record.is_expired now = true ∧ p.2.eventQueue = [])
    · have hstep : cleanup_terminated_dialogs now (p :: rest) =
          ((cleanup_terminated_dialogs now rest).1,
            (deindex_blf p.1 p.2.record ++ [Effect.registryUnregister p.1] ++
              (if p.2.nuaHandle then [Effect.releaseHandle p.1] else [])) ++
              (cleanup_terminated_dialogs now rest).2) := by
        simp only [cleanup_terminated_dialogs]
        rw [if_pos hC]
      have hstep1 : (cleanup_terminated_dialogs now (p :: rest)).1 =
          (cleanup_terminated_dialogs now rest).1 := by rw [hstep]
      have hstep2 : (cleanup_terminated_dialogs now (p :: rest)).2 =
          (deindex_blf p.1 p.2.record ++ [Effect.registryUnregister p.1] ++
            (if p.2.nuaHandle then [Effect.releaseHandle p.1] else [])) ++
            (cleanup_terminated_dialogs now rest).2 := by rw [hstep]
      refine ⟨?_, ?_, ?_⟩
      · rw [hstep1, List.filter_cons,
          if_neg (by rw [decide_eq_true_eq]; exact not_not_intro hC)]
        exact ih1
      · intro q hq hQ
        rcases List.mem_cons.mp hq with rfl | hq
        · rw [hstep2]
          refine ⟨?_, ?_, ?_⟩
          · exact List.mem_append_left _ (List.mem_append_left _
              (List.mem_append_right _ (List.mem_singleton.mpr rfl)))
          · intro hblf
            refine List.mem_append_left _ (List.mem_append_left _
              (List.mem_append_left _ ?_))
            unfold deindex_blf
            rw [if_pos hblf]
            exact List.mem_singleton.mpr rfl
          · intro hh
            refine List.mem_append_left _ (List.mem_append_right _ ?_)
            rw [hh]
            exact List.mem_singleton.mpr rfl
        · have := ih2 q hq hQ
          rw [hstep2]
          exact ⟨List.mem_append_right _ this.1,
            fun hblf => List.mem_append_right _ (this.2.1 hblf),
            fun hh => List.mem_append_right _ (this.2.2 hh)⟩
      · intro e he
        rw [hstep2] at he
        rcases List.mem_append.mp he with he | he
        · rcases List.mem_append.mp he with he | he
          · rcases List.mem_append.mp he with he | he
            · unfold deindex_blf at he
              by_cases hblf : p.2.record.type = SubscriptionType.kBLF
              · rw [if_pos hblf] at he
                obtain rfl := List.mem_singleton.mp he
                exact ⟨fun ct b ss h => Effect.noConfusion h,
                  fun d2 h => Effect.noConfusion h⟩
              · rw [if_neg hblf] at he
                exact absurd he (List.not_mem_nil e)
            · obtain rfl := List.mem_singleton.mp he
              exact ⟨fun ct b ss h => Effect.noConfusion h,
                fun d2 h => Effect.noConfusion h⟩
          · by_cases hh : p.2.nuaHandle
            · rw [if_pos hh] at he
              obtain rfl := List.mem_singleton.mp he
              exact ⟨fun ct b ss h => Effect.noConfusion h,
                fun d2 h => Effect.noConfusion h⟩
            · rw [if_neg hh] at he
              exact absurd he (List.not_mem_nil e)
        · exact ih3 e he
    · have hstep : cleanup_terminated_dialogs now (p :: rest) =
          (p :: (cleanup_terminated_dialogs now rest).1,
            (cleanup_terminated_dialogs now rest).2) := by
        simp only [cleanup_terminated_dialogs]
        rw [if_neg hC]
      have hstep1 : (cleanup_terminated_dialogs now (p :: rest)).1 =
          p :: (cleanup_terminated_dialogs now rest).1 := by rw [hstep]
      have hstep2 : (cleanup_terminated_dialogs now (p :: rest)).2 =
          (cleanup_terminated_dialogs now rest).2 := by rw [hstep]
      refine ⟨?_, ?_, ?_⟩
      · rw [hstep1, List.filter_cons,
          if_pos (by rw [decide_eq_true_eq]; exact hC)]
        rw [List.cons.injEq]
        exact ⟨rfl, ih1⟩
      · intro q hq hQ
        rcases List.mem_cons.mp hq with rfl | hq
        · exact absurd hQ hC
        · have := ih2 q hq hQ
          rw [hstep2]
          exact this
      · intro e he
        rw [hstep2] at he
        exact ih3 e he

end SipProc

namespace SipProc

/-! ### PresenceXmlParser (presence_xml_parser.cpp) — C8 -/

/-- `enum class CallState` as consumed by `parse_call_state`. -/
inductive CallState
  | kTrying
  | kRinging
  | kConfirmed
  | kTerminated
  | kHeld
  | kResumed
  | kUnknown
deriving DecidableEq, Repr

/-- `CallStateEvent` as filled in by `parse_single_event` (the fields the
parser sets; the global id and the receive time are not modelled). -/
structure CallStateEvent where
  presence_call_id : Str := []
  caller_uri : Str := []
  callee_uri : Str := []
  direction : Str := []
  tenant_id : Str := []
  timestamp_str : Str := []
  state : CallState := CallState.kUnknown
  is_valid : Bool := false
deriving DecidableEq, Repr

/-- `PresenceXmlParser::extract_element` (lines 18-30): text between
`<tag>` and the next `</tag>`, trimmed of " \t\n\r". -/
def extract_element (xml tag : Str) : Str :=
  let op := '<' :: (tag ++ ">".data)
  let cl := '<' :: '/' :: (tag ++ ">".data)
  match findSub op xml with
  | none => []
  | some s0 =>
    match findFrom cl xml (s0 + op.length) with
    | none => []
    | some e =>
      trimWs ((xml.drop (s0 + op.length)).take (e - (s0 + op.length)))

/-- `PresenceXmlParser::parse_call_state` (lines 32-42). -/
def parse_call_state (s : Str) : CallState :=
  let l := s.map asciiLower
  if l = "trying".data ∨ l = "setup".data then CallState.kTrying
  else if l = "ringing".data ∨ l = "early".data ∨ l = "alerting".data then
    CallState.kRinging
  else if l = "confirmed".data ∨ l = "connected".data ∨ l = "active".data then
    CallState.kConfirmed
  else if l = "terminated".data ∨ l = "disconnected".data ∨
      l = "released".data ∨ l = "idle".data then CallState.kTerminated
  else if l = "held".data ∨ l = "hold".data then CallState.kHeld
  else if l = "resumed".data then CallState.kResumed
  else CallState.kUnknown

/-- `PresenceXmlParser::parse_single_event` (lines 44-62). -/
def parse_single_event (xml : Str) : CallStateEvent :=
  let callId := extract_element xml "CallId".data
  let caller := extract_element xml "CallerUri".data
  let callee := extract_element xml "CalleeUri".data
  let st := parse_call_state (extract_element xml "State".data)
  { presence_call_id := callId
    caller_uri := caller
    callee_uri := callee
    direction := extract_element xml "Direction".data
    tenant_id := extract_element xml "TenantId".data
    timestamp_str := extract_element xml "Timestamp".data
    state := st
    is_valid := callId ≠ [] ∧ (callee ≠ [] ∨ caller ≠ []) ∧
      st ≠ CallState.kUnknown }

def openCse : Str := "<CallStateEvent>".data
def closeCse : Str := "</CallStateEvent>".data
def openHb : Str := "<Heartbeat>".data
def closeHb : Str := "</Heartbeat>".data

theorem findFrom_some_bounds {pat s : Str} {pos j : Nat}
    (h : findFrom pat s pos = some j) (hne : pat ≠ []) :
    pos ≤ j ∧ j + pat.length ≤ s.length ∧ pat <+: s.drop j := by
  unfold findFrom at h
  obtain ⟨k, hk, rfl⟩ := Option.map_eq_some'.mp h
  have hocc := findSub_eq_some_occ hk
  rw [List.drop_drop] at hocc
  have hlen := hocc.length_le
  rw [List.length_drop] at hlen
  have hplen : 0 < pat.length := List.length_pos.mpr hne
  refine ⟨by omega, by omega, ?_⟩
  rw [show k + pos = pos + k by omega]
  exact hocc

/-- The `while` loop of `feed` (lines 81-94), written with a fuel
argument so that it is structurally recursive: scan complete
`<CallStateEvent>…</CallStateEvent>` frames from `search_pos`, pushing the
valid parses, and return the events with the final `search_pos`. Each
iteration advances `search_pos` by at least the close tag's length, so
`buffer.length + 1` fuel always suffices (`cseLoopGo_mono` below makes the
fuel irrelevance precise). -/
def cseLoopGo : Nat → Str → Nat → List CallStateEvent × Nat
  | 0, _, search_pos => ([], search_pos)
  | fuel + 1, buffer, search_pos =>
    match findFrom openCse buffer search_pos with
    | none => ([], search_pos)
    | some s =>
      match findFrom closeCse buffer s with
      | none => ([], search_pos)
      | some e0 =>
        let e := e0 + closeCse.length
        let ev := parse_single_event ((buffer.drop s).take (e - s))
        let rest := cseLoopGo fuel buffer e
        ((if ev.is_valid then [ev] else []) ++ rest.1, rest.2)

def cseLoop (buffer : Str) (search_pos : Nat) :
    List CallStateEvent × Nat :=
  cseLoopGo (buffer.length + 1) buffer search_pos

/-- The heartbeat step of `feed` (lines 97-105): find one `<Heartbeat>` at
or after `pos`; when its `</Heartbeat>` follows, report it and move past. -/
def hbScan (buf : Str) (pos : Nat) : Bool × Nat :=
  match findFrom openHb buf pos with
  | none => (false, pos)
  | some hb_s =>
    match findFrom closeHb buf hb_s with
    | none => (false, pos)
    | some hb_e => (true, hb_e + 12)

/-- The garbage step of `feed` (lines 108-112): drop leading bytes before
the first '<', clearing the buffer when there is none. -/
def garbageTrim (buf1 : Str) : Str :=
  if buf1 = [] then buf1
  else
    match findSub ['<'] buf1 with
    | none => []
    | some lt => buf1.drop lt

/-- `PresenceXmlParser::feed` (lines 64-113): cap check, append, CSE scan,
single-heartbeat scan, prefix erase and garbage trim. Returns
(events, received_heartbeat, new buffer, error). -/
def feed (maxBuf : Nat) (buffer chunk : Str) :
    List CallStateEvent × Bool × Str × Bool :=
  if chunk = [] then ([], false, buffer, false)
  else if maxBuf < buffer.length + chunk.length then ([], false, [], true)
  else
    ((cseLoop (buffer ++ chunk) 0).1,
     (hbScan (buffer ++ chunk) (cseLoop (buffer ++ chunk) 0).2).1,
     garbageTrim ((buffer ++ chunk).drop
       (hbScan (buffer ++ chunk) (cseLoop (buffer ++ chunk) 0).2).2),
     false)

/-- Feed a list of chunks in order from an initial buffer: concatenated
events, per-feed heartbeat flags, final buffer. -/
def runFeeds (maxBuf : Nat) (buffer : Str) :
    List Str → List CallStateEvent × List Bool × Str
  | [] => ([], [], buffer)
  | c :: cs =>
    let r := feed maxBuf buffer c
    let t := runFeeds maxBuf r.2.2.1 cs
    (r.1 ++ t.1, r.2.1 :: t.2.1, t.2.2)

/-! The frame grammar of well-formed presence streams. -/

/-- The child elements of one `CallStateEvent` frame. -/
structure CseFields where
  callId : Str := []
  caller : Str := []
  callee : Str := []
  state : Str := []
  direction : Str := []
  tenant : Str := []
  timestamp : Str := []
deriving DecidableEq, Repr

inductive Frame
  | cse (f : CseFields)
  | hb
deriving DecidableEq, Repr

/-- `<tag>body</tag>`. -/
def tagged (tag body : Str) : Str :=
  ('<' :: (tag ++ ">".data)) ++ body ++ ('<' :: '/' :: (tag ++ ">".data))

def renderFields (f : CseFields) : Str :=
  tagged "CallId".data f.callId ++ tagged "CallerUri".data f.caller ++
  tagged "CalleeUri".data f.callee ++ tagged "State".data f.state ++
  tagged "Direction".data f.direction ++ tagged "TenantId".data f.tenant ++
  tagged "Timestamp".data f.timestamp

def renderFrame : Frame → Str
  | Frame.cse f => openCse ++ renderFields f ++ closeCse
  | Frame.hb => openHb ++ closeHb

def renderStream (fs : List Frame) : Str := (fs.map renderFrame).flatten

/-- Well-formed frame: element texts hold no '<'. -/
def goodFields (f : CseFields) : Prop :=
  '<' ∉ f.callId ∧ '<' ∉ f.caller ∧ '<' ∉ f.callee ∧ '<' ∉ f.state ∧
  '<' ∉ f.direction ∧ '<' ∉ f.tenant ∧ '<' ∉ f.timestamp

instance (f : CseFields) : Decidable (goodFields f) := by
  unfold goodFields
  infer_instance

def goodFrame : Frame → Prop
  | Frame.cse f => goodFields f
  | Frame.hb => True

instance (fr : Frame) : Decidable (goodFrame fr) := by
  cases fr with
  | cse f => exact (inferInstance : Decidable (goodFields f))
  | hb => exact (inferInstance : Decidable True)

/-- The events a well-formed stream denotes: each CallStateEvent frame
parsed on its own, invalid parses dropped. -/
def streamEvents (fs : List Frame) : List CallStateEvent :=
  fs.filterMap fun fr =>
    match fr with
    | Frame.cse f =>
      let ev := parse_single_event (renderFrame (Frame.cse f))
      if ev.is_valid then some ev else none
    | Frame.hb => none

end SipProc

namespace SipProc

/-! ### Framing lemmas for the presence stream (C8) -/

/-- Decidable check that no occurrence of `pat` can begin inside the fixed
literal `lit`: at every start offset some mismatch falls inside `lit`. -/
def noStartB (pat lit : Str) : Bool :=
  (List.range lit.length).all fun i =>
    (List.range (min pat.length (lit.length - i))).any fun j =>
      decide (pat[j]? ≠ (lit.drop i)[j]?)

theorem noStart_of_noStartB {pat lit : Str} (h : noStartB pat lit = true) :
    NoStart pat lit := by
  intro i hi rest
  have hall := List.all_eq_true.mp h i (List.mem_range.mpr hi)
  obtain ⟨j, hjmem, hjne⟩ := List.any_eq_true.mp hall
  have hj := List.mem_range.mp hjmem
  have hne := of_decide_eq_true hjne
  refine fixed_mismatch ?_ ?_ hne rest
  · rw [List.length_drop]
    omega
  · omega

theorem findFrom_append_shift (pat a s : Str) (p : Nat) :
    findFrom pat (a ++ s) (a.length + p) = (findFrom pat s p).map (· + a.length) := by
  unfold findFrom
  have hd : (a ++ s).drop (a.length + p) = s.drop p := by
    rw [List.drop_append_eq_append_drop,
      List.drop_eq_nil_of_le (by omega : a.length ≤ a.length + p),
      List.nil_append]
    congr 1
    omega
  rw [hd]
  cases findSub pat (s.drop p) with
  | none => rfl
  | some k =>
    show some (k + (a.length + p)) = some (k + p + a.length)
    congr 1
    omega

theorem findSub_append_exact {pat a b : Str} (ha : NoStart pat a) :
    findSub pat (a ++ (pat ++ b)) = some a.length := by
  rw [findSub_append_shift ha, findSub_of_pref (List.prefix_append pat b)]
  show some (0 + a.length) = some a.length
  rw [Nat.zero_add]

/-- A pattern cannot be found inside a prefix of a string it never starts
in. -/
theorem findSub_eq_none_of_prefix {pat q F : Str} (hne : pat ≠ [])
    (hq : q <+: F) (hF : NoStart pat F) : findSub pat q = none := by
  cases hf : findSub pat q with
  | none => rfl
  | some j =>
    exfalso
    have hocc := findSub_eq_some_occ hf
    have hjlen : j < q.length := by
      have := hocc.length_le
      rw [List.length_drop] at this
      have : 0 < pat.length := List.length_pos.mpr hne
      omega
    obtain ⟨t, rfl⟩ := hq
    have hdrop : q.drop j <+: (q ++ t).drop j := by
      rw [List.drop_append_of_le_length (by omega)]
      exact List.prefix_append _ _
    have hpp : pat <+: (q ++ t).drop j := hocc.trans hdrop
    exact hF j (by rw [List.length_append]; omega) []
      (by simpa using hpp)

/-- No occurrence of `pat` inside a proper prefix of `pre ++ pat` when
`pat` never starts inside `pre`. -/
theorem findSub_eq_none_of_proper {pat q pre : Str} (hne : pat ≠ [])
    (hq : q <+: pre ++ pat) (hlt : q.length < (pre ++ pat).length)
    (hpre : NoStart pat pre) : findSub pat q = none := by
  cases hf : findSub pat q with
  | none => rfl
  | some j =>
    exfalso
    have hocc := findSub_eq_some_occ hf
    have hlen := hocc.length_le
    rw [List.length_drop] at hlen
    have hplen : 0 < pat.length := List.length_pos.mpr hne
    have hjpre : j < pre.length := by
      rw [List.length_append] at hlt
      omega
    obtain ⟨t, ht⟩ := hq
    have hFdrop : (pre ++ pat).drop j = pre.drop j ++ pat :=
      List.drop_append_of_le_length (by omega)
    have hqdrop : q.drop j <+: (pre ++ pat).drop j := by
      rw [← ht, List.drop_append_of_le_length (by omega : j ≤ q.length)]
      exact ⟨t, rfl⟩
    have hp2 : pat <+: pre.drop j ++ pat := by
      rw [← hFdrop]
      exact hocc.trans hqdrop
    exact hpre j hjpre pat hp2

theorem findFrom_eq_none_of_findSub {pat s : Str} (pos : Nat)
    (h : findSub pat s = none) : findFrom pat s pos = none := by
  unfold findFrom
  cases hf : findSub pat (s.drop pos) with
  | none => rfl
  | some k =>
    exfalso
    have hocc := findSub_eq_some_occ hf
    rw [List.drop_drop] at hocc
    exact findSub_eq_none h (pos + k) hocc

end SipProc

namespace SipProc

theorem drop_append_add (a s : Str) (p : Nat) :
    (a ++ s).drop (a.length + p) = s.drop p := by
  rw [List.drop_append_eq_append_drop,
    List.drop_eq_nil_of_le (by omega : a.length ≤ a.length + p),
    List.nil_append]
  congr 1
  omega

theorem cseLoopGo_none {fuel : Nat} {buffer : Str} {p : Nat}
    (h : findFrom openCse buffer p = none) :
    cseLoopGo (fuel + 1) buffer p = ([], p) := by
  unfold cseLoopGo
  rw [h]

theorem cseLoopGo_noclose {fuel : Nat} {buffer : Str} {p s : Nat}
    (h1 : findFrom openCse buffer p = some s)
    (h2 : findFrom closeCse buffer s = none) :
    cseLoopGo (fuel + 1) buffer p = ([], p) := by
  unfold cseLoopGo
  split
  · rfl
  rename_i s1 heq1
  rw [h1] at heq1
  obtain rfl : s = s1 := Option.some.inj heq1
  split
  · rfl
  rename_i e0 heq2
  rw [h2] at heq2
  exact Option.noConfusion heq2

theorem cseLoopGo_found {fuel : Nat} {buffer : Str} {p s e0 : Nat}
    (h1 : findFrom openCse buffer p = some s)
    (h2 : findFrom closeCse buffer s = some e0) :
    cseLoopGo (fuel + 1) buffer p =
      ((if (parse_single_event ((buffer.drop s).take
            (e0 + closeCse.length - s))).is_valid
        then [parse_single_event ((buffer.drop s).take
            (e0 + closeCse.length - s))]
        else []) ++ (cseLoopGo fuel buffer (e0 + closeCse.length)).1,
       (cseLoopGo fuel buffer (e0 + closeCse.length)).2) := by
  conv_lhs => unfold cseLoopGo
  split
  · rename_i heq
    rw [h1] at heq
    exact Option.noConfusion heq
  rename_i s1 heq1
  rw [h1] at heq1
  obtain rfl : s = s1 := Option.some.inj heq1
  split
  · rename_i heq
    rw [h2] at heq
    exact Option.noConfusion heq
  rename_i e1 heq2
  rw [h2] at heq2
  obtain rfl : e0 = e1 := Option.some.inj heq2
  rfl

theorem cseLoopGo_mono : ∀ (f1 f2 : Nat) (buffer : Str) (p : Nat),
    buffer.length - p < f1 → buffer.length - p < f2 →
    cseLoopGo f1 buffer p = cseLoopGo f2 buffer p := by
  intro f1
  induction f1 with
  | zero =>
    intro f2 buffer p h1 h2
    omega
  | succ f1 ih =>
    intro f2 buffer p h1 h2
    cases f2 with
    | zero => omega
    | succ f2 =>
      cases hf : findFrom openCse buffer p with
      | none => rw [cseLoopGo_none hf, cseLoopGo_none hf]
      | some s =>
        cases hc : findFrom closeCse buffer s with
        | none => rw [cseLoopGo_noclose hf hc, cseLoopGo_noclose hf hc]
        | some e0 =>
          rw [cseLoopGo_found hf hc, cseLoopGo_found hf hc]
          obtain ⟨ha1, ha2, -⟩ := findFrom_some_bounds hf (by decide)
          obtain ⟨hc1, hc2, -⟩ := findFrom_some_bounds hc (by decide)
          have hcl : closeCse.length = 17 := rfl
          rw [ih f2 buffer (e0 + closeCse.length) (by omega) (by omega)]

theorem cseLoop_none {buffer : Str} {p : Nat}
    (h : findFrom openCse buffer p = none) : cseLoop buffer p = ([], p) :=
  cseLoopGo_none h

theorem cseLoop_noclose {buffer : Str} {p s : Nat}
    (h1 : findFrom openCse buffer p = some s)
    (h2 : findFrom closeCse buffer s = none) : cseLoop buffer p = ([], p) :=
  cseLoopGo_noclose h1 h2

theorem cseLoop_found {buffer : Str} {p s e0 : Nat}
    (h1 : findFrom openCse buffer p = some s)
    (h2 : findFrom closeCse buffer s = some e0) :
    cseLoop buffer p =
      ((if (parse_single_event ((buffer.drop s).take
            (e0 + closeCse.length - s))).is_valid
        then [parse_single_event ((buffer.drop s).take
            (e0 + closeCse.length - s))]
        else []) ++ (cseLoop buffer (e0 + closeCse.length)).1,
       (cseLoop buffer (e0 + closeCse.length)).2) := by
  show cseLoopGo (buffer.length + 1) buffer p = _
  rw [cseLoopGo_found h1 h2]
  obtain ⟨ha1, ha2, -⟩ := findFrom_some_bounds h1 (by decide)
  obtain ⟨hc1, hc2, -⟩ := findFrom_some_bounds h2 (by decide)
  have hcl : closeCse.length = 17 := rfl
  rw [cseLoopGo_mono buffer.length (buffer.length + 1) buffer
    (e0 + closeCse.length) (by omega) (by omega)]
  rfl

theorem cseLoopGo_pos_ge : ∀ (fuel : Nat) (buffer : Str) (p : Nat),
    p ≤ (cseLoopGo fuel buffer p).2 := by
  intro fuel
  induction fuel with
  | zero =>
    intro buffer p
    exact Nat.le_refl p
  | succ fuel ih =>
    intro buffer p
    cases hf : findFrom openCse buffer p with
    | none => rw [cseLoopGo_none hf]
    | some s =>
      cases hc : findFrom closeCse buffer s with
      | none => rw [cseLoopGo_noclose hf hc]
      | some e0 =>
        rw [cseLoopGo_found hf hc]
        obtain ⟨ha1, ha2, -⟩ := findFrom_some_bounds hf (by decide)
        obtain ⟨hc1, hc2, -⟩ := findFrom_some_bounds hc (by decide)
        have hrec := ih buffer (e0 + closeCse.length)
        show p ≤ (cseLoopGo fuel buffer (e0 + closeCse.length)).2
        omega

theorem cseLoop_pos_ge (buffer : Str) (p : Nat) :
    p ≤ (cseLoop buffer p).2 :=
  cseLoopGo_pos_ge _ buffer p

theorem cseLoopGo_pos_shift : ∀ (fuel : Nat) (a t : Str) (p : Nat),
    cseLoopGo fuel (a ++ t) (a.length + p) =
      ((cseLoopGo fuel t p).1, a.length + (cseLoopGo fuel t p).2) := by
  intro fuel
  induction fuel with
  | zero =>
    intro a t p
    rfl
  | succ fuel ih =>
    intro a t p
    cases hf : findFrom openCse t p with
    | none =>
      have hL : findFrom openCse (a ++ t) (a.length + p) = none := by
        rw [findFrom_append_shift, hf]
        rfl
      rw [cseLoopGo_none hL, cseLoopGo_none hf]
    | some s =>
      have hL1 : findFrom openCse (a ++ t) (a.length + p) =
          some (s + a.length) := by
        rw [findFrom_append_shift, hf]
        rfl
      cases hc : findFrom closeCse t s with
      | none =>
        have hL2 : findFrom closeCse (a ++ t) (s + a.length) = none := by
          rw [show s + a.length = a.length + s by omega,
            findFrom_append_shift, hc]
          rfl
        rw [cseLoopGo_noclose hL1 hL2, cseLoopGo_noclose hf hc]
      | some e0 =>
        have hL2 : findFrom closeCse (a ++ t) (s + a.length) =
            some (e0 + a.length) := by
          rw [show s + a.length = a.length + s by omega,
            findFrom_append_shift, hc]
          rfl
        rw [cseLoopGo_found hL1 hL2, cseLoopGo_found hf hc]
        have hsub : ((a ++ t).drop (s + a.length)).take
            (e0 + a.length + closeCse.length - (s + a.length)) =
            (t.drop s).take (e0 + closeCse.length - s) := by
          rw [show s + a.length = a.length + s by omega, drop_append_add]
          congr 1
          omega
        rw [hsub,
          show e0 + a.length + closeCse.length =
            a.length + (e0 + closeCse.length) by omega,
          ih a t (e0 + closeCse.length)]

theorem cseLoop_pos_shift (a t : Str) (p : Nat) :
    cseLoop (a ++ t) (a.length + p) =
      ((cseLoop t p).1, a.length + (cseLoop t p).2) := by
  show cseLoopGo ((a ++ t).length + 1) (a ++ t) (a.length + p) = _
  rw [cseLoopGo_pos_shift ((a ++ t).length + 1) a t p,
    cseLoopGo_mono ((a ++ t).length + 1) (t.length + 1) t p
      (by rw [List.length_append]; omega) (by omega)]
  rfl

theorem cseLoop_shift {a : Str} (t : Str) (ha : NoStart openCse a) :
    cseLoop (a ++ t) 0 =
      ((cseLoop t 0).1,
        if (cseLoop t 0).2 = 0 then 0 else a.length + (cseLoop t 0).2) := by
  have hfind : ∀ k, findFrom openCse t 0 = k →
      findFrom openCse (a ++ t) 0 = k.map (· + a.length) := by
    intro k hk
    unfold findFrom at hk ⊢
    simp only [List.drop_zero] at hk ⊢
    rw [findSub_append_shift ha]
    rw [← hk]
    cases findSub openCse t with
    | none => rfl
    | some j =>
      show some (j + a.length) = some (j + 0 + a.length)
      rfl
  cases hf : findFrom openCse t 0 with
  | none =>
    rw [cseLoop_none (hfind none hf), cseLoop_none hf]
    split
    · rfl
    · rename_i h0
      exact absurd rfl h0
  | some s =>
    cases hc : findFrom closeCse t s with
    | none =>
      have hL2 : findFrom closeCse (a ++ t) (s + a.length) = none := by
        rw [show s + a.length = a.length + s by omega, findFrom_append_shift,
          hc]
        rfl
      rw [cseLoop_noclose (hfind (some s) hf) hL2, cseLoop_noclose hf hc]
      split
      · rfl
      · rename_i h0
        exact absurd rfl h0
    | some e0 =>
      have hL2 : findFrom closeCse (a ++ t) (s + a.length) =
          some (e0 + a.length) := by
        rw [show s + a.length = a.length + s by omega, findFrom_append_shift,
          hc]
        rfl
      rw [cseLoop_found (hfind (some s) hf) hL2, cseLoop_found hf hc]
      have hsub : ((a ++ t).drop (s + a.length)).take
          (e0 + a.length + closeCse.length - (s + a.length)) =
          (t.drop s).take (e0 + closeCse.length - s) := by
        rw [show s + a.length = a.length + s by omega, drop_append_add]
        congr 1
        omega
      rw [hsub,
        show e0 + a.length + closeCse.length =
          a.length + (e0 + closeCse.length) by omega,
        cseLoop_pos_shift a t (e0 + closeCse.length)]
      have hge := cseLoop_pos_ge t (e0 + closeCse.length)
      have hcl : closeCse.length = 17 := rfl
      show ((if (parse_single_event ((t.drop s).take
            (e0 + closeCse.length - s))).is_valid
          then [parse_single_event ((t.drop s).take
            (e0 + closeCse.length - s))] else []) ++
          (cseLoop t (e0 + closeCse.length)).1,
          a.length + (cseLoop t (e0 + closeCse.length)).2) =
        ((if (parse_single_event ((t.drop s).take
            (e0 + closeCse.length - s))).is_valid
          then [parse_single_event ((t.drop s).take
            (e0 + closeCse.length - s))] else []) ++
          (cseLoop t (e0 + closeCse.length)).1,
          if (cseLoop t (e0 + closeCse.length)).2 = 0 then 0
          else a.length + (cseLoop t (e0 + closeCse.length)).2)
      rw [if_neg (by omega : ¬ (cseLoop t (e0 + closeCse.length)).2 = 0)]

end SipProc

namespace SipProc

theorem noStart_tagged {pat : Str} (tag body : Str)
    (h1 : noStartB pat ('<' :: (tag ++ ">".data)) = true)
    (h2 : noStartB pat ('<' :: '/' :: (tag ++ ">".data)) = true)
    (hpat : pat.head? = some '<') (hb : '<' ∉ body) :
    NoStart pat (tagged tag body) :=
  noStart_append
    (noStart_append (noStart_of_noStartB h1) (noStart_of_no_lt hpat hb))
    (noStart_of_noStartB h2)

theorem noStart_openCse_fields (f : CseFields) (hg : goodFields f) :
    NoStart openCse (renderFields f) := by
  obtain ⟨h1, h2, h3, h4, h5, h6, h7⟩ := hg
  have hp : openCse.head? = some '<' := rfl
  exact noStart_append (noStart_append (noStart_append (noStart_append
    (noStart_append (noStart_append
    (noStart_tagged _ _ (by decide) (by decide) hp h1)
    (noStart_tagged _ _ (by decide) (by decide) hp h2))
    (noStart_tagged _ _ (by decide) (by decide) hp h3))
    (noStart_tagged _ _ (by decide) (by decide) hp h4))
    (noStart_tagged _ _ (by decide) (by decide) hp h5))
    (noStart_tagged _ _ (by decide) (by decide) hp h6))
    (noStart_tagged _ _ (by decide) (by decide) hp h7)

theorem noStart_closeCse_fields (f : CseFields) (hg : goodFields f) :
    NoStart closeCse (renderFields f) := by
  obtain ⟨h1, h2, h3, h4, h5, h6, h7⟩ := hg
  have hp : closeCse.head? = some '<' := rfl
  exact noStart_append (noStart_append (noStart_append (noStart_append
    (noStart_append (noStart_append
    (noStart_tagged _ _ (by decide) (by decide) hp h1)
    (noStart_tagged _ _ (by decide) (by decide) hp h2))
    (noStart_tagged _ _ (by decide) (by decide) hp h3))
    (noStart_tagged _ _ (by decide) (by decide) hp h4))
    (noStart_tagged _ _ (by decide) (by decide) hp h5))
    (noStart_tagged _ _ (by decide) (by decide) hp h6))
    (noStart_tagged _ _ (by decide) (by decide) hp h7)

theorem noStart_openHb_fields (f : CseFields) (hg : goodFields f) :
    NoStart openHb (renderFields f) := by
  obtain ⟨h1, h2, h3, h4, h5, h6, h7⟩ := hg
  have hp : openHb.head? = some '<' := rfl
  exact noStart_append (noStart_append (noStart_append (noStart_append
    (noStart_append (noStart_append
    (noStart_tagged _ _ (by decide) (by decide) hp h1)
    (noStart_tagged _ _ (by decide) (by decide) hp h2))
    (noStart_tagged _ _ (by decide) (by decide) hp h3))
    (noStart_tagged _ _ (by decide) (by decide) hp h4))
    (noStart_tagged _ _ (by decide) (by decide) hp h5))
    (noStart_tagged _ _ (by decide) (by decide) hp h6))
    (noStart_tagged _ _ (by decide) (by decide) hp h7)

theorem noStart_closeHb_fields (f : CseFields) (hg : goodFields f) :
    NoStart closeHb (renderFields f) := by
  obtain ⟨h1, h2, h3, h4, h5, h6, h7⟩ := hg
  have hp : closeHb.head? = some '<' := rfl
  exact noStart_append (noStart_append (noStart_append (noStart_append
    (noStart_append (noStart_append
    (noStart_tagged _ _ (by decide) (by decide) hp h1)
    (noStart_tagged _ _ (by decide) (by decide) hp h2))
    (noStart_tagged _ _ (by decide) (by decide) hp h3))
    (noStart_tagged _ _ (by decide) (by decide) hp h4))
    (noStart_tagged _ _ (by decide) (by decide) hp h5))
    (noStart_tagged _ _ (by decide) (by decide) hp h6))
    (noStart_tagged _ _ (by decide) (by decide) hp h7)

theorem noStart_openCse_hbFrame : NoStart openCse (renderFrame Frame.hb) :=
  noStart_of_noStartB (by decide)

theorem noStart_closeCse_pre (f : CseFields) (hg : goodFields f) :
    NoStart closeCse (openCse ++ renderFields f) :=
  noStart_append (noStart_of_noStartB (by decide)) (noStart_closeCse_fields f hg)

theorem noStart_openHb_cseFrame (f : CseFields) (hg : goodFields f) :
    NoStart openHb (renderFrame (Frame.cse f)) := by
  show NoStart openHb (openCse ++ renderFields f ++ closeCse)
  exact noStart_append (noStart_append (noStart_of_noStartB (by decide))
    (noStart_openHb_fields f hg)) (noStart_of_noStartB (by decide))

theorem noStart_closeHb_cseFrame (f : CseFields) (hg : goodFields f) :
    NoStart closeHb (renderFrame (Frame.cse f)) := by
  show NoStart closeHb (openCse ++ renderFields f ++ closeCse)
  exact noStart_append (noStart_append (noStart_of_noStartB (by decide))
    (noStart_closeHb_fields f hg)) (noStart_of_noStartB (by decide))

theorem noStart_closeHb_openHb : NoStart closeHb openHb :=
  noStart_of_noStartB (by decide)

/-- A partial frame: empty, or a proper prefix of one well-formed frame. -/
def GoodPartial (q : Str) : Prop :=
  q = [] ∨ ∃ fr, goodFrame fr ∧ q <+: renderFrame fr ∧
    q.length < (renderFrame fr).length

theorem renderStream_cons (fr : Frame) (rest : List Frame) :
    renderStream (fr :: rest) = renderFrame fr ++ renderStream rest := rfl

theorem renderStream_nil : renderStream [] = [] := rfl

/-- The CSE scan never consumes anything out of a lone partial frame. -/
theorem cseLoop_partial {q : Str} (hq : GoodPartial q) :
    cseLoop q 0 = ([], 0) := by
  rcases hq with rfl | ⟨fr, hg, hpre, hlt⟩
  · exact cseLoop_none (by decide)
  · cases fr with
    | hb =>
      have hnone : findSub openCse q = none :=
        findSub_eq_none_of_prefix (by decide) hpre noStart_openCse_hbFrame
      exact cseLoop_none (findFrom_eq_none_of_findSub 0 hnone)
    | cse f =>
      have hshape : renderFrame (Frame.cse f) =
          (openCse ++ renderFields f) ++ closeCse := by
        show openCse ++ renderFields f ++ closeCse = _
        rfl
      have hclose : findSub closeCse q = none := by
        refine findSub_eq_none_of_proper (by decide) (hshape ▸ hpre) ?_
          (noStart_closeCse_pre f hg)
        rw [← hshape]
        exact hlt
      cases hof : findFrom openCse q 0 with
      | none => exact cseLoop_none hof
      | some s =>
        exact cseLoop_noclose hof (findFrom_eq_none_of_findSub s hclose)

def hasCse : List Frame → Bool
  | [] => false
  | Frame.cse _ :: _ => true
  | Frame.hb :: rest => hasCse rest

/-- The buffer offset just past the last complete CallStateEvent frame (0
when there is none): where the CSE scan of `feed` stops. -/
def cseEnd : List Frame → Nat
  | [] => 0
  | Frame.cse f :: rest => (renderFrame (Frame.cse f)).length + cseEnd rest
  | Frame.hb :: rest =>
    if cseEnd rest = 0 then 0 else (renderFrame Frame.hb).length + cseEnd rest

/-- The heartbeat frames after the last CallStateEvent frame. -/
def trailingHbs : List Frame → List Frame
  | [] => []
  | Frame.cse _ :: rest => trailingHbs rest
  | Frame.hb :: rest =>
    if hasCse rest then trailingHbs rest else Frame.hb :: rest

theorem renderFrame_length_pos (fr : Frame) : 0 < (renderFrame fr).length := by
  cases fr with
  | cse f =>
    show 0 < (openCse ++ renderFields f ++ closeCse).length
    simp only [List.length_append]
    have : openCse.length = 16 := rfl
    omega
  | hb => decide

theorem cseLoop_stream (gs : List Frame) (hg : ∀ fr ∈ gs, goodFrame fr)
    {q : Str} (hq : GoodPartial q) :
    cseLoop (renderStream gs ++ q) 0 = (streamEvents gs, cseEnd gs) := by
  induction gs with
  | nil =>
    rw [renderStream_nil, List.nil_append]
    exact cseLoop_partial hq
  | cons fr rest ih =>
    have hgrest : ∀ f ∈ rest, goodFrame f := fun f hf => hg f (by simp [hf])
    have ihr := ih hgrest
    cases fr with
    | hb =>
      rw [renderStream_cons, List.append_assoc,
        cseLoop_shift _ noStart_openCse_hbFrame, ihr]
      show ((streamEvents rest),
          if cseEnd rest = 0 then 0
          else (renderFrame Frame.hb).length + cseEnd rest) =
        (streamEvents (Frame.hb :: rest), cseEnd (Frame.hb :: rest))
      rfl
    | cse f =>
      have hgf : goodFields f := hg (Frame.cse f) (by simp)
      have hshape : renderStream (Frame.cse f :: rest) ++ q =
          (openCse ++ renderFields f) ++
            (closeCse ++ (renderStream rest ++ q)) := by
        rw [renderStream_cons]
        show openCse ++ renderFields f ++ closeCse ++ renderStream rest ++ q = _
        simp [List.append_assoc]
      have h1 : findFrom openCse (renderStream (Frame.cse f :: rest) ++ q) 0 =
          some 0 := by
        unfold findFrom
        rw [List.drop_zero, findSub_of_pref ?hp]
        · rfl
        case hp =>
          rw [hshape]
          exact (List.prefix_append openCse (renderFields f)).trans
            (List.prefix_append _ _)
      have h2 : findFrom closeCse (renderStream (Frame.cse f :: rest) ++ q) 0 =
          some (openCse ++ renderFields f).length := by
        unfold findFrom
        rw [List.drop_zero, hshape, findSub_append_exact
          (noStart_closeCse_pre f hgf)]
        rfl
      rw [cseLoop_found h1 h2]
      have hsub : ((renderStream (Frame.cse f :: rest) ++ q).drop 0).take
          ((openCse ++ renderFields f).length + closeCse.length - 0) =
          renderFrame (Frame.cse f) := by
        rw [List.drop_zero, renderStream_cons, List.append_assoc]
        rw [List.take_left' ?hlen]
        case hlen =>
          show (openCse ++ renderFields f ++ closeCse).length = _
          simp only [List.length_append]
          have : closeCse.length = 17 := rfl
          omega
      have hrec : cseLoop (renderStream (Frame.cse f :: rest) ++ q)
          ((openCse ++ renderFields f).length + closeCse.length) =
          ((cseLoop (renderStream rest ++ q) 0).1,
            (renderFrame (Frame.cse f)).length +
              (cseLoop (renderStream rest ++ q) 0).2) := by
        have hlen : (openCse ++ renderFields f).length + closeCse.length =
            (renderFrame (Frame.cse f)).length + 0 := by
          show _ = (openCse ++ renderFields f ++ closeCse).length + 0
          simp only [List.length_append]
          have : closeCse.length = 17 := rfl
          omega
        rw [hlen, renderStream_cons, List.append_assoc,
          cseLoop_pos_shift (renderFrame (Frame.cse f))
            (renderStream rest ++ q) 0]
      rw [hsub, hrec, ihr]
      show ((if (parse_single_event (renderFrame (Frame.cse f))).is_valid
          then [parse_single_event (renderFrame (Frame.cse f))] else []) ++
          streamEvents rest,
          (renderFrame (Frame.cse f)).length + cseEnd rest) =
        (streamEvents (Frame.cse f :: rest), cseEnd (Frame.cse f :: rest))
      have hev : streamEvents (Frame.cse f :: rest) =
          (if (parse_single_event (renderFrame (Frame.cse f))).is_valid
          then [parse_single_event (renderFrame (Frame.cse f))] else []) ++
          streamEvents rest := by
        show (Frame.cse f :: rest).filterMap _ = _
        rw [List.filterMap_cons]
        by_cases hv : (parse_single_event (renderFrame (Frame.cse f))).is_valid
        · simp only [hv, if_true]
          rfl
        · simp only [hv, if_false]
          rfl
      rw [hev]
      rfl

end SipProc

namespace SipProc

theorem renderStream_append (a b : List Frame) :
    renderStream (a ++ b) = renderStream a ++ renderStream b := by
  simp [renderStream]

theorem streamEvents_append (a b : List Frame) :
    streamEvents (a ++ b) = streamEvents a ++ streamEvents b := by
  simp [streamEvents]

theorem streamEvents_allHb {hs : List Frame}
    (h : ∀ fr ∈ hs, fr = Frame.hb) : streamEvents hs = [] := by
  induction hs with
  | nil => rfl
  | cons fr rest ih =>
    obtain rfl : fr = Frame.hb := h fr (by simp)
    show streamEvents (Frame.hb :: rest) = []
    rw [show streamEvents (Frame.hb :: rest) = streamEvents rest from rfl]
    exact ih (fun f hf => h f (by simp [hf]))

theorem cseEnd_zero_of_not_hasCse {gs : List Frame}
    (h : hasCse gs = false) : cseEnd gs = 0 := by
  induction gs with
  | nil => rfl
  | cons fr rest ih =>
    cases fr with
    | cse f => exact absurd h (by simp [hasCse])
    | hb =>
      have hr : hasCse rest = false := h
      show (if cseEnd rest = 0 then 0
        else (renderFrame Frame.hb).length + cseEnd rest) = 0
      rw [ih hr, if_pos rfl]

theorem allHb_of_not_hasCse {gs : List Frame} (h : hasCse gs = false) :
    ∀ fr ∈ gs, fr = Frame.hb := by
  induction gs with
  | nil => intro fr hf; exact absurd hf (List.not_mem_nil fr)
  | cons fr rest ih =>
    intro g hgm
    cases fr with
    | cse f => exact absurd h (by simp [hasCse])
    | hb =>
      rcases List.mem_cons.mp hgm with rfl | hgm
      · rfl
      · exact ih h g hgm

theorem trailingHbs_allHb (gs : List Frame) :
    ∀ fr ∈ trailingHbs gs, fr = Frame.hb := by
  induction gs with
  | nil => intro fr hf; exact absurd hf (List.not_mem_nil fr)
  | cons fr rest ih =>
    cases fr with
    | cse f => exact ih
    | hb =>
      show ∀ g ∈ (if hasCse rest then trailingHbs rest
        else Frame.hb :: rest), g = Frame.hb
      by_cases hc : hasCse rest
      · rw [if_pos hc]
        exact ih
      · rw [if_neg hc]
        intro g hgm
        rcases List.mem_cons.mp hgm with rfl | hgm
        · rfl
        · exact allHb_of_not_hasCse (Bool.not_eq_true _ ▸ eq_false_of_ne_true hc) g hgm

theorem cseEnd_pos_of_hasCse {gs : List Frame} (h : hasCse gs = true) :
    cseEnd gs ≠ 0 := by
  induction gs with
  | nil => exact absurd h (by simp [hasCse])
  | cons fr rest ih =>
    cases fr with
    | cse f =>
      show (renderFrame (Frame.cse f)).length + cseEnd rest ≠ 0
      have hp := renderFrame_length_pos (Frame.cse f)
      omega
    | hb =>
      have hr : hasCse rest = true := h
      show (if cseEnd rest = 0 then 0
        else (renderFrame Frame.hb).length + cseEnd rest) ≠ 0
      rw [if_neg (ih hr)]
      have hp := renderFrame_length_pos Frame.hb
      omega

theorem stream_split (gs : List Frame) :
    ∃ a : Str, renderStream gs = a ++ renderStream (trailingHbs gs) ∧
      a.length = cseEnd gs := by
  induction gs with
  | nil => exact ⟨[], rfl, rfl⟩
  | cons fr rest ih =>
    obtain ⟨a, ha, hlen⟩ := ih
    cases fr with
    | cse f =>
      refine ⟨renderFrame (Frame.cse f) ++ a, ?_, ?_⟩
      · rw [renderStream_cons, ha,
          show trailingHbs (Frame.cse f :: rest) = trailingHbs rest from rfl,
          List.append_assoc]
      · rw [List.length_append, hlen]
        rfl
    | hb =>
      by_cases hc : hasCse rest
      · refine ⟨renderFrame Frame.hb ++ a, ?_, ?_⟩
        · rw [renderStream_cons, ha,
            show trailingHbs (Frame.hb :: rest) = trailingHbs rest from by
              show (if hasCse rest then trailingHbs rest
                else Frame.hb :: rest) = trailingHbs rest
              rw [if_pos hc],
            List.append_assoc]
        · rw [List.length_append, hlen]
          show _ = (if cseEnd rest = 0 then 0
            else (renderFrame Frame.hb).length + cseEnd rest)
          rw [if_neg (cseEnd_pos_of_hasCse hc)]
      · refine ⟨[], ?_, ?_⟩
        · rw [List.nil_append,
            show trailingHbs (Frame.hb :: rest) = Frame.hb :: rest from by
              show (if hasCse rest then trailingHbs rest
                else Frame.hb :: rest) = Frame.hb :: rest
              rw [if_neg hc]]
        · show (0 : Nat) = (if cseEnd rest = 0 then 0
            else (renderFrame Frame.hb).length + cseEnd rest)
          rw [if_pos (cseEnd_zero_of_not_hasCse
            (eq_false_of_ne_true hc))]

end SipProc

namespace SipProc

theorem drop_add (l : Str) (a b : Nat) : l.drop (a + b) = (l.drop a).drop b := by
  rw [List.drop_drop]

theorem head_lt_of_part {q : Str} (hq : GoodPartial q) (hne : q ≠ []) :
    ∃ t, q = '<' :: t := by
  rcases hq with rfl | ⟨fr, _, hpre, _⟩
  · exact absurd rfl hne
  · obtain ⟨t, ht⟩ := hpre
    cases q with
    | nil => exact absurd rfl hne
    | cons c q2 =>
      refine ⟨q2, ?_⟩
      have hh : (renderFrame fr).head? = some c := by
        rw [← ht]
        rfl
      have hh2 : (renderFrame fr).head? = some '<' := by
        cases fr with
        | cse f => rfl
        | hb => rfl
      rw [hh2] at hh
      obtain rfl : '<' = c := Option.some.inj hh
      rfl

theorem garbageTrim_eq {s : Str} (h : s = [] ∨ ∃ t, s = '<' :: t) :
    garbageTrim s = s := by
  unfold garbageTrim
  rcases h with rfl | ⟨t, rfl⟩
  · rw [if_pos rfl]
  · rw [if_neg (by simp),
      show findSub ['<'] ('<' :: t) = some 0 from findSub_of_pref ⟨t, rfl⟩]
    rfl

theorem hbScan_cons {buf : Str} {E : Nat} {t3 : List Frame} {q1 : Str}
    (hdrop : buf.drop E = renderFrame Frame.hb ++ (renderStream t3 ++ q1)) :
    hbScan buf E = (true, E + 23) ∧
      buf.drop (E + 23) = renderStream t3 ++ q1 := by
  have hshape : buf.drop E = openHb ++ (closeHb ++ (renderStream t3 ++ q1)) := by
    rw [hdrop]
    show (openHb ++ closeHb) ++ (renderStream t3 ++ q1) = _
    rw [List.append_assoc]
  have hopen : findFrom openHb buf E = some E := by
    unfold findFrom
    rw [hshape, findSub_of_pref (List.prefix_append openHb _)]
    show some (0 + E) = some E
    rw [Nat.zero_add]
  have hclose : findFrom closeHb buf E = some (11 + E) := by
    unfold findFrom
    rw [hshape, findSub_append_exact noStart_closeHb_openHb]
    rfl
  constructor
  · unfold hbScan
    rw [hopen]
    show (match findFrom closeHb buf E with
      | none => ((false : Bool), E)
      | some hb_e => (true, hb_e + 12)) = (true, E + 23)
    rw [hclose]
    show (true, 11 + E + 12) = (true, E + 23)
    congr 1
    omega
  · rw [drop_add buf E 23, hdrop,
      show (23 : Nat) = (renderFrame Frame.hb).length from rfl,
      List.drop_left]

theorem hbScan_partial {buf : Str} {E : Nat} {q1 : Str}
    (hdrop : buf.drop E = q1) (hq1 : GoodPartial q1) :
    hbScan buf E = (false, E) := by
  rcases hq1 with rfl | ⟨fr, hg, hpre, hlt⟩
  · unfold hbScan
    rw [show findFrom openHb buf E = none from by
      unfold findFrom
      rw [hdrop]
      rfl]
  · cases fr with
    | cse f =>
      have hnone : findSub openHb q1 = none :=
        findSub_eq_none_of_prefix (by decide) hpre
          (noStart_openHb_cseFrame f hg)
      unfold hbScan
      rw [show findFrom openHb buf E = none from by
        unfold findFrom
        rw [hdrop, hnone]
        rfl]
    | hb =>
      have hpre2 : q1 <+: openHb ++ closeHb := hpre
      have hlt2 : q1.length < (openHb ++ closeHb).length := hlt
      have hclnone : findSub closeHb q1 = none :=
        findSub_eq_none_of_proper (by decide) hpre2 hlt2 noStart_closeHb_openHb
      have hclall := findSub_eq_none hclnone
      unfold hbScan
      cases hof : findFrom openHb buf E with
      | none => rfl
      | some hb_s =>
        obtain ⟨hge, -, -⟩ := findFrom_some_bounds hof (by decide)
        show (match findFrom closeHb buf hb_s with
          | none => ((false : Bool), E)
          | some hb_e => (true, hb_e + 12)) = (false, E)
        rw [show findFrom closeHb buf hb_s = none from by
          unfold findFrom
          cases hcf : findSub closeHb (buf.drop hb_s) with
          | none => rfl
          | some k =>
            exfalso
            have hocc := findSub_eq_some_occ hcf
            rw [List.drop_drop] at hocc
            have hbs : hb_s + k = E + (hb_s + k - E) := by omega
            rw [hbs, drop_add, hdrop] at hocc
            exact hclall _ hocc]

end SipProc

namespace SipProc

/-- One feed against an aligned buffer: all newly completed frames are
consumed, exactly their valid CallStateEvents are produced, and the buffer
is left as trailing heartbeats plus the partial frame. -/
theorem feed_step (maxBuf : Nat) (hs fs1 : List Frame) (qprev q1 c : Str)
    (hhs : ∀ fr ∈ hs, fr = Frame.hb) (hgood : ∀ fr ∈ fs1, goodFrame fr)
    (hq1 : GoodPartial q1) (hc : c ≠ [])
    (hjoin : qprev ++ c = renderStream fs1 ++ q1)
    (hcap : ¬ (maxBuf < (renderStream hs ++ qprev).length + c.length)) :
    ∃ hs2 : List Frame, ∃ b : Bool, (∀ fr ∈ hs2, fr = Frame.hb) ∧
      (renderStream hs2).length ≤ (renderStream (hs ++ fs1)).length ∧
      feed maxBuf (renderStream hs ++ qprev) c =
        (streamEvents fs1, b, renderStream hs2 ++ q1, false) := by
  have hbuf : (renderStream hs ++ qprev) ++ c =
      renderStream (hs ++ fs1) ++ q1 := by
    rw [List.append_assoc, hjoin, renderStream_append, List.append_assoc]
  have hgall : ∀ fr ∈ hs ++ fs1, goodFrame fr := by
    intro fr hf
    rcases List.mem_append.mp hf with hf | hf
    · rw [hhs fr hf]
      trivial
    · exact hgood fr hf
  have hloop : cseLoop ((renderStream hs ++ qprev) ++ c) 0 =
      (streamEvents fs1, cseEnd (hs ++ fs1)) := by
    rw [hbuf, cseLoop_stream (hs ++ fs1) hgall hq1, streamEvents_append,
      streamEvents_allHb hhs, List.nil_append]
  obtain ⟨a, hsplit, halen⟩ := stream_split (hs ++ fs1)
  have ht2hb := trailingHbs_allHb (hs ++ fs1)
  have hdropE : ((renderStream hs ++ qprev) ++ c).drop (cseEnd (hs ++ fs1)) =
      renderStream (trailingHbs (hs ++ fs1)) ++ q1 := by
    rw [hbuf, hsplit, List.append_assoc, ← halen, List.drop_left]
  have htlen : (renderStream (trailingHbs (hs ++ fs1))).length ≤
      (renderStream (hs ++ fs1)).length := by
    rw [hsplit, List.length_append]
    omega
  cases ht2 : trailingHbs (hs ++ fs1) with
  | nil =>
    rw [ht2, renderStream_nil, List.nil_append] at hdropE
    have hscan : hbScan ((renderStream hs ++ qprev) ++ c)
        (cseEnd (hs ++ fs1)) = (false, cseEnd (hs ++ fs1)) :=
      hbScan_partial hdropE hq1
    refine ⟨[], false, by simp, by rw [renderStream_nil]; simp, ?_⟩
    unfold feed
    rw [if_neg hc, if_neg hcap, hloop]
    dsimp only
    rw [hscan]
    dsimp only
    rw [hdropE, garbageTrim_eq ?hh, renderStream_nil, List.nil_append]
    case hh =>
      by_cases hq1e : q1 = []
      · exact Or.inl hq1e
      · exact Or.inr (head_lt_of_part hq1 hq1e)
  | cons fr t3 =>
    have hfr : fr = Frame.hb := ht2hb fr (by rw [ht2]; simp)
    subst hfr
    rw [ht2, renderStream_cons,
      List.append_assoc (renderFrame Frame.hb) (renderStream t3) q1] at hdropE
    rw [ht2, renderStream_cons, List.length_append] at htlen
    obtain ⟨hscan, hdrop23⟩ := hbScan_cons hdropE
    have ht3hb : ∀ g ∈ t3, g = Frame.hb :=
      fun g hg2 => ht2hb g (by rw [ht2]; simp [hg2])
    refine ⟨t3, true, ht3hb, by omega, ?_⟩
    unfold feed
    rw [if_neg hc, if_neg hcap, hloop]
    dsimp only
    rw [hscan]
    dsimp only
    rw [hdrop23, garbageTrim_eq ?hh]
    case hh =>
      cases ht3 : t3 with
      | nil =>
        rw [renderStream_nil, List.nil_append]
        by_cases hq1e : q1 = []
        · exact Or.inl hq1e
        · exact Or.inr (head_lt_of_part hq1 hq1e)
      | cons g t4 =>
        right
        have hg : g = Frame.hb := ht3hb g (by rw [ht3]; simp)
        rw [renderStream_cons, hg]
        exact ⟨_, rfl⟩

end SipProc

namespace SipProc

/-- The partial byte-string pending against the head of the remaining
stream. -/
def PartialFor (q : Str) (rest : List Frame) : Prop :=
  q = [] ∨ ∃ fr rest2, rest = fr :: rest2 ∧ q <+: renderFrame fr ∧
    q.length < (renderFrame fr).length

theorem goodPartial_of_partialFor {q : Str} {rest : List Frame}
    (hg : ∀ fr ∈ rest, goodFrame fr) (h : PartialFor q rest) :
    GoodPartial q := by
  rcases h with rfl | ⟨fr, rest2, hre, hpre, hlt⟩
  · exact Or.inl rfl
  · exact Or.inr ⟨fr, hg fr (by rw [hre]; simp), hpre, hlt⟩

theorem renderStream_eq_nil {rest : List Frame}
    (h : renderStream rest = []) : rest = [] := by
  cases rest with
  | nil => rfl
  | cons fr rest2 =>
    exfalso
    rw [renderStream_cons] at h
    have := renderFrame_length_pos fr
    have hl := congrArg List.length h
    rw [List.length_append, List.length_nil] at hl
    omega

/-- Any prefix of a rendered stream splits into whole frames plus a
partial of the next frame. -/
theorem stream_prefix_decomp (rest : List Frame) (p : Str)
    (hp : p <+: renderStream rest) :
    ∃ fs1 rest1 q1, rest = fs1 ++ rest1 ∧ p = renderStream fs1 ++ q1 ∧
      PartialFor q1 rest1 := by
  induction rest generalizing p with
  | nil =>
    rw [renderStream_nil] at hp
    obtain rfl : p = [] := List.prefix_nil.mp hp
    exact ⟨[], [], [], rfl, by simp [renderStream_nil], Or.inl rfl⟩
  | cons fr rest ih =>
    rw [renderStream_cons] at hp
    by_cases hlen : p.length < (renderFrame fr).length
    · have hpf : p <+: renderFrame fr :=
        List.prefix_of_prefix_length_le hp (List.prefix_append _ _)
          (by omega)
      exact ⟨[], fr :: rest, p, rfl,
        by rw [renderStream_nil, List.nil_append],
        Or.inr ⟨fr, rest, rfl, hpf, hlen⟩⟩
    · push_neg at hlen
      have hfp : renderFrame fr <+: p :=
        List.prefix_of_prefix_length_le (List.prefix_append _ _) hp hlen
      obtain ⟨p2, hp2⟩ := hfp
      have hp2pre : p2 <+: renderStream rest := by
        obtain ⟨t, ht⟩ := hp
        refine ⟨t, ?_⟩
        have heq : renderFrame fr ++ (p2 ++ t) =
            renderFrame fr ++ renderStream rest := by
          rw [← List.append_assoc, hp2]
          exact ht
        exact List.append_cancel_left heq
      obtain ⟨fs1, rest1, q1, hre, hpe, hq⟩ := ih p2 hp2pre
      exact ⟨fr :: fs1, rest1, q1, by rw [List.cons_append, hre],
        by rw [← hp2, hpe, renderStream_cons, List.append_assoc], hq⟩

/-- The generalized chunking invariant: feeding any chunk split of the
remaining stream bytes onto a buffer of trailing heartbeats plus the
pending partial yields exactly the stream's events. -/
theorem runFeeds_aligned (maxBuf : Nat) (cs : List Str) (hs : List Frame)
    (qprev : Str) (rest : List Frame)
    (hhs : ∀ fr ∈ hs, fr = Frame.hb) (hgood : ∀ fr ∈ rest, goodFrame fr)
    (hpf : PartialFor qprev rest)
    (hjoin : qprev ++ cs.flatten = renderStream rest)
    (hcap : (renderStream hs ++ qprev).length + cs.flatten.length ≤ maxBuf) :
    (runFeeds maxBuf (renderStream hs ++ qprev) cs).1 = streamEvents rest := by
  induction cs generalizing hs qprev rest with
  | nil =>
    simp only [List.flatten_nil, List.append_nil] at hjoin
    rcases hpf with rfl | ⟨fr, rest2, hre, hpre, hlt⟩
    · obtain rfl : rest = [] := renderStream_eq_nil hjoin.symm
      rfl
    · exfalso
      rw [hre, renderStream_cons] at hjoin
      have hl := congrArg List.length hjoin
      rw [List.length_append] at hl
      omega
  | cons c cs ih =>
    by_cases hce : c = []
    · subst hce
      show ((feed maxBuf (renderStream hs ++ qprev) []).1 ++ _, _).1 = _
      rw [show feed maxBuf (renderStream hs ++ qprev) [] =
        ([], false, renderStream hs ++ qprev, false) from by
          unfold feed
          rw [if_pos rfl]]
      show [] ++ (runFeeds maxBuf (renderStream hs ++ qprev) cs).1 = _
      rw [List.nil_append]
      refine ih hs qprev rest hhs hgood hpf ?_ ?_
      · simpa using hjoin
      · simpa using hcap
    · have hpc : qprev ++ c <+: renderStream rest := by
        refine ⟨cs.flatten, ?_⟩
        rw [List.append_assoc]
        simpa using hjoin
      obtain ⟨fs1, rest1, q1, hre, hpe, hq1f⟩ :=
        stream_prefix_decomp rest _ hpc
      have hgfs1 : ∀ fr ∈ fs1, goodFrame fr :=
        fun fr hf => hgood fr (by rw [hre]; exact List.mem_append_left _ hf)
      have hgrest1 : ∀ fr ∈ rest1, goodFrame fr :=
        fun fr hf => hgood fr (by rw [hre]; exact List.mem_append_right _ hf)
      have hq1g : GoodPartial q1 := goodPartial_of_partialFor hgrest1 hq1f
      have hclen : c.length ≤ cs.flatten.length + c.length := by omega
      obtain ⟨hs2, b, hhs2, hlen2, hfeed⟩ :=
        feed_step maxBuf hs fs1 qprev q1 c hhs hgfs1 hq1g hce hpe
          (by
            simp only [List.flatten_cons, List.length_append] at hcap ⊢
            omega)
      show ((feed maxBuf (renderStream hs ++ qprev) c).1 ++
        (runFeeds maxBuf (feed maxBuf (renderStream hs ++ qprev) c).2.2.1
          cs).1, _).1 = _
      rw [hfeed]
      show streamEvents fs1 ++
        (runFeeds maxBuf (renderStream hs2 ++ q1) cs).1 = _
      have hjoin2 : q1 ++ cs.flatten = renderStream rest1 := by
        have h1 : (qprev ++ c) ++ cs.flatten = renderStream rest := by
          rw [List.append_assoc]
          simpa using hjoin
        rw [hpe, hre, renderStream_append, List.append_assoc] at h1
        exact List.append_cancel_left h1
      have hlq : (renderStream fs1).length + q1.length =
          qprev.length + c.length := by
        have := congrArg List.length hpe
        rw [List.length_append, List.length_append] at this
        omega
      have hcap2 : (renderStream hs2 ++ q1).length + cs.flatten.length ≤
          maxBuf := by
        rw [renderStream_append, List.length_append] at hlen2
        simp only [List.flatten_cons, List.length_append] at hcap
        rw [List.length_append]
        omega
      rw [ih hs2 q1 rest1 hhs2 hgrest1 hq1f hjoin2 hcap2, hre,
        streamEvents_append]

end SipProc

namespace SipProc

/-- A small well-formed CallStateEvent frame used in the C8 instances. -/
def cxFields : CseFields :=
  { callId := ['c'], caller := "a".data, callee := "b".data,
    state := "trying".data, direction := [], tenant := [], timestamp := [] }

set_option maxRecDepth 8192 in
/-- C8 counterexample: heartbeat observations are NOT split-invariant. The
stream `<Heartbeat></Heartbeat><CallStateEvent>…</CallStateEvent>` fed as
one chunk reports no heartbeat — the heartbeat search of `feed` starts at
`search_pos`, which the CallStateEvent scan has already moved past the
heartbeat — while the same bytes split at the frame boundary report one.
The parsed events, however, agree. -/
theorem heartbeat_not_split_invariant :
    (runFeeds 1048576 [] [renderStream [Frame.hb, Frame.cse cxFields]]).2.1 =
      [false] ∧
    (runFeeds 1048576 []
      [renderFrame Frame.hb, renderFrame (Frame.cse cxFields)]).2.1 =
      [true, false] ∧
    (runFeeds 1048576 [] [renderStream [Frame.hb, Frame.cse cxFields]]).1 =
      (runFeeds 1048576 []
        [renderFrame Frame.hb, renderFrame (Frame.cse cxFields)]).1 := by
  decide

/-- C8 (amended): the parsed CallStateEvent sequence is split-invariant,
but the heartbeat observations are not (see
`heartbeat_not_split_invariant`). For every well-formed frame stream —
`<CallStateEvent>` frames with '<'-free element texts and
`<Heartbeat></Heartbeat>` frames — whose total size respects the buffer
cap, feeding the bytes cut into ANY list of chunks yields exactly the
stream's valid events, one-chunk feeding included; so any two splits of
the same stream agree on events. -/
theorem feed_events_split_invariant (maxBuf : Nat) (fs : List Frame)
    (hgood : ∀ fr ∈ fs, goodFrame fr) (cs : List Str)
    (hsplit : cs.flatten = renderStream fs)
    (hcap : (renderStream fs).length ≤ maxBuf) :
    (runFeeds maxBuf [] cs).1 = streamEvents fs := by
  have h := runFeeds_aligned maxBuf cs [] [] fs
    (by intro fr hf; exact absurd hf (List.not_mem_nil fr)) hgood
    (Or.inl rfl)
    (by rw [hsplit]; rfl)
    (by rw [hsplit]; simpa [renderStream_nil] using hcap)
  simpa [renderStream_nil] using h

set_option maxRecDepth 8192 in
/-- Witness: the amended C8 theorem at the two-frame stream split at the
frame boundary. -/
theorem feed_events_split_invariant_witness :
    ((∀ fr ∈ [Frame.hb, Frame.cse cxFields], goodFrame fr) ∧
      ([renderFrame Frame.hb, renderFrame (Frame.cse cxFields)] :
        List Str).flatten = renderStream [Frame.hb, Frame.cse cxFields] ∧
      (renderStream [Frame.hb, Frame.cse cxFields]).length ≤ 1048576) ∧
    (runFeeds 1048576 []
      [renderFrame Frame.hb, renderFrame (Frame.cse cxFields)]).1 =
      streamEvents [Frame.hb, Frame.cse cxFields] :=
  ⟨⟨by decide, by decide, by decide⟩,
   feed_events_split_invariant 1048576 _ (by decide) _ (by decide) (by decide)⟩

end SipProc
